import Mathlib

/-!
# NanoNNG ring buffer, exchange socket and file-range window

A shallow embedding of the ring buffer engine
(`src/supplemental/nanolib/ringbuffer/ringbuffer.c`), of the exchange socket
(`src/mqtt/protocol/exchange/exchange_server.c`) and of the file-range window
(`update_blf_file_ranges` in `src/supplemental/nanolib/blf/blf.cc`), and proofs about
them.

Conventions of the embedding.

* A message pointer (`nng_msg *`, `void *data`) is a natural number, `NULL` is `0`.
  The contents of a message are not part of the ring buffer and are not represented;
  in particular the calls of `nng_msg_set_proto_data` made by the search functions,
  which write into the message and not into the ring buffer, leave no trace here.
* The slot array `rb->msgs` is the memory starting at that address, a total function
  from indices to slots: `msgs i` for `i < cap` is slot `i`, and `msgs i` for `cap ≤ i`
  is whatever lies behind the array, so a read past the end returns an unknown slot.
* `head`, `tail`, `size`, `cap` are `unsigned int`.  In a state with `size ≤ cap`,
  `head < cap`, `tail < cap` none of `tail + 1`, `head + 1`, `size + 1`, `i + 1` can
  reach `2 ^ 32`, so these are plain additions.  The indices of
  `ringBuffer_search_msgs_fuzz` (`head + size - 1`, `low + high`) can, and are reduced
  modulo `2 ^ 32` there.
* An operation returns `none` when the C code has no defined result: a remainder by
  `cap = 0`, or a loop that does not end.  Otherwise it returns `some` of its result,
  with the C return code (`0` or `-1`) in a field `ret`.
* `nng_alloc` is outside these sources.  Whether each allocation of a call succeeds is
  an input of the call (`Alloc`).  `nng_alloc` answers a request of zero bytes with
  `NULL`; in `Alloc` this is `zero = false`, which the theorems about the buffers that
  `ringBuffer_init` creates and about the count of a search assume.
* The mutex `ring_lock` is not represented: every operation is one atomic step.
* Pointer arguments (`rb`, `list`, `msg`, `count`, `aio`) are valid and `rb->msgs` is
  not `NULL`, so the tests of these pointers against `NULL` are not represented.
* A rule's `match` and `target` are functions of the buffer fields, the data pointer
  and the phase that return a code and change nothing.
-/

namespace NanoNNG

/-- A pointer to a message; `0` is `NULL`. -/
abbrev Ptr := Nat

/-- The null pointer. -/
def NULL : Ptr := 0

/-- `struct ringBufferMsg_s`: one slot. -/
structure ringBufferMsg_t where
  key : Nat
  data : Ptr
  expiredAt : Nat
deriving DecidableEq, Repr, Inhabited

/-- `enum fullOption`, the overflow policy, with its end marker `RB_FULL_MAX`. -/
inductive fullOption where
  | RB_FULL_NONE
  | RB_FULL_DROP
  | RB_FULL_RETURN
  | RB_FULL_FILE
  | RB_FULL_MAX
deriving DecidableEq, Repr

/-- The integer value of an enumerator (declaration order). -/
def fullOption.toNat : fullOption → Nat
  | .RB_FULL_NONE => 0
  | .RB_FULL_DROP => 1
  | .RB_FULL_RETURN => 2
  | .RB_FULL_FILE => 3
  | .RB_FULL_MAX => 4

/-- `struct ringBufferFile_s`: the keys of one batch handed to the writer
(`aio` and `ranges` belong to the asynchronous callback). -/
structure ringBufferFile_t where
  keys : List Nat
deriving DecidableEq, Repr

/-- The fields of `struct ringBuffer_s` other than the rule lists. -/
structure ringBuffer_s where
  head : Nat
  tail : Nat
  size : Nat
  cap : Nat
  expiredAt : Nat
  fullOp : fullOption
  files : List ringBufferFile_t
  msgs : Nat → ringBufferMsg_t

/-- `struct ringBufferRule_s`: a (match, target) pair; each returns `0` for
"matches" / "succeeded". -/
structure ringBufferRule_t where
  match_ : ringBuffer_s → Ptr → Nat → Int
  target : ringBuffer_s → Ptr → Nat → Int

/-- `struct ringBuffer_s`: the fields and the four rule lists; the length of a list
is the corresponding `...RuleListLen`. -/
structure ringBuffer_t extends ringBuffer_s where
  enqinRuleList : List ringBufferRule_t
  enqoutRuleList : List ringBufferRule_t
  deqinRuleList : List ringBufferRule_t
  deqoutRuleList : List ringBufferRule_t

/-- Modelled from the spec: the phase flags are macros of `ringbuffer.h`, which is not
among the sources; the spec names four phases (pre-enqueue, post-enqueue, pre-dequeue,
post-dequeue) combined in a phase mask, so each is a bit of its own. -/
def ENQUEUE_IN_HOOK : Nat := 0x0001

/-- Modelled from the spec: the post-enqueue phase flag (see `ENQUEUE_IN_HOOK`). -/
def ENQUEUE_OUT_HOOK : Nat := 0x0010

/-- Modelled from the spec: the pre-dequeue phase flag (see `ENQUEUE_IN_HOOK`). -/
def DEQUEUE_IN_HOOK : Nat := 0x0100

/-- Modelled from the spec: the post-dequeue phase flag (see `ENQUEUE_IN_HOOK`). -/
def DEQUEUE_OUT_HOOK : Nat := 0x1000

/-- The completion object as far as the ring buffer touches it: `msg` is the value of
`list_len` carried by the message attached with `nng_aio_set_msg`, `prov_data` the
list attached with `nng_aio_set_prov_data`. -/
structure nng_aio where
  msg : Option Int
  prov_data : Option (List Ptr)
deriving DecidableEq, Repr

/-- The batch given to `parquet_object_alloc`: the key array, the message array and
their length (the payload pointers and lengths are read off the messages). -/
structure parquet_object where
  keys : List Nat
  smsgs : List Ptr
  size : Nat
deriving DecidableEq, Repr

/-- The allocator during one call: `zero` tells whether a request of zero bytes gets a
block (`nng_alloc` answers such a request with `NULL`, which is `zero = false`), the
other fields whether the allocation at that place of the code succeeds. -/
structure Alloc where
  zero : Bool
  newRB : Bool
  msgs : Bool
  newList : Bool
  list_len : Bool
  tmsg : Bool
  file : Bool
  arrays : Bool
  aio : Bool
  newObj : Bool
  file_keys : Bool
deriving DecidableEq, Repr

/-- An allocator for which every allocation of at least one byte succeeds and a
request of zero bytes returns `NULL`. -/
def Alloc.ok : Alloc :=
  ⟨false, true, true, true, true, true, true, true, true, true, true⟩

/-- `nng_alloc(sz) != NULL` at a place of the code whose outcome is `site`. -/
def nng_alloc (al : Alloc) (site : Bool) (sz : Nat) : Bool :=
  if sz = 0 then al.zero else site

/-- The C remainder `a % b` on unsigned operands: undefined for `b = 0`. -/
def umod (a b : Nat) : Option Nat :=
  if b = 0 then none else some (a % b)

/-- Conversion of an `unsigned int` to `int` (two's complement, 32 bits). -/
def toInt32 (n : Nat) : Int :=
  if n % 2 ^ 32 < 2 ^ 31 then ((n % 2 ^ 32 : Nat) : Int) else ((n % 2 ^ 32 : Nat) : Int) - 2 ^ 32

/-- The assignment `msgs[i] = s`. -/
def setSlot (msgs : Nat → ringBufferMsg_t) (i : Nat) (s : ringBufferMsg_t) :
    Nat → ringBufferMsg_t :=
  fun j => if j = i then s else msgs j

/-- The assignment `msgs[i].data = d`. -/
def setData (msgs : Nat → ringBufferMsg_t) (i : Nat) (d : Ptr) : Nat → ringBufferMsg_t :=
  fun j => if j = i then { msgs j with data := d } else msgs j

/-- The loop of `ringBuffer_get_msgs`: `for (i = head; i < size; i++)` with
`i = i % cap` first in the body; `j` counts the messages copied to `newList`. -/
def ringBuffer_get_msgs.loop (rb : ringBuffer_s) (count : Int) :
    Nat → Nat → Nat → List Ptr → Option (Int × List Ptr)
  | 0, _, _, _ => none
  | fuel + 1, i, j, newList =>
    if i < rb.size then
      match umod i rb.cap with
      | none => none
      | some i1 =>
        if ((j + 1 : Nat) : Int) = count then some (0, newList ++ [(rb.msgs i1).data])
        else ringBuffer_get_msgs.loop rb count fuel (i1 + 1) (j + 1)
          (newList ++ [(rb.msgs i1).data])
    else some (-1, [])

/-- `ringBuffer_get_msgs`: return code and `*list`.  The request is
`count * sizeof(nng_msg *)` in `size_t`, with `count` an `int`. -/
def ringBuffer_get_msgs (rb : ringBuffer_s) (count : Int) (al : Alloc) :
    Option (Int × List Ptr) :=
  if nng_alloc al al.newList ((count % 2 ^ 64).toNat * 8 % 2 ^ 64) = false then some (-1, [])
  else ringBuffer_get_msgs.loop rb count (rb.size + count.toNat + 1) rb.head 0 []

/-- The loop of `ringBuffer_clean_msgs`, with `n = size - count` rounds left:
returns the slot array and the messages passed to `nng_msg_free`. -/
def ringBuffer_clean_msgs.loop (cap : Nat) (needFree : Bool) :
    Nat → Nat → (Nat → ringBufferMsg_t) → List Ptr →
      Option ((Nat → ringBufferMsg_t) × List Ptr)
  | 0, _, msgs, freed => some (msgs, freed)
  | n + 1, i, msgs, freed =>
    match umod (i + 1) cap with
    | none => none
    | some i1 =>
      if (msgs i).data ≠ NULL then
        ringBuffer_clean_msgs.loop cap needFree n i1 (setData msgs i NULL)
          (if needFree then freed ++ [(msgs i).data] else freed)
      else ringBuffer_clean_msgs.loop cap needFree n i1 msgs freed

/-- `ringBuffer_clean_msgs`: the buffer afterwards and the messages freed. -/
def ringBuffer_clean_msgs (rb : ringBuffer_t) (needFree : Bool) :
    Option (ringBuffer_t × List Ptr) :=
  (ringBuffer_clean_msgs.loop rb.cap needFree rb.size rb.head rb.msgs []).map
    fun r => ({ rb with msgs := r.1, head := 0, tail := 0, size := 0 }, r.2)

/-- `ringBuffer_get_and_clean_msgs`: return code, the buffer afterwards and `*list`. -/
def ringBuffer_get_and_clean_msgs (rb : ringBuffer_t) (count : Nat) (al : Alloc) :
    Option (Int × ringBuffer_t × List Ptr) :=
  if count = 0 then some (-1, rb, [])
  else if count > rb.size then some (-1, rb, [])
  else
    match ringBuffer_get_msgs rb.toringBuffer_s (toInt32 count) al with
    | none => none
    | some (ret, list) =>
      if ret ≠ 0 then some (-1, rb, [])
      else
        match ringBuffer_clean_msgs rb false with
        | none => none
        | some (rb1, _) => some (0, rb1, list)

/-- The size in bytes of one slot (a 64-bit key, a pointer, an `unsigned long long`). -/
def sizeof_ringBufferMsg_t : Nat := 24

/-- `ringBuffer_init`: `some` of the new buffer when it returns `0`, `none` when it
returns `-1` and creates nothing.  `RINGBUFFER_MAX_SIZE` is a macro of `ringbuffer.h`
(not among the sources) and is an argument here; `mem` is the content of the block
that `nng_alloc` returned for the slots, which the code does not initialise. -/
def ringBuffer_init (RINGBUFFER_MAX_SIZE : Nat) (cap : Nat) (fullOp : fullOption)
    (expiredAt : Nat) (mem : Nat → ringBufferMsg_t) (al : Alloc) : Option ringBuffer_t :=
  if cap ≥ RINGBUFFER_MAX_SIZE then none
  else if fullOp.toNat ≥ fullOption.RB_FULL_MAX.toNat then none
  else if al.newRB = false then none
  else if nng_alloc al al.msgs (sizeof_ringBufferMsg_t * cap) = false then none
  else some
    { head := 0, tail := 0, size := 0, cap := cap, expiredAt := expiredAt,
      fullOp := fullOp, files := [], msgs := mem,
      enqinRuleList := [], enqoutRuleList := [], deqinRuleList := [],
      deqoutRuleList := [] }

/-- `ringBufferRule_check`: the rules of one phase, in list order. -/
def ringBufferRule_check (rb : ringBuffer_s) :
    List ringBufferRule_t → Ptr → Nat → Int
  | [], _, _ => 0
  | r :: rest, data, flag =>
    if r.match_ rb data flag ≠ 0 then ringBufferRule_check rb rest data flag
    else if r.target rb data flag ≠ 0 then -1
    else ringBufferRule_check rb rest data flag

/-- `ringBuffer_rule_check`: the phases named by `flag`, each with its own list. -/
def ringBuffer_rule_check (rb : ringBuffer_t) (data : Ptr) (flag : Nat) : Int :=
  if flag &&& ENQUEUE_IN_HOOK ≠ 0 ∧
      ringBufferRule_check rb.toringBuffer_s rb.enqinRuleList data ENQUEUE_IN_HOOK ≠ 0 then -1
  else if flag &&& ENQUEUE_OUT_HOOK ≠ 0 ∧
      ringBufferRule_check rb.toringBuffer_s rb.enqoutRuleList data ENQUEUE_OUT_HOOK ≠ 0 then -1
  else if flag &&& DEQUEUE_IN_HOOK ≠ 0 ∧
      ringBufferRule_check rb.toringBuffer_s rb.deqinRuleList data DEQUEUE_IN_HOOK ≠ 0 then -1
  else if flag &&& DEQUEUE_OUT_HOOK ≠ 0 ∧
      ringBufferRule_check rb.toringBuffer_s rb.deqoutRuleList data DEQUEUE_OUT_HOOK ≠ 0 then -1
  else 0

/-- `init_parquet_object`: the object built from slots `0 .. size - 1`, or `none` for
`NULL`. -/
def init_parquet_object (rb : ringBuffer_t) (al : Alloc) : Option parquet_object :=
  if nng_alloc al al.arrays (8 * rb.size) = false then none
  else if al.aio = false then none
  else if al.newObj = false then none
  else some
    { keys := (List.range rb.size).map fun i => (rb.msgs i).key,
      smsgs := (List.range rb.size).map fun i => (rb.msgs i).data,
      size := rb.size }

/-- What `ringBuffer_enqueue` and its overflow helpers hand back: the return code, the
buffer, the completion, the messages passed to `nng_msg_free` and the batch passed to
`parquet_write_batch_async`. -/
structure EnqueueOut where
  ret : Int
  rb : ringBuffer_t
  aio : nng_aio
  freed : List Ptr
  parquet : Option parquet_object

/-- `ringBuffer_clean_msgs` as the last step of a path that returns `ret`. -/
def cleanAndReturn (rb : ringBuffer_t) (needFree : Bool) (ret : Int) (aio : nng_aio)
    (parquet : Option parquet_object) : Option EnqueueOut :=
  (ringBuffer_clean_msgs rb needFree).map fun r =>
    { ret := ret, rb := r.1, aio := aio, freed := r.2, parquet := parquet }

/-- `write_msgs_to_file`. -/
def write_msgs_to_file (rb : ringBuffer_t) (aio : nng_aio) (al : Alloc) :
    Option EnqueueOut :=
  if al.file = false then cleanAndReturn rb true (-1) aio none
  else
    match init_parquet_object rb al with
    | none => cleanAndReturn rb true (-1) aio none
    | some obj =>
      if nng_alloc al al.file_keys (8 * rb.cap) = false then
        cleanAndReturn rb true (-1) aio (some obj)
      else
        cleanAndReturn
          { rb with
            files := rb.files ++ [⟨(List.range rb.cap).map fun i => (rb.msgs i).key⟩] }
          false 0 aio (some obj)

/-- `put_msgs_to_aio`. -/
def put_msgs_to_aio (rb : ringBuffer_t) (aio : nng_aio) (al : Alloc) :
    Option EnqueueOut :=
  match ringBuffer_get_and_clean_msgs rb rb.cap al with
  | none => none
  | some (ret, rb1, list) =>
    if ret ≠ 0 then some ⟨-1, rb1, aio, [], none⟩
    else if al.list_len = false then some ⟨-1, rb1, aio, [], none⟩
    else if al.tmsg = false then some ⟨-1, rb1, aio, [], none⟩
    else some ⟨0, rb1, { msg := some (toInt32 rb1.cap), prov_data := some list }, [], none⟩

/-- The block `if (rb->size == rb->cap) { ... }` of `ringBuffer_enqueue`; `ret = -1`
stands for the early `return -1`. -/
def ringBuffer_enqueue.full (rb : ringBuffer_t) (aio : nng_aio) (al : Alloc) :
    Option EnqueueOut :=
  match rb.fullOp with
  | .RB_FULL_NONE => some ⟨-1, rb, aio, [], none⟩
  | .RB_FULL_DROP => cleanAndReturn rb true 0 aio none
  | .RB_FULL_RETURN => put_msgs_to_aio rb aio al
  | .RB_FULL_FILE => write_msgs_to_file rb aio al
  | .RB_FULL_MAX => some ⟨0, rb, aio, [], none⟩

/-- The tail of `ringBuffer_enqueue`: write the slot at `tail`, advance `tail` and
`size`, run the post-enqueue rules (their result is discarded) and return `0`. -/
def ringBuffer_enqueue.insert (o : EnqueueOut) (key : Nat) (data : Ptr) (expiredAt : Nat) :
    Option EnqueueOut :=
  match umod (o.rb.tail + 1) o.rb.cap with
  | none => none
  | some t =>
    let rb1 : ringBuffer_t :=
      { o.rb with
        msgs := setSlot o.rb.msgs o.rb.tail ⟨key, data, expiredAt⟩,
        tail := t, size := o.rb.size + 1 }
    (fun (_ : Int) => some { o with ret := 0, rb := rb1 })
      (ringBuffer_rule_check rb1 data ENQUEUE_OUT_HOOK)

/-- `ringBuffer_enqueue`. -/
def ringBuffer_enqueue (rb : ringBuffer_t) (key : Nat) (data : Ptr) (expiredAt : Nat)
    (aio : nng_aio) (al : Alloc) : Option EnqueueOut :=
  if ringBuffer_rule_check rb data ENQUEUE_IN_HOOK ≠ 0 then some ⟨-1, rb, aio, [], none⟩
  else if rb.size = rb.cap then
    match ringBuffer_enqueue.full rb aio al with
    | none => none
    | some o =>
      if o.ret ≠ 0 then some o
      else ringBuffer_enqueue.insert o key data expiredAt
  else ringBuffer_enqueue.insert ⟨0, rb, aio, [], none⟩ key data expiredAt

/-- What `ringBuffer_dequeue` hands back: the return code, the buffer and `*data`
(written only on success). -/
structure DequeueOut where
  ret : Int
  rb : ringBuffer_t
  data : Option Ptr

/-- `ringBuffer_dequeue`. -/
def ringBuffer_dequeue (rb : ringBuffer_t) : Option DequeueOut :=
  if ringBuffer_rule_check rb NULL DEQUEUE_IN_HOOK ≠ 0 then some ⟨-1, rb, none⟩
  else if rb.size = 0 then some ⟨-1, rb, none⟩
  else
    match umod (rb.head + 1) rb.cap with
    | none => none
    | some h =>
      let rb1 : ringBuffer_t := { rb with head := h, size := rb.size - 1 }
      (fun (_ : Int) => some ⟨0, rb1, some (rb.msgs rb.head).data⟩)
        (ringBuffer_rule_check rb1 (rb.msgs rb.head).data DEQUEUE_OUT_HOOK)

/-- What a search hands back: the return code, `*count` when the search writes it, and
the result (`*msg` as a list of one, or `*list`), empty unless the code is `0`. -/
structure SearchOut where
  ret : Int
  count : Option Nat
  list : List Ptr
deriving DecidableEq, Repr

/-- The loop of `ringBuffer_search_msg_by_key`: `for (i = head; i < size; i++)` with
`i = i % cap` first in the body. -/
def ringBuffer_search_msg_by_key.loop (rb : ringBuffer_t) (key : Nat) :
    Nat → Nat → Option SearchOut
  | 0, _ => none
  | fuel + 1, i =>
    if i < rb.size then
      match umod i rb.cap with
      | none => none
      | some i1 =>
        if (rb.msgs i1).key = key then some ⟨0, none, [(rb.msgs i1).data]⟩
        else ringBuffer_search_msg_by_key.loop rb key fuel (i1 + 1)
    else some ⟨-1, none, []⟩

/-- `ringBuffer_search_msg_by_key`. -/
def ringBuffer_search_msg_by_key (rb : ringBuffer_t) (key : Nat) : Option SearchOut :=
  ringBuffer_search_msg_by_key.loop rb key (rb.size + 1) rb.head

/-- The first binary search of `ringBuffer_search_msgs_fuzz` (32-bit `low`, `high`,
`mid`); returns `high` at the exit of the loop. -/
def ringBuffer_search_msgs_fuzz.first (rb : ringBuffer_t) (start : Nat) :
    Nat → Nat → Nat → Option Nat
  | 0, _, _ => none
  | fuel + 1, low, high =>
    if low < high then
      if (rb.msgs ((low + high) % 2 ^ 32 / 2)).key < start then
        ringBuffer_search_msgs_fuzz.first rb start fuel
          (((low + high) % 2 ^ 32 / 2 + 1) % 2 ^ 32) high
      else ringBuffer_search_msgs_fuzz.first rb start fuel low ((low + high) % 2 ^ 32 / 2)
    else some high

/-- The second binary search of `ringBuffer_search_msgs_fuzz`; returns `low` at the
exit of the loop. -/
def ringBuffer_search_msgs_fuzz.second (rb : ringBuffer_t) (end_ : Nat) :
    Nat → Nat → Nat → Option Nat
  | 0, _, _ => none
  | fuel + 1, low, high =>
    if low < high then
      if (rb.msgs ((low + high + 1) % 2 ^ 32 / 2)).key ≤ end_ then
        ringBuffer_search_msgs_fuzz.second rb end_ fuel ((low + high + 1) % 2 ^ 32 / 2) high
      else
        ringBuffer_search_msgs_fuzz.second rb end_ fuel low
          (((low + high + 1) % 2 ^ 32 / 2 + 2 ^ 32 - 1) % 2 ^ 32)
    else some low

/-- The copy loop of `ringBuffer_search_msgs_fuzz`:
`for (i = start_index; i <= end_index; i++)`; the return code and the list. -/
def ringBuffer_search_msgs_fuzz.copy (rb : ringBuffer_t) (end_index : Nat) :
    Nat → Nat → List Ptr → Option (Int × List Ptr)
  | 0, _, _ => none
  | fuel + 1, i, newList =>
    if i ≤ end_index then
      if (rb.msgs i).data = NULL then some (-1, [])
      else
        ringBuffer_search_msgs_fuzz.copy rb end_index fuel ((i + 1) % 2 ^ 32)
          (newList ++ [(rb.msgs i).data])
    else some (0, newList)

/-- `ringBuffer_search_msgs_fuzz`.  The range test reads `msgs[head + size - 1]` without
reducing the index modulo `cap`: for `head + size > cap` this is a read behind the slot
array (`ringBuffer_search_msgs_fuzz.rangeReads` lists the indices read), and what this
definition returns there is the result for the slot that the memory behind the array
happens to hold. -/
def ringBuffer_search_msgs_fuzz (rb : ringBuffer_t) (start end_ : Nat) (al : Alloc) :
    Option SearchOut :=
  if rb.size = 0 then some ⟨-1, none, []⟩
  else if start > end_ ∨ start > (rb.msgs ((rb.head + rb.size - 1) % 2 ^ 32)).key ∨
      end_ < (rb.msgs rb.head).key then some ⟨-1, none, []⟩
  else if rb.head ≠ 0 then some ⟨-1, none, []⟩
  else
    match ringBuffer_search_msgs_fuzz.first rb start (rb.size + 1) rb.head
        ((rb.head + rb.size - 1) % 2 ^ 32) with
    | none => none
    | some start_index =>
      if ¬ (rb.msgs start_index).key ≥ start then some ⟨-1, none, []⟩
      else
        match ringBuffer_search_msgs_fuzz.second rb end_ (rb.size + 1) rb.head
            ((rb.head + rb.size - 1) % 2 ^ 32) with
        | none => none
        | some end_index =>
          if (rb.msgs end_index).key > end_ then some ⟨-1, none, []⟩
          else
            let count := (end_index + 2 ^ 32 - start_index + 1) % 2 ^ 32
            if nng_alloc al al.newList (count * 8) = false then some ⟨-1, some count, []⟩
            else
              match ringBuffer_search_msgs_fuzz.copy rb end_index (rb.size + 2) start_index
                  [] with
              | none => none
              | some (ret, list) => some ⟨ret, some count, list⟩

/-- The inner loop of `ringBuffer_search_msgs_by_key`: `count` slots from `i` on,
`i = (i + 1) % cap` after each. -/
def ringBuffer_search_msgs_by_key.take (rb : ringBuffer_t) :
    Nat → Nat → List Ptr → Option (List Ptr)
  | 0, _, newList => some newList
  | n + 1, i, newList =>
    match umod (i + 1) rb.cap with
    | none => none
    | some i1 =>
      ringBuffer_search_msgs_by_key.take rb n i1 (newList ++ [(rb.msgs i).data])

/-- The outer loop of `ringBuffer_search_msgs_by_key`. -/
def ringBuffer_search_msgs_by_key.loop (rb : ringBuffer_t) (key : Nat) (count : Nat) :
    Nat → Nat → Option SearchOut
  | 0, _ => none
  | fuel + 1, i =>
    if i < rb.size then
      match umod i rb.cap with
      | none => none
      | some i1 =>
        if (rb.msgs i1).key = key then
          (ringBuffer_search_msgs_by_key.take rb count i1 []).map fun l => ⟨0, none, l⟩
        else ringBuffer_search_msgs_by_key.loop rb key count fuel (i1 + 1)
    else some ⟨-1, none, []⟩

/-- `ringBuffer_search_msgs_by_key`. -/
def ringBuffer_search_msgs_by_key (rb : ringBuffer_t) (key : Nat) (count : Nat)
    (al : Alloc) : Option SearchOut :=
  if count = 0 then some ⟨-1, none, []⟩
  else if count > rb.size then some ⟨-1, none, []⟩
  else if nng_alloc al al.newList (count * 8) = false then some ⟨-1, none, []⟩
  else ringBuffer_search_msgs_by_key.loop rb key count (rb.size + 1) rb.head

/-- One call on a ring buffer: an enqueue with its arguments, or a dequeue. -/
inductive Op where
  | enqueue (key : Nat) (data : Ptr) (expiredAt : Nat) (aio : nng_aio) (al : Alloc)
  | dequeue

/-- The buffer after one call (`none`: the call has no defined result). -/
def Op.run (rb : ringBuffer_t) : Op → Option ringBuffer_t
  | .enqueue key data expiredAt aio al =>
    (ringBuffer_enqueue rb key data expiredAt aio al).map fun o => o.rb
  | .dequeue => (ringBuffer_dequeue rb).map fun o => o.rb

/-- The buffer after a sequence of calls. -/
def runOps (rb : ringBuffer_t) : List Op → Option ringBuffer_t
  | [] => some rb
  | op :: ops =>
    match op.run rb with
    | none => none
    | some rb1 => runOps rb1 ops

/-- The slots of the live window in insertion order: `n` slots from `i` on, wrapping
at `cap`. -/
def window (msgs : Nat → ringBufferMsg_t) (cap : Nat) : Nat → Nat → List ringBufferMsg_t
  | 0, _ => []
  | n + 1, i => msgs (i % cap) :: window msgs cap n (i + 1)

/-- The live slots of a buffer, oldest first. -/
def live (rb : ringBuffer_s) : List ringBufferMsg_t :=
  window rb.msgs rb.cap rb.size rb.head

/-- The index conditions of a ring buffer with at least one slot: `head` is a slot
index, `size` is at most `cap`, and `tail` is `size` slots after `head`. -/
def ringInv (rb : ringBuffer_s) : Prop :=
  0 < rb.cap ∧ rb.head < rb.cap ∧ rb.size ≤ rb.cap ∧ rb.tail = (rb.head + rb.size) % rb.cap

instance (rb : ringBuffer_s) : Decidable (ringInv rb) := by
  unfold ringInv; infer_instance

/-- The state conditions that `ringBuffer_enqueue` and `ringBuffer_dequeue` maintain:
the index conditions, and a policy that is one of the four policies. -/
def wf (rb : ringBuffer_s) : Prop :=
  ringInv rb ∧ rb.fullOp ≠ fullOption.RB_FULL_MAX

/-- The buffers `rb` and `rb1` have the same capacity, policy and rule lists. -/
def SameConfig (rb rb1 : ringBuffer_t) : Prop :=
  rb1.cap = rb.cap ∧ rb1.fullOp = rb.fullOp ∧ rb1.enqinRuleList = rb.enqinRuleList ∧
    rb1.enqoutRuleList = rb.enqoutRuleList ∧ rb1.deqinRuleList = rb.deqinRuleList ∧
    rb1.deqoutRuleList = rb.deqoutRuleList

instance (rb : ringBuffer_s) : Decidable (wf rb) := by
  unfold wf; infer_instance

/-- The arguments of one `ringBuffer_enqueue` call. -/
structure EnqArgs where
  key : Nat
  data : Ptr
  expiredAt : Nat
  aio : nng_aio
  al : Alloc

/-- The slot that an enqueue with these arguments writes. -/
def EnqArgs.slot (a : EnqArgs) : ringBufferMsg_t := ⟨a.key, a.data, a.expiredAt⟩

/-- A run of successful enqueue calls: `some` of the final buffer when every call
returns `0`, `none` as soon as one call fails or has no defined result. -/
def enqueueAll (rb : ringBuffer_t) : List EnqArgs → Option ringBuffer_t
  | [] => some rb
  | a :: rest =>
    match ringBuffer_enqueue rb a.key a.data a.expiredAt a.aio a.al with
    | none => none
    | some o => if o.ret = 0 then enqueueAll o.rb rest else none

/-- A run of `n` dequeue calls: `some` of the messages returned, in call order, and the
final buffer when every call returns `0`; `none` as soon as one call fails or has no
defined result. -/
def dequeueAll (rb : ringBuffer_t) : Nat → Option (List Ptr × ringBuffer_t)
  | 0 => some ([], rb)
  | n + 1 =>
    match ringBuffer_dequeue rb with
    | none => none
    | some o =>
      match o.ret, o.data with
      | 0, some d =>
        match dequeueAll o.rb n with
        | none => none
        | some (l, rb2) => some (d :: l, rb2)
      | _, _ => none

/-- Example: a block of slots that are all zero. -/
def exMem : Nat → ringBufferMsg_t := fun _ => ⟨0, 0, 0⟩

/-- Example: a completion with nothing attached. -/
def exAio : nng_aio := ⟨none, none⟩

/-- Example: the call `ringBuffer_enqueue(rb, key, data, 0, aio)`. -/
def exEnq (key : Nat) (data : Ptr) : Op := Op.enqueue key data 0 exAio Alloc.ok

/-- Example: the arguments of `ringBuffer_enqueue(rb, key, data, 0, aio)`. -/
def exArgs (key : Nat) (data : Ptr) : EnqArgs := ⟨key, data, 0, exAio, Alloc.ok⟩

/-- Example: a rule that matches every call and whose action fails. -/
def exRejectRule : ringBufferRule_t := ⟨fun _ _ _ => 0, fun _ _ _ => -1⟩

/-- Example: an empty buffer of three slots with `head = tail = 2` and no rules. -/
def exEmptyAt2 : ringBuffer_t :=
  { head := 2, tail := 2, size := 0, cap := 3, expiredAt := 0,
    fullOp := fullOption.RB_FULL_NONE, files := [], msgs := exMem,
    enqinRuleList := [], enqoutRuleList := [], deqinRuleList := [], deqoutRuleList := [] }

/-- Example: an empty buffer of one slot whose only rule rejects every dequeue. -/
def exRejectDeq : ringBuffer_t :=
  { head := 0, tail := 0, size := 0, cap := 1, expiredAt := 0,
    fullOp := fullOption.RB_FULL_NONE, files := [], msgs := exMem,
    enqinRuleList := [], enqoutRuleList := [], deqinRuleList := [exRejectRule],
    deqoutRuleList := [] }

/-- Example: a full buffer of three slots with `head = 1`, policy `pol`, holding the
messages 101, 102, 103 (oldest first, keys 1, 2, 3) in slots 1, 2, 0. -/
def exFullAt1 (pol : fullOption) : ringBuffer_t :=
  { head := 1, tail := 1, size := 3, cap := 3, expiredAt := 0,
    fullOp := pol, files := [],
    msgs := fun i => if i = 1 then ⟨1, 101, 0⟩ else if i = 2 then ⟨2, 102, 0⟩
      else if i = 0 then ⟨3, 103, 0⟩ else ⟨0, 0, 0⟩,
    enqinRuleList := [], enqoutRuleList := [], deqinRuleList := [], deqoutRuleList := [] }

/-- Example: a buffer of three slots with `head = 1` that holds the messages 102, 103
(keys 2, 3) in the slots 1, 2; slot 0 is free. -/
def exTwoAt1 : ringBuffer_t :=
  { head := 1, tail := 0, size := 2, cap := 3, expiredAt := 0,
    fullOp := fullOption.RB_FULL_NONE, files := [],
    msgs := fun i => ⟨i + 1, 101 + i, 0⟩,
    enqinRuleList := [], enqoutRuleList := [], deqinRuleList := [], deqoutRuleList := [] }

/-- Example: a full buffer of five slots at `head = 0` with keys 10, 20, 30, 40, 50 and
messages 201 .. 205. -/
def exKeys5 : ringBuffer_t :=
  { head := 0, tail := 0, size := 5, cap := 5, expiredAt := 0,
    fullOp := fullOption.RB_FULL_NONE, files := [],
    msgs := fun i => ⟨10 * (i + 1), 201 + i, 0⟩,
    enqinRuleList := [], enqoutRuleList := [], deqinRuleList := [], deqoutRuleList := [] }

/-- Example: an allocator like `Alloc.ok` for which the allocation of the result list fails. -/
def exAllocNoList : Alloc := { Alloc.ok with newList := false }

/-- The pre-dequeue rule check passes at each of `n` consecutive `ringBuffer_dequeue`
calls that start at `rb`. -/
def deqRulesPass : ringBuffer_t → Nat → Bool
  | _, 0 => true
  | rb, n + 1 =>
    decide (ringBuffer_rule_check rb NULL DEQUEUE_IN_HOOK = 0) &&
      match ringBuffer_dequeue rb with
      | none => true
      | some o => deqRulesPass o.rb n

/-- Example: a full buffer of `2 ^ 31 + 1` slots at `head = 0`; slot `i` has key `i` and
holds a message. -/
def exHuge : ringBuffer_t :=
  { head := 0, tail := 0, size := 2 ^ 31 + 1, cap := 2 ^ 31 + 1, expiredAt := 0,
    fullOp := fullOption.RB_FULL_NONE, files := [],
    msgs := fun i => ⟨i, 1, 0⟩,
    enqinRuleList := [], enqoutRuleList := [], deqinRuleList := [], deqoutRuleList := [] }

/-- One call of a rule function made by `ringBufferRule_check`: `list[i]->match` or
`list[i]->target`. -/
inductive RuleCall where
  | matchCall (i : Nat)
  | targetCall (i : Nat)
deriving DecidableEq, Repr

/-- The loop of `ringBufferRule_check` from index `i` on, with the calls it makes in the
order it makes them, and the return code. -/
def ringBufferRule_check.calls (rb : ringBuffer_s) :
    List ringBufferRule_t → Ptr → Nat → Nat → List RuleCall × Int
  | [], _, _, _ => ([], 0)
  | r :: rest, data, flag, i =>
    if r.match_ rb data flag ≠ 0 then
      ((RuleCall.matchCall i) :: (ringBufferRule_check.calls rb rest data flag (i + 1)).1,
        (ringBufferRule_check.calls rb rest data flag (i + 1)).2)
    else if r.target rb data flag ≠ 0 then
      ([RuleCall.matchCall i, RuleCall.targetCall i], -1)
    else
      ((RuleCall.matchCall i) :: (RuleCall.targetCall i) ::
          (ringBufferRule_check.calls rb rest data flag (i + 1)).1,
        (ringBufferRule_check.calls rb rest data flag (i + 1)).2)

/-- `ringBufferRuleList_add`: the return code and the list afterwards.  `newRule` says
whether the allocation of the rule succeeds; `RBRULELIST_MAX_SIZE` is a macro of
`ringbuffer.h` (not among the sources) and is an argument here. -/
def ringBufferRuleList_add (RBRULELIST_MAX_SIZE : Nat) (list : List ringBufferRule_t)
    (match_ target : ringBuffer_s → Ptr → Nat → Int) (newRule : Bool) :
    Int × List ringBufferRule_t :=
  if list.length = RBRULELIST_MAX_SIZE then (-1, list)
  else if newRule = false then (-1, list)
  else (0, list ++ [⟨match_, target⟩])

/-- In the spec's words: a matching rule whose action fails. -/
def ruleFails (rb : ringBuffer_s) (data : Ptr) (flag : Nat) (r : ringBufferRule_t) : Bool :=
  decide (r.match_ rb data flag = 0) && decide (r.target rb data flag ≠ 0)

/-- In the spec's words: visiting rule `i` runs its match, and its action only when the
match reports a match. -/
def ruleVisit (rb : ringBuffer_s) (data : Ptr) (flag : Nat) (ir : Nat × ringBufferRule_t) :
    List RuleCall :=
  if ir.2.match_ rb data flag = 0 then [RuleCall.matchCall ir.1, RuleCall.targetCall ir.1]
  else [RuleCall.matchCall ir.1]

/-- In the spec's words: the rules are visited in registration order, up to and
including the first matching rule whose action fails; the result is failure exactly
when there is such a rule. -/
def ruleEvaluationSpec (rb : ringBuffer_s) (list : List ringBufferRule_t) (data : Ptr)
    (flag : Nat) : List RuleCall × Int :=
  (((list.take ((list.takeWhile fun r => !ruleFails rb data flag r).length + 1)).enum).flatMap
      (ruleVisit rb data flag),
    if list.any (ruleFails rb data flag) then -1 else 0)

/-- Example: the full buffer `exFullAt1 pol` with one pre-enqueue rule, which rejects every
enqueue. -/
def exRejectEnqFull (pol : fullOption) : ringBuffer_t :=
  { exFullAt1 pol with enqinRuleList := [exRejectRule] }

/-! ## The exchange socket (`src/mqtt/protocol/exchange/exchange_server.c`)

Conventions of this part.

* A completion (`nni_aio *`) is a pointer like a message; what it carries is the
  `nng_aio` record of the ring buffer part, kept in the table `aios`.
* The functions of the socket run under the mutexes of the socket and of the node; each
  is one atomic step, and the asynchronous callback `exchange_send_cb` is a step of its
  own that runs whenever the environment schedules it.
* What the socket code calls outside these sources is an input: the timestamp and the
  type of a message, whether `nni_id_set` finds memory, and `exchange_handle_msg`
  (`ExEnv`); whether `nni_aio_begin` accepts the completion is an argument of the send.
* Calls of `nni_msg_free`, `nni_aio_finish`, `nni_aio_finish_error` and
  `exchange_client_handle_msg` are recorded, in order, in the lists `freed`, `finished`
  and `handled`.
-/

/-- `NANO_MAX_MQ_BUFFER_LEN`. -/
def NANO_MAX_MQ_BUFFER_LEN : Nat := 1024

/-- Modelled from the spec: the message type `CMD_PUBLISH` (`mqtt.h` is not among the
sources), the spec's publish-type; the value is the MQTT packet type. -/
def CMD_PUBLISH : Nat := 0x30

/-- Modelled from the spec: the error code `NNG_EINVAL` (`nng.h` is not among the
sources), the spec's `InvalidArgument`. -/
def NNG_EINVAL : Int := 3

/-- Modelled from the spec: the error code `NNG_ECLOSED` (`nng.h` is not among the
sources), the spec's `Closed`. -/
def NNG_ECLOSED : Int := 7

/-- Modelled from the spec: `nni_id_map` (`core/idhash.c` is not among the sources), the
spec's mapping from a 32-bit key to the buffered message; `none` is no entry. -/
abbrev nni_id_map := Nat → Option Ptr

/-- Modelled from the spec: `nni_id_get` (not among the sources), the entry of `id`, or
`NULL` when there is none. -/
def nni_id_get (m : nni_id_map) (id : Nat) : Ptr := (m id).getD NULL

/-- Modelled from the spec: `nni_id_set` (not among the sources) when it finds memory: the
entry of `id` becomes `val`. -/
def nni_id_set (m : nni_id_map) (id : Nat) (val : Ptr) : nni_id_map :=
  fun k => if k = id then some val else m k

/-- Modelled from the spec: `nni_id_remove` (not among the sources): no entry for `id`
afterwards. -/
def nni_id_remove (m : nni_id_map) (id : Nat) : nni_id_map :=
  fun k => if k = id then none else m k

/-- Modelled from the spec: `nni_lmq` (`core/lmq.c` is not among the sources), the spec's
bounded FIFO pending queue: its capacity and its messages, oldest first. -/
structure nni_lmq where
  cap : Nat
  msgs : List Ptr
deriving DecidableEq, Repr

/-- Modelled from the spec: `nni_lmq_init` (not among the sources): an empty queue of the
given capacity. -/
def nni_lmq_init (cap : Nat) : nni_lmq := ⟨cap, []⟩

/-- Modelled from the spec: `nni_lmq_put` (not among the sources): appends at the end and
returns `0`, or returns a non-zero code and changes nothing when the queue is full. -/
def nni_lmq_put (q : nni_lmq) (msg : Ptr) : Int × nni_lmq :=
  if q.msgs.length < q.cap then (0, { q with msgs := q.msgs ++ [msg] }) else (-1, q)

/-- `exchange_t` (declared in `exchange.h`, not among the sources): its ring buffers
`rbs`, the field that `exchange_client_get_msgs_by_key` reads. -/
structure exchange_t where
  rbs : List ringBuffer_t

/-- What `exchange_handle_msg` hands back: the return code, the exchange and the
completion afterwards. -/
structure ExchangeOut where
  ret : Int
  ex : exchange_t
  aio : nng_aio

/-- Modelled from the spec: `exchange_handle_msg` (`exchange.c` is not among the sources):
the spec's step "delegate to RingStore.enqueue with the full key" on the first ring buffer
of the exchange.  The expiry passed on is not part of the spec; it is the buffer's own. -/
def exchange_handle_msg (al : Alloc) (ex : exchange_t) (key : Nat) (msg : Ptr)
    (aio : nng_aio) : Option ExchangeOut :=
  match ex.rbs with
  | [] => none
  | rb :: rest =>
    (ringBuffer_enqueue rb key msg rb.expiredAt aio al).map fun o =>
      { ret := o.ret, ex := ⟨o.rb :: rest⟩, aio := o.aio }

/-- What the socket code takes from outside these sources: `nni_msg_get_timestamp` and
`nni_msg_get_type` of each message, whether `nni_id_set` succeeds for an id, and
`exchange_handle_msg` (`none` when it has no defined result). -/
structure ExEnv where
  nni_msg_get_timestamp : Ptr → Nat
  nni_msg_get_type : Ptr → Nat
  nni_id_set_ok : Nat → Bool
  exchange_handle_msg : exchange_t → Nat → Ptr → nng_aio → Option ExchangeOut

/-- `struct exchange_node_s`: the bound exchange, the busy flag, the message and the
result of the dispatch completion `saio`, and the pending queue. -/
structure exchange_node_t where
  ex : exchange_t
  isBusy : Bool
  saio_msg : Ptr
  saio_result : Int
  send_messages : nni_lmq

/-- `struct exchange_sock_s` (`closed`, `rbmsgmap`, `ex_node`; `none` is `NULL`) together
with what its functions touch outside it: the proto data of each message, the content of
each completion, and the recorded calls. -/
structure exchange_sock_t where
  closed : Bool
  rbmsgmap : nni_id_map
  ex_node : Option exchange_node_t
  proto_data : Ptr → Ptr
  aios : Ptr → nng_aio
  finished : List (Ptr × Int)
  freed : List Ptr
  handled : List Ptr

/-- `exchange_sock_init`: open, empty `rbmsgmap`, no node; nothing recorded yet. -/
def exchange_sock_init : exchange_sock_t :=
  { closed := false, rbmsgmap := fun _ => none, ex_node := none,
    proto_data := fun _ => NULL, aios := fun _ => ⟨none, none⟩,
    finished := [], freed := [], handled := [] }

/-- `exchange_add_ex`; `node` says whether the allocation of the node succeeds. -/
def exchange_add_ex (s : exchange_sock_t) (ex : exchange_t) (node : Bool) :
    Int × exchange_sock_t :=
  match s.ex_node with
  | some _ => (-1, s)
  | none =>
    if node = false then (-1, s)
    else
      (0, { s with
        ex_node := some
          { ex := ex, isBusy := false, saio_msg := NULL, saio_result := 0,
            send_messages := nni_lmq_init NANO_MAX_MQ_BUFFER_LEN } })

/-- What `exchange_client_handle_msg` hands back: the return code, `rbmsgmap`, the
exchange and the completion afterwards, the messages passed to `nni_msg_free`, and
whether `exchange_handle_msg` was called. -/
structure HandleOut where
  ret : Int
  rbmsgmap : nni_id_map
  ex : exchange_t
  aio : nng_aio
  freed : List Ptr
  delegated : Bool

/-- The clean-up loop of `exchange_client_handle_msg`: `for (i = 0; i < *msgs_lenp; i++)`
over the list `msgs`, with `n` rounds left.  A read past the end of the list has no
defined result. -/
def exchange_client_handle_msg.clean (E : ExEnv) : Nat → List Ptr → nni_id_map →
    Option nni_id_map
  | 0, _, m => some m
  | _ + 1, [], _ => none
  | n + 1, p :: rest, m =>
    exchange_client_handle_msg.clean E n rest
      (if p ≠ NULL then nni_id_remove m (E.nni_msg_get_timestamp p % 2 ^ 32) else m)

/-- `exchange_client_handle_msg` on the `rbmsgmap` of the socket and the exchange of the
node.  The completion's message stands for its `list_len` (see `nng_aio`), so a list
without a message on the completion has no defined result. -/
def exchange_client_handle_msg (E : ExEnv) (rbmsgmap : nni_id_map) (ex : exchange_t)
    (msg : Ptr) (aio : nng_aio) : Option HandleOut :=
  let key := E.nni_msg_get_timestamp msg
  let key2 := key % 2 ^ 32
  let aio1 : nng_aio := { aio with prov_data := none }
  if nni_id_get rbmsgmap key2 ≠ NULL then some ⟨-1, rbmsgmap, ex, aio1, [msg], false⟩
  else if E.nni_id_set_ok key2 = false then some ⟨-1, rbmsgmap, ex, aio1, [msg], false⟩
  else
    match E.exchange_handle_msg ex key msg aio1 with
    | none => none
    | some o =>
      if o.ret ≠ 0 then some ⟨-1, nni_id_set rbmsgmap key2 msg, o.ex, o.aio, [msg], true⟩
      else
        match o.aio.prov_data with
        | none => some ⟨0, nni_id_set rbmsgmap key2 msg, o.ex, o.aio, [], true⟩
        | some msgs =>
          match o.aio.msg with
          | none => none
          | some msgs_len =>
            match exchange_client_handle_msg.clean E msgs_len.toNat msgs
                (nni_id_set rbmsgmap key2 msg) with
            | none => none
            | some m => some ⟨0, m, o.ex, o.aio, [], true⟩

/-- `exchange_sock_send(s, aio)`; `msg` is the message the completion carries (`NULL` for
none) and `begin_ok` says whether `nni_aio_begin` returns `0`. -/
def exchange_sock_send (E : ExEnv) (s : exchange_sock_t) (aio msg : Ptr) (begin_ok : Bool) :
    exchange_sock_t :=
  if begin_ok = false then s
  else
    let s1 : exchange_sock_t :=
      { s with aios := fun a => if a = aio then { s.aios a with msg := none } else s.aios a }
    if msg = NULL then { s1 with finished := s1.finished ++ [(aio, NNG_EINVAL)] }
    else if E.nni_msg_get_type msg ≠ CMD_PUBLISH then
      { s1 with finished := s1.finished ++ [(aio, NNG_EINVAL)] }
    else
      match s1.ex_node with
      | none => { s1 with finished := s1.finished ++ [(aio, NNG_EINVAL)] }
      | some ex_node =>
        let s2 : exchange_sock_t :=
          { s1 with proto_data := fun m => if m = msg then aio else s1.proto_data m }
        if ex_node.isBusy = false then
          { s2 with
            ex_node := some { ex_node with isBusy := true, saio_msg := msg, saio_result := 0 } }
        else if (nni_lmq_put ex_node.send_messages msg).1 ≠ 0 then
          { s2 with freed := s2.freed ++ [msg] }
        else
          { s2 with
            ex_node := some
              { ex_node with send_messages := (nni_lmq_put ex_node.send_messages msg).2 } }

/-- The steps `ret = exchange_client_handle_msg(ex_node, msg, user_aio)` and the finish of
`user_aio` that follows, which `exchange_send_cb` runs for each message. -/
def exchange_send_cb.handle (E : ExEnv) (s : exchange_sock_t) (ex_node : exchange_node_t)
    (msg user_aio : Ptr) : Option (exchange_sock_t × exchange_node_t) :=
  match exchange_client_handle_msg E s.rbmsgmap ex_node.ex msg (s.aios user_aio) with
  | none => none
  | some o =>
    some
      ({ s with
          rbmsgmap := o.rbmsgmap,
          aios := fun a => if a = user_aio then o.aio else s.aios a,
          finished := s.finished ++ [(user_aio, if o.ret ≠ 0 then NNG_EINVAL else 0)],
          freed := s.freed ++ o.freed,
          handled := s.handled ++ [msg] },
        { ex_node with ex := o.ex })

/-- The loop `while (nni_lmq_get(&ex_node->send_messages, &msg) == 0)` of
`exchange_send_cb`, over the messages of the queue, oldest first. -/
def exchange_send_cb.drain (E : ExEnv) :
    List Ptr → exchange_sock_t → exchange_node_t → Option (exchange_sock_t × exchange_node_t)
  | [], s, ex_node => some (s, { ex_node with send_messages := ⟨ex_node.send_messages.cap, []⟩ })
  | msg :: rest, s, ex_node =>
    if s.proto_data msg = NULL then
      some (s, { ex_node with send_messages := ⟨ex_node.send_messages.cap, rest⟩ })
    else
      match exchange_send_cb.handle E s ex_node msg (s.proto_data msg) with
      | none => none
      | some (s1, n1) => exchange_send_cb.drain E rest s1 n1

/-- `exchange_send_cb` of the node of the socket. -/
def exchange_send_cb (E : ExEnv) (s : exchange_sock_t) : Option exchange_sock_t :=
  match s.ex_node with
  | none => some s
  | some ex_node =>
    if s.closed = true then some s
    else if ex_node.saio_result ≠ 0 then some s
    else
      match exchange_send_cb.drain E ex_node.send_messages.msgs s ex_node with
      | none => none
      | some (s1, n1) =>
        if n1.saio_msg ≠ NULL then
          match exchange_send_cb.handle E s1 { n1 with saio_msg := NULL } n1.saio_msg
              (s1.proto_data n1.saio_msg) with
          | none => none
          | some (s2, n2) => some { s2 with ex_node := some { n2 with isBusy := false } }
        else some { s1 with ex_node := some { n1 with isBusy := false } }

/-- `exchange_client_get_msg_by_key`: the return code and `*msg` (written on success). -/
def exchange_client_get_msg_by_key (s : exchange_sock_t) (key : Nat) : Int × Option Ptr :=
  if nni_id_get s.rbmsgmap (key % 2 ^ 32) = NULL then (-1, none)
  else (0, some (nni_id_get s.rbmsgmap (key % 2 ^ 32)))

/-- `exchange_sock_close`: sets `closed` and calls `nni_aio_close(&ex_node->saio)`, which is
outside these sources and whose effect on `saio` is not represented.  Without a node the
call reads through `NULL` and has no defined result. -/
def exchange_sock_close (s : exchange_sock_t) : Option exchange_sock_t :=
  match s.ex_node with
  | none => none
  | some _ => some { s with closed := true }

/-- The loop `while (nni_lmq_get(&ex_node->send_messages, &msg) == 0)` of
`exchange_sock_fini`, over the messages of the queue, oldest first. -/
def exchange_sock_fini.drain : List Ptr → exchange_sock_t → exchange_sock_t
  | [], s => s
  | msg :: rest, s =>
    exchange_sock_fini.drain rest
      { s with
        finished :=
          if s.proto_data msg ≠ NULL then s.finished ++ [(s.proto_data msg, NNG_ECLOSED)]
          else s.finished,
        freed := s.freed ++ [msg] }

/-- `exchange_sock_fini`.  The calls after the loop (`nni_aio_fini`, `nni_mtx_fini`,
`nni_lmq_fini`, `exchange_release`, `nni_free`, `nni_id_map_fini`) release memory and are
not represented: the record shows the node and `rbmsgmap` as the loop leaves them.
Without a node the call reads through `NULL` and has no defined result. -/
def exchange_sock_fini (s : exchange_sock_t) : Option exchange_sock_t :=
  match s.ex_node with
  | none => none
  | some ex_node =>
    some
      { exchange_sock_fini.drain ex_node.send_messages.msgs s with
        ex_node := some { ex_node with send_messages := ⟨ex_node.send_messages.cap, []⟩ } }

/-- One step of the socket: a call of `exchange_sock_send`, a run of the callback
`exchange_send_cb`, or a call of `exchange_sock_close` or `exchange_sock_fini`. -/
inductive ExEvent where
  | send (aio msg : Ptr) (begin_ok : Bool)
  | send_cb
  | close
  | fini

/-- The socket after one step. -/
def ExEvent.run (E : ExEnv) (s : exchange_sock_t) : ExEvent → Option exchange_sock_t
  | .send aio msg b => some (exchange_sock_send E s aio msg b)
  | .send_cb => exchange_send_cb E s
  | .close => exchange_sock_close s
  | .fini => exchange_sock_fini s

/-- The socket after a sequence of steps. -/
def runEvents (E : ExEnv) : exchange_sock_t → List ExEvent → Option exchange_sock_t
  | s, [] => some s
  | s, e :: rest =>
    match e.run E s with
    | none => none
    | some s1 => runEvents E s1 rest

/-- Example: every message is a publish whose timestamp is its address, `nni_id_set`
succeeds, and `exchange_handle_msg` enqueues with every allocation succeeding. -/
def exEnv : ExEnv :=
  { nni_msg_get_timestamp := fun p => p, nni_msg_get_type := fun _ => CMD_PUBLISH,
    nni_id_set_ok := fun _ => true, exchange_handle_msg := exchange_handle_msg Alloc.ok }

/-- Example: an empty ring buffer of `cap` slots with policy `pol` and no rules. -/
def exEmptyRb (cap : Nat) (pol : fullOption) : ringBuffer_t :=
  { head := 0, tail := 0, size := 0, cap := cap, expiredAt := 0,
    fullOp := pol, files := [], msgs := exMem,
    enqinRuleList := [], enqoutRuleList := [], deqinRuleList := [], deqoutRuleList := [] }

/-- Example: a fresh socket bound to an exchange whose ring buffer is `rb`. -/
def exSock (rb : ringBuffer_t) : exchange_sock_t :=
  (exchange_add_ex exchange_sock_init ⟨[rb]⟩ true).2

/-- Example: a node bound to an exchange without ring buffers, with the given busy flag,
dispatch slot and pending queue (capacity `NANO_MAX_MQ_BUFFER_LEN`). -/
def exNode (busy : Bool) (slot : Ptr) (queue : List Ptr) : exchange_node_t :=
  { ex := ⟨[]⟩, isBusy := busy, saio_msg := slot, saio_result := 0,
    send_messages := ⟨NANO_MAX_MQ_BUFFER_LEN, queue⟩ }

/-- Example: a fresh socket with the bound node `n`. -/
def exSockNode (n : exchange_node_t) : exchange_sock_t :=
  { exchange_sock_init with ex_node := some n }

/-- Modelled from the spec: the macro `HOOK_MASK` of `ringbuffer.h` (not among the
sources), the phase mask of the spec: the bits of the four phases. -/
def HOOK_MASK : Nat :=
  ENQUEUE_IN_HOOK ||| ENQUEUE_OUT_HOOK ||| DEQUEUE_IN_HOOK ||| DEQUEUE_OUT_HOOK

/-- Whether the allocation of the new rule succeeds in each of the four calls of
`ringBufferRuleList_add` that `ringBuffer_add_rule` can make. -/
structure RuleAlloc where
  enqin : Bool
  enqout : Bool
  deqin : Bool
  deqout : Bool

/-- `ringBuffer_add_rule`: the return code and the buffer afterwards.
`RBRULELIST_MAX_SIZE` is a macro of `ringbuffer.h` (not among the sources) and is an
argument here; `match` and `target` are valid function pointers. -/
def ringBuffer_add_rule (RBRULELIST_MAX_SIZE : Nat) (rb : ringBuffer_t)
    (match_ target : ringBuffer_s → Ptr → Nat → Int) (flag : Nat) (al : RuleAlloc) :
    Int × ringBuffer_t :=
  if flag &&& HOOK_MASK = 0 then (-1, rb)
  else
    let a :=
      if flag &&& ENQUEUE_IN_HOOK ≠ 0 then
        ringBufferRuleList_add RBRULELIST_MAX_SIZE rb.enqinRuleList match_ target al.enqin
      else (0, rb.enqinRuleList)
    let rb1 : ringBuffer_t := { rb with enqinRuleList := a.2 }
    if a.1 ≠ 0 then (-1, rb1)
    else
      let b :=
        if flag &&& ENQUEUE_OUT_HOOK ≠ 0 then
          ringBufferRuleList_add RBRULELIST_MAX_SIZE rb1.enqoutRuleList match_ target al.enqout
        else (0, rb1.enqoutRuleList)
      let rb2 : ringBuffer_t := { rb1 with enqoutRuleList := b.2 }
      if b.1 ≠ 0 then (-1, rb2)
      else
        let c :=
          if flag &&& DEQUEUE_IN_HOOK ≠ 0 then
            ringBufferRuleList_add RBRULELIST_MAX_SIZE rb2.deqinRuleList match_ target al.deqin
          else (0, rb2.deqinRuleList)
        let rb3 : ringBuffer_t := { rb2 with deqinRuleList := c.2 }
        if c.1 ≠ 0 then (-1, rb3)
        else
          let d :=
            if flag &&& DEQUEUE_OUT_HOOK ≠ 0 then
              ringBufferRuleList_add RBRULELIST_MAX_SIZE rb3.deqoutRuleList match_ target
                al.deqout
            else (0, rb3.deqoutRuleList)
          let rb4 : ringBuffer_t := { rb3 with deqoutRuleList := d.2 }
          if d.1 ≠ 0 then (-1, rb4) else (0, rb4)

/-- The slot indices that the range test of `ringBuffer_search_msgs_fuzz`
(`start > end || start > msgs[head + size - 1].key || end < msgs[head].key`) reads, in
the order in which `||` evaluates its operands. -/
def ringBuffer_search_msgs_fuzz.rangeReads (rb : ringBuffer_t) (start end_ : Nat) :
    List Nat :=
  if rb.size = 0 then []
  else if start > end_ then []
  else if start > (rb.msgs ((rb.head + rb.size - 1) % 2 ^ 32)).key then
    [(rb.head + rb.size - 1) % 2 ^ 32]
  else [(rb.head + rb.size - 1) % 2 ^ 32, rb.head]

/-- The `blf_file_ranges` of a `blf_object` (declared in `blf.h`, not among the sources):
the array `range` of descriptors as memory, the index `start` and the count `size`.  A
descriptor (`blf_file_range *`) is a pointer. -/
structure blf_file_ranges where
  range : Nat → Ptr
  start : Nat
  size : Nat

/-- The `ranges` that `blf_object_alloc` creates: no array, `start = 0`, `size = 0`. -/
def blf_ranges_init : blf_file_ranges := ⟨fun _ => NULL, 0, 0⟩

/-- `update_blf_file_ranges(conf, elem, range)` on `elem->ranges`, with `file_count` for
`conf->file_count`: the ranges afterwards and the descriptors passed to
`blf_file_range_free`.  The code does not test the result of `realloc`, which is taken to
succeed. -/
def update_blf_file_ranges (file_count : Nat) (r : blf_file_ranges) (range : Ptr) :
    Option (blf_file_ranges × List Ptr) :=
  if r.size ≠ file_count then
    some ({ r with
        size := r.size + 1,
        range := fun i => if i = r.size then range else r.range i }, [])
  else
    match umod (r.start + 1) r.size with
    | none => none
    | some st =>
      some ({ r with
          range := fun i => if i = r.start then range else r.range i,
          start := st }, [r.range r.start])

/-- The ranges after a sequence of calls of `update_blf_file_ranges`, one for each
descriptor of the list. -/
def updateRanges (file_count : Nat) : blf_file_ranges → List Ptr → Option blf_file_ranges
  | r, [] => some r
  | r, x :: xs =>
    match update_blf_file_ranges file_count r x with
    | none => none
    | some (r1, _) => updateRanges file_count r1 xs

/-- The descriptors of the window, oldest first: `size` entries from `start` on, wrapping
at `size`. -/
def rangesWindow (r : blf_file_ranges) : List Ptr :=
  (List.range r.size).map fun i => r.range ((r.start + i) % r.size)

/-- The environment's `exchange_handle_msg` has a result for every completion without a
list, and when it returns `0` and leaves a list on the completion, the completion also
carries the recorded length of the list, which is not beyond the end of the list. -/
def HandlerTotal (E : ExEnv) : Prop :=
  ∀ (ex : exchange_t) (key : Nat) (msg : Ptr) (aio : nng_aio), aio.prov_data = none →
    ∃ o, E.exchange_handle_msg ex key msg aio = some o ∧
      (o.ret = 0 → ∀ l, o.aio.prov_data = some l →
        ∃ n : Int, o.aio.msg = some n ∧ n.toNat ≤ l.length)

/-- Example: an environment like `exEnv` whose `exchange_handle_msg` touches nothing and
returns `-1` for the message `bad` and `0` for every other message. -/
def exEnvReject (bad : Ptr) : ExEnv :=
  { nni_msg_get_timestamp := fun p => p, nni_msg_get_type := fun _ => CMD_PUBLISH,
    nni_id_set_ok := fun _ => true,
    exchange_handle_msg := fun ex _ msg aio => some ⟨if msg = bad then -1 else 0, ex, aio⟩ }

/-- Example: `n` calls of `exchange_sock_send`, the call number `i` with the completion
`1000 + i` and the message `2000 + i`. -/
def exSends (n : Nat) : List ExEvent :=
  (List.range n).map fun i => ExEvent.send (1000 + i) (2000 + i) true

/-- Example: a full buffer of `2 ^ 31 + 1` slots at `head = 0`; slot `i` has key `2 * i`
and holds a message, so that every odd number lies strictly between two adjacent keys. -/
def exHugeGap : ringBuffer_t :=
  { head := 0, tail := 0, size := 2 ^ 31 + 1, cap := 2 ^ 31 + 1, expiredAt := 0,
    fullOp := fullOption.RB_FULL_NONE, files := [],
    msgs := fun i => ⟨2 * i, 1, 0⟩,
    enqinRuleList := [], enqoutRuleList := [], deqinRuleList := [], deqoutRuleList := [] }

/-- The call of `ringBufferRuleList_add` that `ringBuffer_add_rule` makes for the phase
`hook` does not fail: the phase is not named by `flag` (no call), or its list is below
the maximum and the rule can be allocated. -/
def phasePasses (RBRULELIST_MAX_SIZE : Nat) (flag hook : Nat) (list : List ringBufferRule_t)
    (newRule : Bool) : Prop :=
  flag &&& hook = 0 ∨ (list.length ≠ RBRULELIST_MAX_SIZE ∧ newRule = true)

instance (n flag hook : Nat) (list : List ringBufferRule_t) (newRule : Bool) :
    Decidable (phasePasses n flag hook list newRule) := by
  unfold phasePasses; infer_instance

/-- A sequence of `exchange_client_handle_msg` calls on the `rbmsgmap` of a socket and the
exchange of its node, each with its message and its completion: `rbmsgmap` and the
exchange after the last call (`none` when a call has no defined result). -/
def handleAll (E : ExEnv) :
    nni_id_map → exchange_t → List (Ptr × nng_aio) → Option (nni_id_map × exchange_t)
  | m, ex, [] => some (m, ex)
  | m, ex, p :: rest =>
    match exchange_client_handle_msg E m ex p.1 p.2 with
    | none => none
    | some o => handleAll E o.rbmsgmap o.ex rest

/-- The map `m` knows every message that the first ring buffer of the exchange holds: the
buffer satisfies the state conditions `wf`, and each message in its live window has a
non-null entry in `m` under the low 32 bits of its timestamp. -/
def mapCovers (E : ExEnv) (m : nni_id_map) (ex : exchange_t) : Prop :=
  ∃ rb rest, ex.rbs = rb :: rest ∧ wf rb.toringBuffer_s ∧
    ∀ s ∈ live rb.toringBuffer_s, s.data ≠ NULL →
      nni_id_get m (E.nni_msg_get_timestamp s.data % 2 ^ 32) ≠ NULL

/-- The environment's `exchange_handle_msg` is the enqueue on the first ring buffer of
the exchange (`exchange_handle_msg` above), with some outcome of the allocations at each
call. -/
def RingHandler (E : ExEnv) : Prop :=
  ∀ (ex : exchange_t) (key : Nat) (msg : Ptr) (aio : nng_aio),
    ∃ al, E.exchange_handle_msg ex key msg aio = exchange_handle_msg al ex key msg aio

/-! ## Theorems -/

theorem umod_pos (a : Nat) {b : Nat} (h : 0 < b) : umod a b = some (a % b) := by
  unfold umod
  rw [if_neg (Nat.pos_iff_ne_zero.mp h)]

theorem clean_loop_some (cap : Nat) (hcap : 0 < cap) (needFree : Bool) :
    ∀ (n i : Nat) (msgs : Nat → ringBufferMsg_t) (freed : List Ptr),
      ∃ r, ringBuffer_clean_msgs.loop cap needFree n i msgs freed = some r := by
  intro n
  induction n with
  | zero => intro i msgs freed; exact ⟨_, rfl⟩
  | succ n ih =>
    intro i msgs freed
    simp only [ringBuffer_clean_msgs.loop, umod_pos _ hcap]
    split
    · exact ih _ _ _
    · exact ih _ _ _

theorem clean_msgs_spec (rb : ringBuffer_t) (hcap : 0 < rb.cap) (needFree : Bool) :
    ∃ m freed, ringBuffer_clean_msgs rb needFree =
      some ({ rb with msgs := m, head := 0, tail := 0, size := 0 }, freed) := by
  obtain ⟨r, hr⟩ := clean_loop_some rb.cap hcap needFree rb.size rb.head rb.msgs []
  refine ⟨r.1, r.2, ?_⟩
  unfold ringBuffer_clean_msgs
  rw [hr]
  rfl

theorem cleanAndReturn_spec (rb : ringBuffer_t) (hcap : 0 < rb.cap) (needFree : Bool)
    (ret : Int) (aio : nng_aio) (pq : Option parquet_object) :
    ∃ m freed, cleanAndReturn rb needFree ret aio pq =
      some ⟨ret, { rb with msgs := m, head := 0, tail := 0, size := 0 }, aio, freed, pq⟩ := by
  obtain ⟨m, fr, h⟩ := clean_msgs_spec rb hcap needFree
  refine ⟨m, fr, ?_⟩
  unfold cleanAndReturn
  rw [h]
  rfl

theorem get_msgs_loop_some (rb : ringBuffer_s) (hcap : 0 < rb.cap) (hsz : rb.size ≤ rb.cap)
    (count : Int) :
    ∀ (fuel i j : Nat) (l : List Ptr), 0 < fuel → rb.size < fuel + i →
      ∃ r, ringBuffer_get_msgs.loop rb count fuel i j l = some r := by
  intro fuel
  induction fuel with
  | zero => intro i j l h; omega
  | succ fuel ih =>
    intro i j l _ hlt
    simp only [ringBuffer_get_msgs.loop, umod_pos _ hcap]
    split
    · split
      · exact ⟨_, rfl⟩
      · rename_i hi _
        have hm : i % rb.cap = i := Nat.mod_eq_of_lt (by omega)
        rw [hm]
        exact ih _ _ _ (by omega) (by omega)
    · exact ⟨_, rfl⟩

theorem get_msgs_some (rb : ringBuffer_s) (hcap : 0 < rb.cap) (hsz : rb.size ≤ rb.cap)
    (count : Int) (al : Alloc) : ∃ r, ringBuffer_get_msgs rb count al = some r := by
  unfold ringBuffer_get_msgs
  split
  · exact ⟨_, rfl⟩
  · exact get_msgs_loop_some rb hcap hsz count _ _ _ _ (by omega) (by omega)

theorem get_and_clean_spec (rb : ringBuffer_t) (hcap : 0 < rb.cap) (hsz : rb.size ≤ rb.cap)
    (count : Nat) (al : Alloc) :
    (∃ l, ringBuffer_get_and_clean_msgs rb count al = some (-1, rb, l)) ∨
    (∃ m l, ringBuffer_get_and_clean_msgs rb count al =
      some (0, { rb with msgs := m, head := 0, tail := 0, size := 0 }, l)) := by
  unfold ringBuffer_get_and_clean_msgs
  split
  · exact Or.inl ⟨_, rfl⟩
  · split
    · exact Or.inl ⟨_, rfl⟩
    · obtain ⟨r, hr⟩ := get_msgs_some rb.toringBuffer_s hcap hsz (toInt32 count) al
      obtain ⟨m, fr, hc⟩ := clean_msgs_spec rb hcap false
      rw [hr, hc]
      obtain ⟨ret, l⟩ := r
      by_cases h : ret ≠ 0
      · simp only [if_pos h]
        exact Or.inl ⟨_, rfl⟩
      · simp only [if_neg h]
        exact Or.inr ⟨_, _, rfl⟩

theorem put_msgs_spec (rb : ringBuffer_t) (hcap : 0 < rb.cap) (hsz : rb.size ≤ rb.cap)
    (aio : nng_aio) (al : Alloc) :
    (∃ a fr pq, put_msgs_to_aio rb aio al = some ⟨-1, rb, a, fr, pq⟩) ∨
    (∃ ret m a fr pq, put_msgs_to_aio rb aio al =
      some ⟨ret, { rb with msgs := m, head := 0, tail := 0, size := 0 }, a, fr, pq⟩) := by
  unfold put_msgs_to_aio
  rcases get_and_clean_spec rb hcap hsz rb.cap al with ⟨l, h⟩ | ⟨m, l, h⟩
  · rw [h]
    exact Or.inl ⟨_, _, _, rfl⟩
  · rw [h]
    right
    simp only [ne_eq, not_true_eq_false, if_false]
    split
    · exact ⟨_, _, _, _, _, rfl⟩
    · split
      · exact ⟨_, _, _, _, _, rfl⟩
      · exact ⟨_, _, _, _, _, rfl⟩

theorem write_msgs_spec (rb : ringBuffer_t) (hcap : 0 < rb.cap) (aio : nng_aio) (al : Alloc) :
    ∃ ret m fl a fr pq, write_msgs_to_file rb aio al =
      some ⟨ret, { rb with msgs := m, files := fl, head := 0, tail := 0, size := 0 },
        a, fr, pq⟩ := by
  unfold write_msgs_to_file
  split
  · obtain ⟨m, fr, h⟩ := cleanAndReturn_spec rb hcap true (-1) aio none
    exact ⟨_, _, _, _, _, _, h⟩
  · split
    · obtain ⟨m, fr, h⟩ := cleanAndReturn_spec rb hcap true (-1) aio none
      exact ⟨_, _, _, _, _, _, h⟩
    · rename_i obj _
      split
      · obtain ⟨m, fr, h⟩ := cleanAndReturn_spec rb hcap true (-1) aio (some obj)
        exact ⟨_, _, _, _, _, _, h⟩
      · obtain ⟨m, fr, h⟩ := cleanAndReturn_spec
          { rb with files := rb.files ++ [⟨(List.range rb.cap).map fun i => (rb.msgs i).key⟩] }
          hcap false 0 aio (some obj)
        exact ⟨_, _, _, _, _, _, h⟩

end NanoNNG
namespace NanoNNG

theorem SameConfig.refl (rb : ringBuffer_t) : SameConfig rb rb :=
  ⟨rfl, rfl, rfl, rfl, rfl, rfl⟩

theorem SameConfig.trans {a b c : ringBuffer_t} (h1 : SameConfig a b) (h2 : SameConfig b c) :
    SameConfig a c := by
  obtain ⟨h11, h12, h13, h14, h15, h16⟩ := h1
  obtain ⟨h21, h22, h23, h24, h25, h26⟩ := h2
  exact ⟨h21.trans h11, h22.trans h12, h23.trans h13, h24.trans h14, h25.trans h15,
    h26.trans h16⟩

theorem insert_spec (o : EnqueueOut) (hcap : 0 < o.rb.cap) (key : Nat) (data : Ptr)
    (expiredAt : Nat) :
    ringBuffer_enqueue.insert o key data expiredAt =
      some { o with
        ret := 0,
        rb := { o.rb with
          msgs := setSlot o.rb.msgs o.rb.tail ⟨key, data, expiredAt⟩,
          tail := (o.rb.tail + 1) % o.rb.cap, size := o.rb.size + 1 } } := by
  unfold ringBuffer_enqueue.insert
  rw [umod_pos _ hcap]

theorem ringInv_insert (rb : ringBuffer_s) (h : ringInv rb) (hlt : rb.size < rb.cap)
    (m : Nat → ringBufferMsg_t) (fl : List ringBufferFile_t) :
    ringInv { rb with msgs := m, files := fl, tail := (rb.tail + 1) % rb.cap,
                      size := rb.size + 1 } := by
  obtain ⟨h1, h2, _, h4⟩ := h
  refine ⟨h1, h2, hlt, ?_⟩
  show (rb.tail + 1) % rb.cap = (rb.head + (rb.size + 1)) % rb.cap
  rw [h4, Nat.mod_add_mod, Nat.add_assoc]

theorem ringInv_cleared (rb : ringBuffer_s) (h : 0 < rb.cap) (m : Nat → ringBufferMsg_t)
    (fl : List ringBufferFile_t) :
    ringInv { rb with msgs := m, files := fl, head := 0, tail := 0, size := 0 } :=
  ⟨h, h, Nat.zero_le _, (Nat.zero_mod _).symm⟩

theorem enqueue_full_spec (rb : ringBuffer_t) (h : wf rb.toringBuffer_s) (aio : nng_aio)
    (al : Alloc) :
    (∃ a fr pq, ringBuffer_enqueue.full rb aio al = some ⟨-1, rb, a, fr, pq⟩) ∨
    (∃ ret m fl a fr pq, ringBuffer_enqueue.full rb aio al =
      some ⟨ret, { rb with msgs := m, files := fl, head := 0, tail := 0, size := 0 },
        a, fr, pq⟩) := by
  have hcap := h.1.1
  have hsz := h.1.2.2.1
  have hop := h.2
  unfold ringBuffer_enqueue.full
  split
  · exact Or.inl ⟨_, _, _, rfl⟩
  · obtain ⟨m, fr, hc⟩ := cleanAndReturn_spec rb hcap true 0 aio none
    exact Or.inr ⟨_, m, rb.files, _, _, _, hc⟩
  · rcases put_msgs_spec rb hcap hsz aio al with ⟨a, fr, pq, hp⟩ | ⟨ret, m, a, fr, pq, hp⟩
    · exact Or.inl ⟨_, _, _, hp⟩
    · exact Or.inr ⟨_, m, rb.files, _, _, _, hp⟩
  · obtain ⟨ret, m, fl, a, fr, pq, hw⟩ := write_msgs_spec rb hcap aio al
    exact Or.inr ⟨_, _, _, _, _, _, hw⟩
  · rename_i hmax
    exact absurd hmax hop

theorem enqueue_wf (rb : ringBuffer_t) (h : wf rb.toringBuffer_s) (key : Nat) (data : Ptr)
    (expiredAt : Nat) (aio : nng_aio) (al : Alloc) :
    ∃ o, ringBuffer_enqueue rb key data expiredAt aio al = some o ∧
      wf o.rb.toringBuffer_s ∧ SameConfig rb o.rb := by
  unfold ringBuffer_enqueue
  split
  · exact ⟨_, rfl, h, SameConfig.refl rb⟩
  · split
    · rcases enqueue_full_spec rb h aio al with ⟨a, fr, pq, hf⟩ | ⟨ret, m, fl, a, fr, pq, hf⟩
      · rw [hf]
        exact ⟨_, rfl, h, SameConfig.refl rb⟩
      · rw [hf]
        by_cases hr : ret ≠ 0
        · simp only [if_pos hr]
          exact ⟨_, rfl, ⟨ringInv_cleared _ h.1.1 m fl, h.2⟩, ⟨rfl, rfl, rfl, rfl, rfl, rfl⟩⟩
        · simp only [if_neg hr]
          rw [insert_spec _ h.1.1]
          refine ⟨_, rfl, ⟨?_, h.2⟩, ⟨rfl, rfl, rfl, rfl, rfl, rfl⟩⟩
          exact ringInv_insert _ (ringInv_cleared _ h.1.1 m fl) h.1.1 _ _
    · rename_i hne
      rw [insert_spec _ h.1.1]
      refine ⟨_, rfl, ⟨?_, h.2⟩, ⟨rfl, rfl, rfl, rfl, rfl, rfl⟩⟩
      exact ringInv_insert _ h.1 (lt_of_le_of_ne h.1.2.2.1 hne) _ _

theorem dequeue_wf (rb : ringBuffer_t) (h : wf rb.toringBuffer_s) :
    ∃ o, ringBuffer_dequeue rb = some o ∧ wf o.rb.toringBuffer_s ∧ SameConfig rb o.rb := by
  unfold ringBuffer_dequeue
  split
  · exact ⟨_, rfl, h, SameConfig.refl rb⟩
  · split
    · exact ⟨_, rfl, h, SameConfig.refl rb⟩
    · rename_i hne
      rw [umod_pos _ h.1.1]
      refine ⟨_, rfl, ?_, ⟨rfl, rfl, rfl, rfl, rfl, rfl⟩⟩
      obtain ⟨⟨h1, h2, h3, h4⟩, h5⟩ := h
      refine ⟨⟨h1, Nat.mod_lt _ h1, ?_, ?_⟩, h5⟩
      · show rb.size - 1 ≤ rb.cap
        omega
      · show rb.tail = ((rb.head + 1) % rb.cap + (rb.size - 1)) % rb.cap
        rw [h4, Nat.mod_add_mod]
        congr 1
        omega

theorem runOps_wf (ops : List Op) :
    ∀ rb : ringBuffer_t, wf rb.toringBuffer_s →
      ∃ rb1, runOps rb ops = some rb1 ∧ wf rb1.toringBuffer_s ∧ SameConfig rb rb1 := by
  induction ops with
  | nil => intro rb h; exact ⟨rb, rfl, h, SameConfig.refl rb⟩
  | cons op ops ih =>
    intro rb h
    have hstep : ∃ rb1, op.run rb = some rb1 ∧ wf rb1.toringBuffer_s ∧ SameConfig rb rb1 := by
      cases op with
      | enqueue key data expiredAt aio al =>
        obtain ⟨o, ho, hw, hs⟩ := enqueue_wf rb h key data expiredAt aio al
        exact ⟨o.rb, by simp only [Op.run, ho, Option.map_some'], hw, hs⟩
      | dequeue =>
        obtain ⟨o, ho, hw, hs⟩ := dequeue_wf rb h
        exact ⟨o.rb, by simp only [Op.run, ho, Option.map_some'], hw, hs⟩
    obtain ⟨rb1, h1, hw1, hs1⟩ := hstep
    obtain ⟨rb2, h2, hw2, hs2⟩ := ih rb1 hw1
    refine ⟨rb2, ?_, hw2, hs1.trans hs2⟩
    simp only [runOps, h1, h2]

theorem window_congr (msgs : Nat → ringBufferMsg_t) (cap : Nat) :
    ∀ (n i j : Nat), i % cap = j % cap → window msgs cap n i = window msgs cap n j := by
  intro n
  induction n with
  | zero => intro i j _; rfl
  | succ n ih =>
    intro i j h
    simp only [window, h]
    congr 1
    apply ih
    rw [Nat.add_mod, h, ← Nat.add_mod]

theorem window_succ (msgs : Nat → ringBufferMsg_t) (cap : Nat) :
    ∀ (n i : Nat), window msgs cap (n + 1) i = window msgs cap n i ++ [msgs ((i + n) % cap)] := by
  intro n
  induction n with
  | zero => intro i; simp [window]
  | succ n ih =>
    intro i
    have e : i + 1 + n = i + (n + 1) := by omega
    rw [window, ih (i + 1), e]
    rfl

theorem window_setSlot (msgs : Nat → ringBufferMsg_t) (cap t : Nat) (s : ringBufferMsg_t) :
    ∀ (n i : Nat), (∀ k, k < n → (i + k) % cap ≠ t) →
      window (setSlot msgs t s) cap n i = window msgs cap n i := by
  intro n
  induction n with
  | zero => intro i _; rfl
  | succ n ih =>
    intro i h
    simp only [window]
    congr 1
    · have := h 0 (Nat.succ_pos _)
      simp only [Nat.add_zero] at this
      simp only [setSlot, if_neg this]
    · apply ih
      intro k hk
      have := h (k + 1) (by omega)
      rwa [show i + 1 + k = i + (k + 1) by omega]

theorem mod_add_ne (cap a k s : Nat) (hk : k < s) (hs : s < cap) :
    (a + k) % cap ≠ (a + s) % cap := by
  intro h
  have h1 : k % cap = s % cap := Nat.ModEq.add_left_cancel' a h
  rw [Nat.mod_eq_of_lt (by omega), Nat.mod_eq_of_lt hs] at h1
  omega

theorem live_length (rb : ringBuffer_s) : (live rb).length = rb.size := by
  unfold live
  generalize rb.head = i
  generalize rb.size = n
  induction n generalizing i with
  | zero => rfl
  | succ n ih => simp only [window, List.length_cons, ih]

theorem rule_check_enqin (rb : ringBuffer_t) (data : Ptr) :
    ringBuffer_rule_check rb data ENQUEUE_IN_HOOK =
      if ringBufferRule_check rb.toringBuffer_s rb.enqinRuleList data ENQUEUE_IN_HOOK ≠ 0
      then -1 else 0 := by
  unfold ringBuffer_rule_check
  have h1 : (ENQUEUE_IN_HOOK &&& ENQUEUE_IN_HOOK ≠ 0) = True := eq_true (by decide)
  have h2 : (ENQUEUE_IN_HOOK &&& ENQUEUE_OUT_HOOK ≠ 0) = False := eq_false (by decide)
  have h3 : (ENQUEUE_IN_HOOK &&& DEQUEUE_IN_HOOK ≠ 0) = False := eq_false (by decide)
  have h4 : (ENQUEUE_IN_HOOK &&& DEQUEUE_OUT_HOOK ≠ 0) = False := eq_false (by decide)
  simp only [h1, h2, h3, h4, true_and, false_and, if_false]

theorem rule_check_deqin (rb : ringBuffer_t) (data : Ptr) :
    ringBuffer_rule_check rb data DEQUEUE_IN_HOOK =
      if ringBufferRule_check rb.toringBuffer_s rb.deqinRuleList data DEQUEUE_IN_HOOK ≠ 0
      then -1 else 0 := by
  unfold ringBuffer_rule_check
  have h1 : (DEQUEUE_IN_HOOK &&& ENQUEUE_IN_HOOK ≠ 0) = False := eq_false (by decide)
  have h2 : (DEQUEUE_IN_HOOK &&& ENQUEUE_OUT_HOOK ≠ 0) = False := eq_false (by decide)
  have h3 : (DEQUEUE_IN_HOOK &&& DEQUEUE_IN_HOOK ≠ 0) = True := eq_true (by decide)
  have h4 : (DEQUEUE_IN_HOOK &&& DEQUEUE_OUT_HOOK ≠ 0) = False := eq_false (by decide)
  simp only [h1, h2, h3, h4, true_and, false_and, if_false]

theorem enqueue_notfull (rb : ringBuffer_t) (hcap : 0 < rb.cap) (hne : rb.size ≠ rb.cap)
    (key : Nat) (data : Ptr) (expiredAt : Nat) (aio : nng_aio) (al : Alloc)
    (hrule : ringBuffer_rule_check rb data ENQUEUE_IN_HOOK = 0) :
    ringBuffer_enqueue rb key data expiredAt aio al =
      some ⟨0, { rb with
        msgs := setSlot rb.msgs rb.tail ⟨key, data, expiredAt⟩,
        tail := (rb.tail + 1) % rb.cap, size := rb.size + 1 }, aio, [], none⟩ := by
  unfold ringBuffer_enqueue
  rw [if_neg (by rw [hrule]; exact fun h => h rfl), if_neg hne, insert_spec _ hcap]

theorem enqueue_ret_zero_rule (rb : ringBuffer_t) (key : Nat) (data : Ptr)
    (expiredAt : Nat) (aio : nng_aio) (al : Alloc) (o : EnqueueOut)
    (ho : ringBuffer_enqueue rb key data expiredAt aio al = some o) (hr : o.ret = 0) :
    ringBuffer_rule_check rb data ENQUEUE_IN_HOOK = 0 := by
  by_contra hne
  unfold ringBuffer_enqueue at ho
  rw [if_pos hne] at ho
  cases ho
  simp at hr

theorem live_insert (rb : ringBuffer_s) (h : ringInv rb) (hlt : rb.size < rb.cap)
    (s : ringBufferMsg_t) :
    live { rb with msgs := setSlot rb.msgs rb.tail s, tail := (rb.tail + 1) % rb.cap,
                   size := rb.size + 1 } = live rb ++ [s] := by
  obtain ⟨_, _, _, h4⟩ := h
  show window (setSlot rb.msgs rb.tail s) rb.cap (rb.size + 1) rb.head = _
  rw [window_succ, window_setSlot]
  · unfold live
    congr 2
    rw [← h4]
    simp only [setSlot, if_pos]
  · intro k hk
    rw [h4]
    exact mod_add_ne _ _ _ _ hk hlt

theorem dequeue_nonempty (rb : ringBuffer_t) (hcap : 0 < rb.cap) (hne : rb.size ≠ 0)
    (hrule : ringBuffer_rule_check rb NULL DEQUEUE_IN_HOOK = 0) :
    ringBuffer_dequeue rb =
      some ⟨0, { rb with head := (rb.head + 1) % rb.cap, size := rb.size - 1 },
        some (rb.msgs rb.head).data⟩ := by
  unfold ringBuffer_dequeue
  rw [if_neg (by rw [hrule]; exact fun h => h rfl), if_neg hne, umod_pos _ hcap]

theorem live_dequeue (rb : ringBuffer_s) (h : ringInv rb) (hne : rb.size ≠ 0) :
    live rb = rb.msgs rb.head ::
      live { rb with head := (rb.head + 1) % rb.cap, size := rb.size - 1 } := by
  obtain ⟨_, h2, _, _⟩ := h
  unfold live
  obtain ⟨n, hn⟩ : ∃ n, rb.size = n + 1 := ⟨rb.size - 1, by omega⟩
  show window rb.msgs rb.cap rb.size rb.head =
    rb.msgs rb.head :: window rb.msgs rb.cap (rb.size - 1) ((rb.head + 1) % rb.cap)
  rw [hn, window, Nat.mod_eq_of_lt h2, Nat.add_sub_cancel]
  congr 1
  exact window_congr _ _ _ _ _ (Nat.mod_mod _ _).symm

theorem ringInv_dequeue (rb : ringBuffer_s) (h : ringInv rb) (hne : rb.size ≠ 0) :
    ringInv { rb with head := (rb.head + 1) % rb.cap, size := rb.size - 1 } := by
  obtain ⟨h1, h2, h3, h4⟩ := h
  refine ⟨h1, Nat.mod_lt _ h1, ?_, ?_⟩
  · show rb.size - 1 ≤ rb.cap
    omega
  · show rb.tail = ((rb.head + 1) % rb.cap + (rb.size - 1)) % rb.cap
    rw [h4, Nat.mod_add_mod]
    congr 1
    omega

theorem enqueueAll_live (items : List EnqArgs) :
    ∀ (rb rb1 : ringBuffer_t), ringInv rb.toringBuffer_s →
      rb.size + items.length ≤ rb.cap → enqueueAll rb items = some rb1 →
      live rb1.toringBuffer_s = live rb.toringBuffer_s ++ items.map EnqArgs.slot ∧
        ringInv rb1.toringBuffer_s ∧ SameConfig rb rb1 := by
  induction items with
  | nil =>
    intro rb rb1 h _ he
    simp only [enqueueAll, Option.some.injEq] at he
    subst he
    simp [SameConfig.refl, h]
  | cons a rest ih =>
    intro rb rb1 h hlen he
    simp only [List.length_cons] at hlen
    unfold enqueueAll at he
    split at he
    · exact absurd he (by simp)
    · rename_i o ho
      split at he
      · rename_i hr
        have hrule := enqueue_ret_zero_rule _ _ _ _ _ _ _ ho hr
        rw [enqueue_notfull rb h.1 (by omega) _ _ _ _ _ hrule] at ho
        cases ho
        obtain ⟨hl, hi, hs⟩ := ih _ rb1
          (ringInv_insert rb.toringBuffer_s h (by omega) _ rb.files)
          (by show rb.size + 1 + rest.length ≤ rb.cap; omega) he
        refine ⟨?_, hi, SameConfig.trans ⟨rfl, rfl, rfl, rfl, rfl, rfl⟩ hs⟩
        rw [hl]
        have := live_insert rb.toringBuffer_s h (by omega) a.slot
        simp only [EnqArgs.slot] at this
        rw [this]
        simp [EnqArgs.slot]
      · exact absurd he (by simp)

theorem dequeueAll_live (n : Nat) :
    ∀ (rb : ringBuffer_t), ringInv rb.toringBuffer_s → n ≤ rb.size →
      deqRulesPass rb n = true →
      ∃ rb2, dequeueAll rb n =
        some (((live rb.toringBuffer_s).take n).map fun s => s.data, rb2) := by
  induction n with
  | zero => intro rb _ _ _; exact ⟨rb, by simp [dequeueAll]⟩
  | succ n ih =>
    intro rb h hn hrule
    have hne : rb.size ≠ 0 := by omega
    unfold deqRulesPass at hrule
    rw [Bool.and_eq_true, decide_eq_true_iff] at hrule
    obtain ⟨hr, hrest⟩ := hrule
    rw [dequeue_nonempty rb h.1 hne hr] at hrest
    obtain ⟨rb2, h2⟩ := ih { rb with head := (rb.head + 1) % rb.cap, size := rb.size - 1 }
      (ringInv_dequeue _ h hne) (by show n ≤ rb.size - 1; omega) hrest
    refine ⟨rb2, ?_⟩
    unfold dequeueAll
    rw [dequeue_nonempty rb h.1 hne hr]
    simp only [h2]
    rw [live_dequeue _ h hne]
    simp

/-- Clearing the data pointer of a slot whose pointer is already `NULL` changes nothing. -/
theorem setData_null_of_null (msgs : Nat → ringBufferMsg_t) (i : Nat)
    (h : ¬ (msgs i).data ≠ NULL) : setData msgs i NULL = msgs := by
  funext j
  unfold setData
  split
  · rename_i hj
    subst hj
    have : (msgs j).data = NULL := not_not.mp h
    rw [← this]
  · rfl

theorem clean_loop_step (cap : Nat) (hcap : 0 < cap) (needFree : Bool) (n i : Nat)
    (msgs : Nat → ringBufferMsg_t) (freed : List Ptr) :
    ringBuffer_clean_msgs.loop cap needFree (n + 1) i msgs freed =
      ringBuffer_clean_msgs.loop cap needFree n ((i + 1) % cap) (setData msgs i NULL)
        (if (msgs i).data ≠ NULL ∧ needFree = true then freed ++ [(msgs i).data] else freed) := by
  simp only [ringBuffer_clean_msgs.loop, umod_pos _ hcap]
  by_cases h : (msgs i).data ≠ NULL
  · simp only [eq_true h, true_and, if_true]
  · simp only [eq_false h, false_and, if_false, setData_null_of_null msgs i h]

theorem clean_loop_keys (cap : Nat) (hcap : 0 < cap) (needFree : Bool) :
    ∀ (n i : Nat) (msgs m : Nat → ringBufferMsg_t) (freed fr : List Ptr),
      ringBuffer_clean_msgs.loop cap needFree n i msgs freed = some (m, fr) →
      ∀ j, (m j).key = (msgs j).key ∧ (m j).expiredAt = (msgs j).expiredAt ∧
        ((msgs j).data = NULL → (m j).data = NULL) := by
  intro n
  induction n with
  | zero =>
    intro i msgs m freed fr h j
    simp only [ringBuffer_clean_msgs.loop, Option.some.injEq, Prod.mk.injEq] at h
    rw [← h.1]
    exact ⟨rfl, rfl, id⟩
  | succ n ih =>
    intro i msgs m freed fr h j
    rw [clean_loop_step cap hcap] at h
    obtain ⟨h1, h2, h3⟩ := ih _ _ _ _ _ h j
    refine ⟨?_, ?_, ?_⟩
    · rw [h1]; unfold setData; split <;> rfl
    · rw [h2]; unfold setData; split <;> rfl
    · intro hn
      apply h3
      unfold setData
      split
      · rfl
      · exact hn

theorem clean_loop_null (cap : Nat) (hcap : 0 < cap) (needFree : Bool) :
    ∀ (n i : Nat) (msgs m : Nat → ringBufferMsg_t) (freed fr : List Ptr), i < cap →
      ringBuffer_clean_msgs.loop cap needFree n i msgs freed = some (m, fr) →
      ∀ k, k < n → (m ((i + k) % cap)).data = NULL := by
  intro n
  induction n with
  | zero => intro i msgs m freed fr _ _ k hk; omega
  | succ n ih =>
    intro i msgs m freed fr hi h k hk
    rw [clean_loop_step cap hcap] at h
    cases k with
    | zero =>
      rw [Nat.add_zero, Nat.mod_eq_of_lt hi]
      apply (clean_loop_keys cap hcap needFree _ _ _ _ _ _ h i).2.2
      simp only [setData, if_pos]
    | succ k =>
      have := ih _ _ _ _ _ (Nat.mod_lt _ hcap) h k (by omega)
      rwa [Nat.mod_add_mod, show i + 1 + k = i + (k + 1) by omega] at this

theorem window_setData (msgs : Nat → ringBufferMsg_t) (cap t : Nat) (d : Ptr) :
    ∀ (n i : Nat), (∀ k, k < n → (i + k) % cap ≠ t) →
      window (setData msgs t d) cap n i = window msgs cap n i := by
  intro n
  induction n with
  | zero => intro i _; rfl
  | succ n ih =>
    intro i h
    simp only [window]
    congr 1
    · have := h 0 (Nat.succ_pos _)
      simp only [Nat.add_zero] at this
      simp only [setData, if_neg this]
    · apply ih
      intro k hk
      have := h (k + 1) (by omega)
      rwa [show i + 1 + k = i + (k + 1) by omega]

/-- The messages that `ringBuffer_clean_msgs` frees on a window of slots: the non-null
data pointers, in window order. -/
theorem clean_loop_freed (cap : Nat) (hcap : 0 < cap) :
    ∀ (n i : Nat) (msgs m : Nat → ringBufferMsg_t) (freed fr : List Ptr), i < cap → n ≤ cap →
      ringBuffer_clean_msgs.loop cap true n i msgs freed = some (m, fr) →
      fr = freed ++ ((window msgs cap n i).map fun s => s.data).filter fun d => d ≠ NULL := by
  intro n
  induction n with
  | zero =>
    intro i msgs m freed fr _ _ h
    simp only [ringBuffer_clean_msgs.loop, Option.some.injEq, Prod.mk.injEq] at h
    simp [window, h.2]
  | succ n ih =>
    intro i msgs m freed fr hi hn h
    rw [clean_loop_step cap hcap] at h
    have := ih _ _ _ _ _ (Nat.mod_lt _ hcap) (by omega) h
    rw [this, window_congr _ _ _ _ (i + 1) (Nat.mod_mod _ _), window_setData]
    · simp only [window, Nat.mod_eq_of_lt hi, List.map_cons, List.filter_cons]
      by_cases hd : (msgs i).data ≠ NULL
      · simp [hd]
      · simp [hd]
    · intro k hk
      have := mod_add_ne cap i 0 (k + 1) (by omega) (by omega)
      rw [Nat.add_zero, Nat.mod_eq_of_lt hi] at this
      rw [show i + 1 + k = i + (k + 1) by omega]
      exact fun e => this e.symm

theorem exists_offset (cap head j : Nat) (hh : head < cap) (hj : j < cap) :
    ∃ k, k < cap ∧ (head + k) % cap = j := by
  by_cases h : head ≤ j
  · exact ⟨j - head, by omega, by rw [show head + (j - head) = j by omega, Nat.mod_eq_of_lt hj]⟩
  · refine ⟨j + cap - head, by omega, ?_⟩
    rw [show head + (j + cap - head) = j + cap by omega, Nat.add_mod_right, Nat.mod_eq_of_lt hj]

theorem init_wf (MAX cap : Nat) (fullOp : fullOption) (expiredAt : Nat)
    (mem : Nat → ringBufferMsg_t) (al : Alloc) (rb : ringBuffer_t)
    (h : ringBuffer_init MAX cap fullOp expiredAt mem al = some rb) (hcap : 0 < cap) :
    wf rb.toringBuffer_s ∧ rb.size = 0 ∧ rb.cap = cap ∧ rb.fullOp = fullOp := by
  unfold ringBuffer_init at h
  split at h
  · exact absurd h (by simp)
  · split at h
    · exact absurd h (by simp)
    · rename_i hop
      split at h
      · exact absurd h (by simp)
      · split at h
        · exact absurd h (by simp)
        · simp only [Option.some.injEq] at h
          subst h
          refine ⟨⟨⟨hcap, hcap, Nat.zero_le _, (Nat.zero_mod _).symm⟩, ?_⟩, rfl, rfl, rfl⟩
          intro hmax
          apply hop
          show fullOp.toNat ≥ fullOption.RB_FULL_MAX.toNat
          rw [show fullOp = fullOption.RB_FULL_MAX from hmax]

/-- C3, failing input: a buffer of two slots with policy `RB_FULL_RETURN`, after
enqueue, enqueue, dequeue, enqueue, is full with `head = 1` and holds the messages 102,
103.  The next `ringBuffer_enqueue`, whose pre-enqueue rules pass, returns `-1`, attaches
no list to the completion and leaves both old messages in the buffer: the loop
`for (i = head; i < size; i++)` of `ringBuffer_get_msgs` stops after one message. -/
theorem return_overflow_fails_when_head_nonzero :
    ∃ rb, (ringBuffer_init 0xffffffff 2 fullOption.RB_FULL_RETURN 0 exMem Alloc.ok).bind
        (fun rb0 => runOps rb0 [exEnq 1 101, exEnq 2 102, Op.dequeue, exEnq 3 103]) = some rb ∧
      rb.head = 1 ∧ rb.size = 2 ∧ rb.cap = 2 ∧
      (live rb.toringBuffer_s).map (fun s => s.data) = [102, 103] ∧
      ringBuffer_rule_check rb 104 ENQUEUE_IN_HOOK = 0 ∧
      ∃ o, ringBuffer_enqueue rb 4 104 0 exAio Alloc.ok = some o ∧ o.ret = -1 ∧
        o.aio = exAio ∧ o.rb.size = 2 ∧
        (live o.rb.toringBuffer_s).map (fun s => s.data) = [102, 103] :=
  ⟨_, rfl, rfl, rfl, rfl, rfl, rfl, _, rfl, rfl, rfl, rfl, rfl⟩

/-- C7, failing input: after enqueue (key 1), enqueue (key 2), dequeue on a buffer of two
slots the live window is the one slot with key 2 at `head = 1`, and
`ringBuffer_search_msg_by_key` for key 2 returns `-1`: its loop
`for (i = head; i < size; i++)` does not run for `head = size`. -/
theorem search_msg_by_key_misses_live_key :
    ∃ rb, (ringBuffer_init 0xffffffff 2 fullOption.RB_FULL_NONE 0 exMem Alloc.ok).bind
        (fun rb0 => runOps rb0 [exEnq 1 101, exEnq 2 102, Op.dequeue]) = some rb ∧
      rb.head = 1 ∧ rb.size = 1 ∧
      live rb.toringBuffer_s = [⟨2, 102, 0⟩] ∧
      ringBuffer_search_msg_by_key rb 2 = some ⟨-1, none, []⟩ :=
  ⟨_, rfl, rfl, rfl, rfl, rfl⟩

/-- C10, failing input: after three enqueues (keys 1, 2, 3) and two dequeues on a buffer
of three slots the live window is the one slot with key 3 at `head = 2`, and
`ringBuffer_search_msgs_by_key` for key 3 and `count = 1` (so `1 ≤ count ≤ size`)
returns `-1`: its loop `for (i = head; i < size; i++)` does not run. -/
theorem search_msgs_by_key_misses_live_key :
    ∃ rb, (ringBuffer_init 0xffffffff 3 fullOption.RB_FULL_NONE 0 exMem Alloc.ok).bind
        (fun rb0 => runOps rb0
          [exEnq 1 101, exEnq 2 102, exEnq 3 103, Op.dequeue, Op.dequeue]) = some rb ∧
      rb.head = 2 ∧ rb.size = 1 ∧
      live rb.toringBuffer_s = [⟨3, 103, 0⟩] ∧
      ringBuffer_search_msgs_by_key rb 3 1 Alloc.ok = some ⟨-1, none, []⟩ :=
  ⟨_, rfl, rfl, rfl, rfl, rfl⟩

/-- C5: on a buffer with policy `RB_FULL_NONE` and `size = cap`, `ringBuffer_enqueue`
returns `-1` and the buffer afterwards is the buffer before: `head`, `tail`, `size` and
every slot are unchanged (whatever the pre-enqueue rules answer). -/
theorem enqueue_full_none_unchanged (rb : ringBuffer_t) (hfull : rb.size = rb.cap)
    (hop : rb.fullOp = fullOption.RB_FULL_NONE) (key : Nat) (data : Ptr) (expiredAt : Nat)
    (aio : nng_aio) (al : Alloc) :
    ringBuffer_enqueue rb key data expiredAt aio al = some ⟨-1, rb, aio, [], none⟩ := by
  unfold ringBuffer_enqueue
  split
  · rfl
  · unfold ringBuffer_enqueue.full
    rw [hop]
    rfl

/-- Claim C9 (as worded, refuted): a buffer of three slots after enqueue, enqueue, enqueue,
dequeue, enqueue has `head = 1` and holds three messages, the newest in slot 0.  The range
test of `ringBuffer_search_msgs_fuzz` for `start = 2`, `end = 4`, a range that covers the
buffered keys, reads the slot index `head + size - 1 = 3` before `head` is tested, and 3
is not below `cap = 3`: a read behind the slot array. -/
theorem search_msgs_fuzz_head_nonzero_reads_past_cap :
    ∃ rb, (ringBuffer_init 0xffffffff 3 fullOption.RB_FULL_NONE 0 exMem Alloc.ok).bind
        (fun rb0 => runOps rb0 [exEnq 1 101, exEnq 2 102, exEnq 3 103, Op.dequeue,
          exEnq 4 104]) = some rb ∧
      rb.head ≠ 0 ∧ rb.cap = 3 ∧ rb.head + rb.size - 1 = 3 ∧
      (live rb.toringBuffer_s).map (fun s => s.key) = [2, 3, 4] ∧
      (ringBuffer_search_msgs_fuzz.rangeReads rb 2 4).head? = some 3 ∧ ¬ 3 < rb.cap :=
  ⟨_, rfl, by decide, rfl, rfl, rfl, rfl, by decide⟩

/-- Claim C9 (amended): on a buffer with `head ≠ 0`, for every `start` and `end` for which
the range test reads no slot behind the array (the buffer is empty, or `start > end`, or
the live window does not run past the end of the array: `head + size ≤ cap`), every slot
index that the range test reads is below `cap`, and `ringBuffer_search_msgs_fuzz` returns
`-1` with no count and no list, whatever the slots hold: also when `[start, end]` covers
buffered keys. -/
theorem search_msgs_fuzz_fails_when_head_nonzero (rb : ringBuffer_t) (hhead : rb.head ≠ 0)
    (start end_ : Nat) (al : Alloc)
    (hin : rb.size = 0 ∨ start > end_ ∨ rb.head + rb.size ≤ rb.cap) :
    (∀ i ∈ ringBuffer_search_msgs_fuzz.rangeReads rb start end_, i < rb.cap) ∧
      ringBuffer_search_msgs_fuzz rb start end_ al = some ⟨-1, none, []⟩ := by
  constructor
  · unfold ringBuffer_search_msgs_fuzz.rangeReads
    by_cases h0 : rb.size = 0
    · rw [if_pos h0]
      intro i hi
      exact absurd hi (List.not_mem_nil i)
    · rw [if_neg h0]
      by_cases h1 : start > end_
      · rw [if_pos h1]
        intro i hi
        exact absurd hi (List.not_mem_nil i)
      · rw [if_neg h1]
        have hle : rb.head + rb.size ≤ rb.cap := by
          rcases hin with h | h | h
          · exact absurd h h0
          · exact absurd h h1
          · exact h
        have hlast : (rb.head + rb.size - 1) % 2 ^ 32 < rb.cap :=
          lt_of_le_of_lt (Nat.mod_le _ _) (by omega)
        have hfirst : rb.head < rb.cap := by omega
        split
        · intro i hi
          rw [List.mem_singleton] at hi
          rw [hi]
          exact hlast
        · intro i hi
          rw [List.mem_cons, List.mem_singleton] at hi
          rcases hi with hi | hi
          · rw [hi]
            exact hlast
          · rw [hi]
            exact hfirst
  · unfold ringBuffer_search_msgs_fuzz
    split
    · rfl
    · split
      · rfl
      · rfl

/-- C2, counterexample: on an empty buffer of one slot whose pre-dequeue rule list holds a
rule that matches and whose action fails, one enqueue succeeds without overflow and the
following `ringBuffer_dequeue` returns `-1` and no message. -/
theorem fifo_fails_when_dequeue_rule_rejects :
    exRejectDeq.size = 0 ∧ [exArgs 1 101].length ≤ exRejectDeq.cap ∧
    ∃ rb1, enqueueAll exRejectDeq [exArgs 1 101] = some rb1 ∧
      live rb1.toringBuffer_s = [⟨1, 101, 0⟩] ∧
      (ringBuffer_dequeue rb1).map (fun o => (o.ret, o.data)) = some (-1, none) ∧
      dequeueAll rb1 1 = none :=
  ⟨rfl, by decide, _, rfl, rfl, rfl, rfl⟩

/-- C2, amended: for every empty buffer (`size = 0`, `tail = head`, any `head < cap`) and
every `n ≤ cap`, when `n` enqueue calls all return `0` (none overflows, the buffer
being empty at the start) and the pre-dequeue rule check passes at each of the following
`n` dequeue calls, these calls all return `0` and hand back the `n` enqueued messages in
enqueue order. -/
theorem fifo_order (rb : ringBuffer_t) (hcap : 0 < rb.cap) (hhead : rb.head < rb.cap)
    (hsize : rb.size = 0) (htail : rb.tail = rb.head) (items : List EnqArgs)
    (hn : items.length ≤ rb.cap) (rb1 : ringBuffer_t)
    (henq : enqueueAll rb items = some rb1)
    (hdeq : deqRulesPass rb1 items.length = true) :
    ∃ rb2, dequeueAll rb1 items.length = some (items.map (fun a => a.data), rb2) := by
  have hinv : ringInv rb.toringBuffer_s :=
    ⟨hcap, hhead, by omega, by rw [hsize, Nat.add_zero, Nat.mod_eq_of_lt hhead]; exact htail⟩
  obtain ⟨hl, hi, _⟩ := enqueueAll_live items rb rb1 hinv (by omega) henq
  have hlive0 : live rb.toringBuffer_s = [] := by
    unfold live; rw [hsize]; rfl
  rw [hlive0, List.nil_append] at hl
  have hsz : rb1.size = items.length := by
    rw [← live_length, hl, List.length_map]
  obtain ⟨rb2, h2⟩ := dequeueAll_live items.length rb1 hi (by omega) hdeq
  refine ⟨rb2, ?_⟩
  rw [h2, hl]
  congr 2
  rw [show items.length = (items.map EnqArgs.slot).length by simp, List.take_length,
    List.map_map]
  rfl

/-- C2, witness: three messages enqueued at `head = tail = 2` of a buffer of three slots
(the writes wrap to slots 0 and 1) come back as 101, 102, 103. -/
theorem fifo_order_witness :
    ∃ rb1, enqueueAll exEmptyAt2 [exArgs 1 101, exArgs 2 102, exArgs 3 103] = some rb1 ∧
      rb1.tail = 2 ∧ rb1.size = 3 ∧
      ∃ rb2, dequeueAll rb1 3 = some ([101, 102, 103], rb2) :=
  ⟨_, rfl, rfl, rfl,
    fifo_order exEmptyAt2 (by decide) (by decide) rfl rfl
      [exArgs 1 101, exArgs 2 102, exArgs 3 103] (by decide) _ rfl rfl⟩

/-- C4: on a buffer with policy `RB_FULL_DROP`, `cap ≥ 1` and `size = cap` (and `head` a
slot index), `ringBuffer_enqueue` with passing pre-enqueue rules returns `0`;
`ringBuffer_clean_msgs` has passed every non-null message of the live window to
`nng_msg_free`, in window order, and cleared the data pointer of every slot; the buffer
is left with `size = 1`, `head = 0`, and its only live slot, slot 0, holds the new key
and message. -/
theorem drop_overflow (rb : ringBuffer_t) (hcap : 1 ≤ rb.cap) (hhead : rb.head < rb.cap)
    (hfull : rb.size = rb.cap) (hop : rb.fullOp = fullOption.RB_FULL_DROP)
    (key : Nat) (data : Ptr) (expiredAt : Nat) (aio : nng_aio) (al : Alloc)
    (hrule : ringBuffer_rule_check rb data ENQUEUE_IN_HOOK = 0) :
    ∃ m o,
      ringBuffer_clean_msgs rb true =
        some ({ rb with msgs := m, head := 0, tail := 0, size := 0 }, o.freed) ∧
      (∀ i, i < rb.cap → (m i).data = NULL) ∧
      o.freed = ((live rb.toringBuffer_s).map fun s => s.data).filter (fun d => d ≠ NULL) ∧
      ringBuffer_enqueue rb key data expiredAt aio al = some o ∧
      o.ret = 0 ∧ o.rb.size = 1 ∧ o.rb.head = 0 ∧
      o.rb.msgs = setSlot m 0 ⟨key, data, expiredAt⟩ ∧
      live o.rb.toringBuffer_s = [⟨key, data, expiredAt⟩] := by
  have hcap0 : 0 < rb.cap := hcap
  obtain ⟨r, hr⟩ := clean_loop_some rb.cap hcap0 true rb.size rb.head rb.msgs []
  obtain ⟨m, fr⟩ := r
  have hclean : ringBuffer_clean_msgs rb true =
      some ({ rb with msgs := m, head := 0, tail := 0, size := 0 }, fr) := by
    unfold ringBuffer_clean_msgs
    rw [hr]
    rfl
  have hnull : ∀ i, i < rb.cap → (m i).data = NULL := by
    intro i hi
    obtain ⟨k, hk, hki⟩ := exists_offset rb.cap rb.head i hhead hi
    have := clean_loop_null rb.cap hcap0 true rb.size rb.head rb.msgs m [] fr hhead hr k
      (by omega)
    rwa [hki] at this
  have hfreed := clean_loop_freed rb.cap hcap0 rb.size rb.head rb.msgs m [] fr hhead
    (by omega) hr
  rw [List.nil_append] at hfreed
  refine ⟨m, ⟨0, { rb with
      msgs := setSlot m 0 ⟨key, data, expiredAt⟩, head := 0, tail := (0 + 1) % rb.cap,
      size := 0 + 1 }, aio, fr, none⟩, hclean, hnull, hfreed, ?_, rfl, rfl, rfl, rfl, ?_⟩
  · unfold ringBuffer_enqueue
    rw [if_neg (by rw [hrule]; exact fun h => h rfl), if_pos hfull]
    unfold ringBuffer_enqueue.full
    rw [hop]
    simp only [cleanAndReturn, hclean, Option.map_some']
    rw [if_neg (by simp), insert_spec _ hcap0]
    simp only [hop]
  · show window (setSlot m 0 ⟨key, data, expiredAt⟩) rb.cap 1 0 = _
    simp [window, setSlot, Nat.zero_mod]

/-- C4, witness: a full buffer of three slots with `head = 1` holding 101, 102, 103. -/
theorem drop_overflow_witness :
    ∃ m o,
      ringBuffer_clean_msgs (exFullAt1 fullOption.RB_FULL_DROP) true =
        some ({ exFullAt1 fullOption.RB_FULL_DROP with
          msgs := m, head := 0, tail := 0, size := 0 }, o.freed) ∧
      (∀ i, i < 3 → (m i).data = NULL) ∧
      o.freed = [101, 102, 103] ∧
      ringBuffer_enqueue (exFullAt1 fullOption.RB_FULL_DROP) 4 104 0 exAio Alloc.ok = some o ∧
      o.ret = 0 ∧ o.rb.size = 1 ∧ o.rb.head = 0 ∧
      o.rb.msgs = setSlot m 0 ⟨4, 104, 0⟩ ∧
      live o.rb.toringBuffer_s = [⟨4, 104, 0⟩] :=
  drop_overflow (exFullAt1 fullOption.RB_FULL_DROP) (by decide) (by decide) rfl rfl
    4 104 0 exAio Alloc.ok rfl

/-- C5, witness: a full buffer of three slots with policy `RB_FULL_NONE`. -/
theorem enqueue_full_none_unchanged_witness :
    ringBuffer_enqueue (exFullAt1 fullOption.RB_FULL_NONE) 4 104 0 exAio Alloc.ok =
      some ⟨-1, exFullAt1 fullOption.RB_FULL_NONE, exAio, [], none⟩ :=
  enqueue_full_none_unchanged (exFullAt1 fullOption.RB_FULL_NONE) rfl rfl 4 104 0 exAio
    Alloc.ok

/-- C9, witness: a full buffer with `head = 1` and keys 1, 2, 3; the range `[1, 3]` covers
every buffered key and the search fails. -/
theorem search_msgs_fuzz_fails_when_head_nonzero_witness :
    exTwoAt1.head ≠ 0 ∧
    (live exTwoAt1.toringBuffer_s).map (fun s => s.key) = [2, 3] ∧
    (∀ i ∈ ringBuffer_search_msgs_fuzz.rangeReads exTwoAt1 2 3, i < exTwoAt1.cap) ∧
      ringBuffer_search_msgs_fuzz exTwoAt1 2 3 Alloc.ok = some ⟨-1, none, []⟩ :=
  ⟨by decide, rfl,
    search_msgs_fuzz_fails_when_head_nonzero exTwoAt1 (by decide) 2 3 Alloc.ok
      (Or.inr (Or.inr (by decide)))⟩

theorem filter_range_interval (n s e : Nat) (p : Nat → Bool) (hse : s ≤ e) (hen : e < n)
    (hp : ∀ i, i < n → (p i = true ↔ s ≤ i ∧ i ≤ e)) :
    (List.range n).filter p = List.range' s (e + 1 - s) := by
  have h1 : List.range n =
      List.range' 0 s ++ (List.range' s (e + 1 - s) ++ List.range' (e + 1) (n - (e + 1))) := by
    rw [List.range_eq_range']
    have e2 : List.range' s (e + 1 - s) ++ List.range' (e + 1) (n - (e + 1)) =
        List.range' s (n - s) := by
      have := List.range'_append_1 s (e + 1 - s) (n - (e + 1))
      rw [show s + (e + 1 - s) = e + 1 by omega, show n - (e + 1) + (e + 1 - s) = n - s by omega]
        at this
      exact this
    rw [e2]
    have := List.range'_append_1 0 s (n - s)
    rw [Nat.zero_add, show n - s + s = n by omega] at this
    exact this.symm
  rw [h1, List.filter_append, List.filter_append]
  have ha : List.filter p (List.range' 0 s) = [] := by
    rw [List.filter_eq_nil_iff]
    intro a ha
    rw [List.mem_range'_1] at ha
    rw [hp a (by omega)]
    omega
  have hb : List.filter p (List.range' s (e + 1 - s)) = List.range' s (e + 1 - s) := by
    rw [List.filter_eq_self]
    intro a ha
    rw [List.mem_range'_1] at ha
    rw [hp a (by omega)]
    omega
  have hc : List.filter p (List.range' (e + 1) (n - (e + 1))) = [] := by
    rw [List.filter_eq_nil_iff]
    intro a ha
    rw [List.mem_range'_1] at ha
    rw [hp a (by omega)]
    omega
  rw [ha, hb, hc, List.nil_append, List.append_nil]

theorem fuzz_first_spec (rb : ringBuffer_t) (start : Nat) :
    ∀ (fuel low high : Nat), low ≤ high → high < 2 ^ 31 → high < fuel + low →
      (∀ i, i < low → (rb.msgs i).key < start) →
      (∃ i, low ≤ i ∧ i ≤ high ∧ start ≤ (rb.msgs i).key) →
      (∀ i j, i ≤ j → j ≤ high → (rb.msgs i).key ≤ (rb.msgs j).key) →
      ∃ s, ringBuffer_search_msgs_fuzz.first rb start fuel low high = some s ∧
        low ≤ s ∧ s ≤ high ∧ start ≤ (rb.msgs s).key ∧ ∀ i, i < s → (rb.msgs i).key < start := by
  intro fuel
  induction fuel with
  | zero => intro low high h1 _ h3; omega
  | succ fuel ih =>
    intro low high hle hhi hfuel hlow hex hsorted
    unfold ringBuffer_search_msgs_fuzz.first
    by_cases hlt : low < high
    · rw [if_pos hlt]
      have hmid : (low + high) % 2 ^ 32 / 2 = (low + high) / 2 := by
        rw [Nat.mod_eq_of_lt (by omega)]
      rw [hmid]
      have hm1 : low ≤ (low + high) / 2 := by omega
      have hm2 : (low + high) / 2 < high := by omega
      by_cases hk : (rb.msgs ((low + high) / 2)).key < start
      · rw [if_pos hk, Nat.mod_eq_of_lt (by omega)]
        obtain ⟨i0, hi1, hi2, hi3⟩ := hex
        have hi0 : (low + high) / 2 < i0 := by
          by_contra hc
          have := hsorted i0 ((low + high) / 2) (by omega) (by omega)
          omega
        obtain ⟨s, hs, hs1, hs2, hs3, hs4⟩ := ih ((low + high) / 2 + 1) high (by omega) hhi
          (by omega)
          (fun i hi => lt_of_le_of_lt (hsorted i ((low + high) / 2) (by omega) (by omega)) hk)
          ⟨i0, by omega, hi2, hi3⟩ hsorted
        exact ⟨s, hs, by omega, hs2, hs3, hs4⟩
      · rw [if_neg hk]
        obtain ⟨s, hs, hs1, hs2, hs3, hs4⟩ := ih low ((low + high) / 2) hm1 (by omega)
          (by omega) hlow ⟨(low + high) / 2, hm1, le_refl _, by omega⟩
          (fun i j hij hj => hsorted i j hij (by omega))
        exact ⟨s, hs, hs1, by omega, hs3, hs4⟩
    · rw [if_neg hlt]
      obtain ⟨i0, hi1, hi2, hi3⟩ := hex
      have : i0 = high := by omega
      subst this
      exact ⟨i0, rfl, hle, le_refl _, hi3, fun i hi => hlow i (by omega)⟩

theorem fuzz_second_spec (rb : ringBuffer_t) (end_ : Nat) (n : Nat) :
    ∀ (fuel low high : Nat), low ≤ high → high < 2 ^ 31 → high < n → high < fuel + low →
      (∀ i, high < i → i < n → end_ < (rb.msgs i).key) →
      (∃ i, low ≤ i ∧ i ≤ high ∧ (rb.msgs i).key ≤ end_) →
      (∀ i j, i ≤ j → j < n → (rb.msgs i).key ≤ (rb.msgs j).key) →
      ∃ e, ringBuffer_search_msgs_fuzz.second rb end_ fuel low high = some e ∧
        low ≤ e ∧ e ≤ high ∧ (rb.msgs e).key ≤ end_ ∧
        ∀ i, e < i → i < n → end_ < (rb.msgs i).key := by
  intro fuel
  induction fuel with
  | zero => intro low high h1 _ _ h3; omega
  | succ fuel ih =>
    intro low high hle hhi hn hfuel hhigh hex hsorted
    unfold ringBuffer_search_msgs_fuzz.second
    by_cases hlt : low < high
    · rw [if_pos hlt]
      have hmid : (low + high + 1) % 2 ^ 32 / 2 = (low + high + 1) / 2 := by
        rw [Nat.mod_eq_of_lt (by omega)]
      rw [hmid]
      have hm1 : low < (low + high + 1) / 2 := by omega
      have hm2 : (low + high + 1) / 2 ≤ high := by omega
      by_cases hk : (rb.msgs ((low + high + 1) / 2)).key ≤ end_
      · rw [if_pos hk]
        obtain ⟨e, he, he1, he2, he3, he4⟩ := ih ((low + high + 1) / 2) high hm2 hhi hn
          (by omega) hhigh ⟨(low + high + 1) / 2, le_refl _, hm2, hk⟩ hsorted
        exact ⟨e, he, by omega, he2, he3, he4⟩
      · rw [if_neg hk]
        have hw : ((low + high + 1) / 2 + 2 ^ 32 - 1) % 2 ^ 32 = (low + high + 1) / 2 - 1 := by
          omega
        rw [hw]
        obtain ⟨i0, hi1, hi2, hi3⟩ := hex
        have hi0 : i0 < (low + high + 1) / 2 := by
          by_contra hc
          have := hsorted ((low + high + 1) / 2) i0 (by omega) (by omega)
          omega
        obtain ⟨e, he, he1, he2, he3, he4⟩ := ih low ((low + high + 1) / 2 - 1) (by omega)
          (by omega) (by omega) (by omega)
          (fun i hi hin => by
            have := hsorted ((low + high + 1) / 2) i (by omega) hin
            omega)
          ⟨i0, hi1, by omega, hi3⟩ hsorted
        exact ⟨e, he, he1, by omega, he3, he4⟩
    · rw [if_neg hlt]
      obtain ⟨i0, hi1, hi2, hi3⟩ := hex
      have : i0 = low := by omega
      subst this
      exact ⟨i0, rfl, le_refl _, hle, hi3, fun i hi hin => hhigh i (by omega) hin⟩

theorem fuzz_copy_spec (rb : ringBuffer_t) (e : Nat) (he : e < 2 ^ 31) :
    ∀ (fuel i : Nat) (acc : List Ptr), i ≤ e + 1 → e + 2 ≤ fuel + i →
      (∀ j, i ≤ j → j ≤ e → (rb.msgs j).data ≠ NULL) →
      ringBuffer_search_msgs_fuzz.copy rb e fuel i acc =
        some (0, acc ++ (List.range' i (e + 1 - i)).map fun j => (rb.msgs j).data) := by
  intro fuel
  induction fuel with
  | zero => intro i acc h1 h2; omega
  | succ fuel ih =>
    intro i acc hi hfuel hnn
    unfold ringBuffer_search_msgs_fuzz.copy
    by_cases hle : i ≤ e
    · rw [if_pos hle, if_neg (hnn i (le_refl _) hle), Nat.mod_eq_of_lt (by omega),
        ih (i + 1) _ (by omega) (by omega) (fun j hj1 hj2 => hnn j (by omega) hj2)]
      rw [show e + 1 - i = (e + 1 - (i + 1)) + 1 by omega, List.range'_succ]
      simp
    · rw [if_neg hle, show e + 1 - i = 0 by omega]
      simp

/-- C8, amended: for every buffer with `head = 0`, `1 ≤ size ≤ 2 ^ 31`, keys
non-decreasing over slots `0 .. size - 1`, every `start ≤ end` with at least one buffered
key in `[start, end]`, when every buffered slot with a key in `[start, end]` holds a
non-null message and the result list can be allocated, `ringBuffer_search_msgs_fuzz`
returns `0`, sets `count` to the number of buffered slots whose key lies in
`[start, end]` and returns exactly those slots' messages in slot order. -/
theorem search_msgs_fuzz_correct (rb : ringBuffer_t) (hhead : rb.head = 0)
    (hsize : 1 ≤ rb.size) (hbound : rb.size ≤ 2 ^ 31)
    (hsorted : ∀ i j, i ≤ j → j < rb.size → (rb.msgs i).key ≤ (rb.msgs j).key)
    (start end_ : Nat) (hse : start ≤ end_)
    (hex : ∃ i, i < rb.size ∧ start ≤ (rb.msgs i).key ∧ (rb.msgs i).key ≤ end_)
    (hdata : ∀ i, i < rb.size → start ≤ (rb.msgs i).key → (rb.msgs i).key ≤ end_ →
      (rb.msgs i).data ≠ NULL)
    (al : Alloc) (hal : al.newList = true) :
    ringBuffer_search_msgs_fuzz rb start end_ al =
      some ⟨0,
        some ((List.range rb.size).filter fun i =>
          decide (start ≤ (rb.msgs i).key ∧ (rb.msgs i).key ≤ end_)).length,
        ((List.range rb.size).filter fun i =>
          decide (start ≤ (rb.msgs i).key ∧ (rb.msgs i).key ≤ end_)).map
            fun i => (rb.msgs i).data⟩ := by
  obtain ⟨i0, hi0, hk1, hk2⟩ := hex
  have hlast : (rb.head + rb.size - 1) % 2 ^ 32 = rb.size - 1 := by
    rw [hhead, Nat.zero_add, Nat.mod_eq_of_lt (by omega)]
  obtain ⟨s, hs, _, hs2, hs3, hs4⟩ := fuzz_first_spec rb start (rb.size + 1) 0 (rb.size - 1)
    (Nat.zero_le _) (by omega) (by omega) (fun i hi => absurd hi (Nat.not_lt_zero _))
    ⟨i0, Nat.zero_le _, by omega, hk1⟩ (fun i j hij hj => hsorted i j hij (by omega))
  obtain ⟨e, he, _, he2, he3, he4⟩ := fuzz_second_spec rb end_ rb.size (rb.size + 1) 0
    (rb.size - 1) (Nat.zero_le _) (by omega) (by omega) (by omega)
    (fun i hi hin => by omega) ⟨i0, Nat.zero_le _, by omega, hk2⟩ hsorted
  have hsi : s ≤ i0 := by
    by_contra hc
    have := hs4 i0 (by omega)
    omega
  have hie : i0 ≤ e := by
    by_contra hc
    have := he4 i0 (by omega) hi0
    omega
  have hcount : (e + 2 ^ 32 - s + 1) % 2 ^ 32 = e + 1 - s := by omega
  have hfilter := filter_range_interval rb.size s e
    (fun i => decide (start ≤ (rb.msgs i).key ∧ (rb.msgs i).key ≤ end_)) (by omega) (by omega)
    (fun i hi => by
      rw [decide_eq_true_iff]
      constructor
      · intro ⟨h1, h2⟩
        constructor
        · by_contra hc
          have := hs4 i (by omega)
          omega
        · by_contra hc
          have := he4 i (by omega) hi
          omega
      · intro ⟨h1, h2⟩
        exact ⟨le_trans hs3 (hsorted s i h1 hi), le_trans (hsorted i e h2 (by omega)) he3⟩)
  have hcopy := fuzz_copy_spec rb e (by omega) (rb.size + 2) s [] (by omega) (by omega)
    (fun j hj1 hj2 => hdata j (by omega) (le_trans hs3 (hsorted s j hj1 (by omega)))
      (le_trans (hsorted j e hj2 (by omega)) he3))
  unfold ringBuffer_search_msgs_fuzz
  rw [if_neg (by omega), hlast, hhead]
  have hk0 : (rb.msgs 0).key ≤ end_ := le_trans (hsorted 0 i0 (Nat.zero_le _) hi0) hk2
  have hkl : start ≤ (rb.msgs (rb.size - 1)).key :=
    le_trans hk1 (hsorted i0 (rb.size - 1) (by omega) (by omega))
  rw [if_neg (by omega), if_neg (fun h => h rfl)]
  simp only [hs, he]
  rw [if_neg (by omega), if_neg (by omega)]
  simp only [hcount]
  have halloc : nng_alloc al al.newList ((e + 1 - s) * 8) = true := by
    unfold nng_alloc
    rw [if_neg (by omega), hal]
  rw [if_neg (by rw [halloc]; decide)]
  simp only [hcopy, hfilter, List.nil_append, List.length_range']

/-- C8, witness: keys 10, 20, 30, 40, 50 with range `[15, 45]` give the three messages
keyed 20, 30, 40. -/
theorem search_msgs_fuzz_correct_witness :
    ringBuffer_search_msgs_fuzz exKeys5 15 45 Alloc.ok = some ⟨0, some 3, [202, 203, 204]⟩ :=
  search_msgs_fuzz_correct exKeys5 rfl (by decide) (by decide)
    (fun i j hij _ => Nat.mul_le_mul_left 10 (Nat.succ_le_succ hij)) 15 45 (by decide)
    ⟨1, by decide⟩ (fun i _ _ _ => by show 201 + i ≠ 0; omega) Alloc.ok rfl

theorem fuzz_second_endless :
    ∀ fuel : Nat, ringBuffer_search_msgs_fuzz.second exHuge (2 ^ 31) fuel 0 (2 ^ 31) = none := by
  intro fuel
  induction fuel using Nat.strong_induction_on with
  | _ fuel ih =>
    by_cases h : fuel < 32
    · interval_cases fuel <;> rfl
    · obtain ⟨f, rfl⟩ : ∃ f, fuel = f + 32 := ⟨fuel - 32, by omega⟩
      have hc : ringBuffer_search_msgs_fuzz.second exHuge (2 ^ 31) (f + 32) 0 (2 ^ 31) =
          ringBuffer_search_msgs_fuzz.second exHuge (2 ^ 31) f 0 (2 ^ 31) := rfl
      rw [hc]
      exact ih f (by omega)

theorem fuzz_huge_undefined :
    ringBuffer_search_msgs_fuzz exHuge 0 (2 ^ 31) Alloc.ok = none := by
  have h1 : ringBuffer_search_msgs_fuzz.first exHuge 0 (exHuge.size + 1) exHuge.head
      ((exHuge.head + exHuge.size - 1) % 2 ^ 32) = some 0 := rfl
  have h2 : ringBuffer_search_msgs_fuzz.second exHuge (2 ^ 31) (exHuge.size + 1) exHuge.head
      ((exHuge.head + exHuge.size - 1) % 2 ^ 32) = none := fuzz_second_endless _
  unfold ringBuffer_search_msgs_fuzz
  rw [if_neg (by decide), if_neg (by decide), if_neg (by decide)]
  simp only [h1, h2]
  rfl

/-- C8, counterexample: five enqueues with keys 10, 20, 30, 40, 50, the third with a null
data pointer, give a buffer with `head = 0` and non-decreasing keys on which the search
for `[15, 45]` returns `-1` (at the test `msg == NULL`); on the buffer whose five slots
all hold messages the same search returns `-1` when the result list cannot be
allocated; and on a buffer of `2 ^ 31 + 1` messages with keys `0, 1, ..., 2 ^ 31` the
search for `[0, 2 ^ 31]` has no result, the 32-bit sum `low + high + 1` of the second
binary search wrapping to `0` every 32 rounds. -/
theorem search_msgs_fuzz_fails_on_null_message :
    (∃ rb, (ringBuffer_init 0xffffffff 5 fullOption.RB_FULL_NONE 0 exMem Alloc.ok).bind
        (fun rb0 => runOps rb0
          [exEnq 10 201, exEnq 20 202, exEnq 30 NULL, exEnq 40 204, exEnq 50 205]) = some rb ∧
      rb.head = 0 ∧ rb.size = 5 ∧
      (live rb.toringBuffer_s).map (fun s => s.key) = [10, 20, 30, 40, 50] ∧
      (live rb.toringBuffer_s).map (fun s => s.data) = [201, 202, NULL, 204, 205] ∧
      ringBuffer_search_msgs_fuzz rb 15 45 Alloc.ok = some ⟨-1, some 3, []⟩) ∧
    ringBuffer_search_msgs_fuzz exKeys5 15 45 exAllocNoList = some ⟨-1, some 3, []⟩ ∧
    (exHuge.head = 0 ∧ 1 ≤ exHuge.size ∧
      (∀ i j, i ≤ j → j < exHuge.size → (exHuge.msgs i).key ≤ (exHuge.msgs j).key) ∧
      (∀ i, i < exHuge.size → (exHuge.msgs i).data ≠ NULL) ∧
      ringBuffer_search_msgs_fuzz exHuge 0 (2 ^ 31) Alloc.ok = none) :=
  ⟨⟨_, rfl, rfl, rfl, rfl, rfl, rfl⟩, rfl,
    rfl, by decide, fun _ _ h _ => h, fun _ _ => Nat.one_ne_zero, fuzz_huge_undefined⟩

/-- When the allocator answers a request of zero bytes with `NULL`, `ringBuffer_init`
fails for `cap = 0`: every buffer it creates has at least one slot. -/
theorem init_cap_pos (MAX cap : Nat) (fullOp : fullOption) (expiredAt : Nat)
    (mem : Nat → ringBufferMsg_t) (al : Alloc) (rb : ringBuffer_t)
    (h : ringBuffer_init MAX cap fullOp expiredAt mem al = some rb) (hz : al.zero = false) :
    0 < cap := by
  by_contra hc
  have h0 : cap = 0 := by omega
  subst h0
  unfold ringBuffer_init nng_alloc at h
  simp [hz] at h

/-- On a buffer that `ringBuffer_init` created with `cap ≥ 1`, every sequence of enqueue
and dequeue calls has a defined result, and after it `size ≤ cap`,
`tail = (head + size) mod cap` and `head < cap` hold. -/
theorem init_runOps_invariants (MAX cap : Nat) (fullOp : fullOption) (expiredAt : Nat)
    (mem : Nat → ringBufferMsg_t) (al : Alloc) (rb : ringBuffer_t)
    (h : ringBuffer_init MAX cap fullOp expiredAt mem al = some rb) (hcap : 0 < cap)
    (ops : List Op) :
    ∃ rb1, runOps rb ops = some rb1 ∧ rb1.size ≤ rb1.cap ∧
      rb1.tail = (rb1.head + rb1.size) % rb1.cap ∧ rb1.head < rb1.cap ∧ rb1.cap = cap := by
  obtain ⟨hw, _, hc, _⟩ := init_wf MAX cap fullOp expiredAt mem al rb h hcap
  obtain ⟨rb1, h1, hw1, hs1⟩ := runOps_wf ops rb hw
  exact ⟨rb1, h1, hw1.1.2.2.1, hw1.1.2.2.2, hw1.1.2.1, hs1.1.trans hc⟩

/-- Claim C1: on every ring buffer that `ringBuffer_init` creates, for any capacity and
any policy that it accepts (the allocator answers a request of zero bytes with `NULL`, as
`nng_alloc` does), and for every sequence of `ringBuffer_enqueue` and
`ringBuffer_dequeue` calls with any arguments and allocation outcomes, each call of the
sequence has a defined result and `0 ≤ size ≤ cap` holds after it: `ops.take k` is the
sequence up to its call number `k`. -/
theorem size_le_cap_after_every_call (MAX cap : Nat) (fullOp : fullOption)
    (expiredAt : Nat) (mem : Nat → ringBufferMsg_t) (al : Alloc) (rb : ringBuffer_t)
    (h : ringBuffer_init MAX cap fullOp expiredAt mem al = some rb) (hz : al.zero = false)
    (ops : List Op) (k : Nat) :
    ∃ rb1, runOps rb (ops.take k) = some rb1 ∧ 0 ≤ rb1.size ∧ rb1.size ≤ rb1.cap := by
  obtain ⟨rb1, h1, h2, _⟩ := init_runOps_invariants MAX cap fullOp expiredAt mem al rb h
    (init_cap_pos MAX cap fullOp expiredAt mem al rb h hz) (ops.take k)
  exact ⟨rb1, h1, Nat.zero_le _, h2⟩

theorem size_le_cap_after_every_call_witness :
    ringBuffer_init 0xffffffff 2 fullOption.RB_FULL_DROP 0 exMem Alloc.ok =
      some (exEmptyRb 2 fullOption.RB_FULL_DROP) ∧
    ∃ rb1, runOps (exEmptyRb 2 fullOption.RB_FULL_DROP)
        ([exEnq 1 101, exEnq 2 102, exEnq 3 103, Op.dequeue, Op.dequeue].take 3) = some rb1 ∧
      0 ≤ rb1.size ∧ rb1.size ≤ rb1.cap :=
  ⟨rfl, size_le_cap_after_every_call 0xffffffff 2 fullOption.RB_FULL_DROP 0 exMem Alloc.ok
    (exEmptyRb 2 fullOption.RB_FULL_DROP) rfl rfl
    [exEnq 1 101, exEnq 2 102, exEnq 3 103, Op.dequeue, Op.dequeue] 3⟩

/-- Claim C6: on every ring buffer that `ringBuffer_init` creates (the allocator answers a
request of zero bytes with `NULL`, as `nng_alloc` does), and for every sequence of
`ringBuffer_enqueue` and `ringBuffer_dequeue` calls with any arguments and allocation
outcomes (calls that overflow under any of the four policies and calls that fail
included), each call of the sequence has a defined result and after it `cap` is not
zero and `tail = (head + size) mod cap`: `ops.take k` is the sequence up to its call
number `k`. -/
theorem tail_formula_after_every_call (MAX cap : Nat) (fullOp : fullOption)
    (expiredAt : Nat) (mem : Nat → ringBufferMsg_t) (al : Alloc) (rb : ringBuffer_t)
    (h : ringBuffer_init MAX cap fullOp expiredAt mem al = some rb) (hz : al.zero = false)
    (ops : List Op) (k : Nat) :
    ∃ rb1, runOps rb (ops.take k) = some rb1 ∧ 0 < rb1.cap ∧
      rb1.tail = (rb1.head + rb1.size) % rb1.cap := by
  obtain ⟨rb1, h1, _, h3, h4, _⟩ := init_runOps_invariants MAX cap fullOp expiredAt mem al rb
    h (init_cap_pos MAX cap fullOp expiredAt mem al rb h hz) (ops.take k)
  exact ⟨rb1, h1, by omega, h3⟩

theorem tail_formula_after_every_call_witness :
    ringBuffer_init 0xffffffff 2 fullOption.RB_FULL_RETURN 0 exMem Alloc.ok =
      some (exEmptyRb 2 fullOption.RB_FULL_RETURN) ∧
    ∃ rb1, runOps (exEmptyRb 2 fullOption.RB_FULL_RETURN)
        ([exEnq 1 101, exEnq 2 102, Op.dequeue, exEnq 3 103, exEnq 4 104].take 5) = some rb1 ∧
      0 < rb1.cap ∧ rb1.tail = (rb1.head + rb1.size) % rb1.cap :=
  ⟨rfl, tail_formula_after_every_call 0xffffffff 2 fullOption.RB_FULL_RETURN 0 exMem Alloc.ok
    (exEmptyRb 2 fullOption.RB_FULL_RETURN) rfl rfl
    [exEnq 1 101, exEnq 2 102, Op.dequeue, exEnq 3 103, exEnq 4 104] 5⟩

theorem mem_window (msgs : Nat → ringBufferMsg_t) (cap : Nat) :
    ∀ (n i k : Nat), k < n → msgs ((i + k) % cap) ∈ window msgs cap n i := by
  intro n
  induction n with
  | zero => intro i k hk; omega
  | succ n ih =>
    intro i k hk
    cases k with
    | zero => simp [window]
    | succ k =>
      have := ih (i + 1) k (by omega)
      rw [show i + 1 + k = i + (k + 1) by omega] at this
      simp only [window, List.mem_cons]
      exact Or.inr this

theorem mem_live_of_index (rb : ringBuffer_s) (hsz : rb.size ≤ rb.cap) (j : Nat)
    (h1 : rb.head ≤ j) (h2 : j < rb.size) : rb.msgs j ∈ live rb := by
  have := mem_window rb.msgs rb.cap rb.size rb.head (j - rb.head) (by omega)
  rwa [show rb.head + (j - rb.head) = j by omega, Nat.mod_eq_of_lt (by omega)] at this

theorem search_msg_by_key_loop_absent (rb : ringBuffer_t) (hcap : 0 < rb.cap)
    (hsz : rb.size ≤ rb.cap) (key : Nat) :
    ∀ (fuel i : Nat), 0 < fuel → rb.size < fuel + i →
      (∀ j, i ≤ j → j < rb.size → (rb.msgs j).key ≠ key) →
      ringBuffer_search_msg_by_key.loop rb key fuel i = some ⟨-1, none, []⟩ := by
  intro fuel
  induction fuel with
  | zero =>
    intro i h0 h hk
    omega
  | succ fuel ih =>
    intro i _ hf hk
    unfold ringBuffer_search_msg_by_key.loop
    by_cases hi : i < rb.size
    · rw [if_pos hi, umod_pos _ hcap]
      simp only [Nat.mod_eq_of_lt (lt_of_lt_of_le hi hsz)]
      rw [if_neg (hk i (le_refl _) hi)]
      exact ih (i + 1) (by omega) (by omega) (fun j hj1 hj2 => hk j (by omega) hj2)
    · rw [if_neg hi]

/-- When no live slot holds the key, `ringBuffer_search_msg_by_key` returns `-1`. -/
theorem search_msg_by_key_absent (rb : ringBuffer_t) (hcap : 0 < rb.cap)
    (hsz : rb.size ≤ rb.cap) (key : Nat)
    (habs : ∀ s, s ∈ live rb.toringBuffer_s → s.key ≠ key) :
    ringBuffer_search_msg_by_key rb key = some ⟨-1, none, []⟩ := by
  unfold ringBuffer_search_msg_by_key
  exact search_msg_by_key_loop_absent rb hcap hsz key _ _ (by omega) (by omega)
    (fun j hj1 hj2 => habs _ (mem_live_of_index rb.toringBuffer_s hsz j hj1 hj2))

theorem search_msgs_by_key_loop_absent (rb : ringBuffer_t) (hcap : 0 < rb.cap)
    (hsz : rb.size ≤ rb.cap) (key count : Nat) :
    ∀ (fuel i : Nat), 0 < fuel → rb.size < fuel + i →
      (∀ j, i ≤ j → j < rb.size → (rb.msgs j).key ≠ key) →
      ringBuffer_search_msgs_by_key.loop rb key count fuel i = some ⟨-1, none, []⟩ := by
  intro fuel
  induction fuel with
  | zero =>
    intro i h0 h hk
    omega
  | succ fuel ih =>
    intro i _ hf hk
    unfold ringBuffer_search_msgs_by_key.loop
    by_cases hi : i < rb.size
    · rw [if_pos hi, umod_pos _ hcap]
      simp only [Nat.mod_eq_of_lt (lt_of_lt_of_le hi hsz)]
      rw [if_neg (hk i (le_refl _) hi)]
      exact ih (i + 1) (by omega) (by omega) (fun j hj1 hj2 => hk j (by omega) hj2)
    · rw [if_neg hi]

/-- The failing cases of `ringBuffer_search_msgs_by_key`: `count = 0`, `count > size`,
or no live slot holds the key. -/
theorem search_msgs_by_key_fails (rb : ringBuffer_t) (hcap : 0 < rb.cap)
    (hsz : rb.size ≤ rb.cap) (key count : Nat) (al : Alloc)
    (h : count = 0 ∨ count > rb.size ∨ ∀ s, s ∈ live rb.toringBuffer_s → s.key ≠ key) :
    ringBuffer_search_msgs_by_key rb key count al = some ⟨-1, none, []⟩ := by
  unfold ringBuffer_search_msgs_by_key
  split
  · rfl
  · split
    · rfl
    · split
      · rfl
      · rcases h with h | h | habs
        · omega
        · omega
        · exact search_msgs_by_key_loop_absent rb hcap hsz key count _ _ (by omega) (by omega)
            (fun j hj1 hj2 => habs _ (mem_live_of_index rb.toringBuffer_s hsz j hj1 hj2))

theorem window_eq_map_range (msgs : Nat → ringBufferMsg_t) (cap : Nat) :
    ∀ (n i : Nat), i + n ≤ cap → window msgs cap n i = (List.range' i n).map msgs := by
  intro n
  induction n with
  | zero => intro i _; rfl
  | succ n ih =>
    intro i h
    rw [window, ih (i + 1) (by omega), Nat.mod_eq_of_lt (by omega), List.range'_succ]
    rfl

theorem get_msgs_loop_collect (rb : ringBuffer_s) (hcap : 0 < rb.cap) (hsz : rb.size ≤ rb.cap)
    (count : Int) :
    ∀ (fuel i j : Nat) (acc : List Ptr), i < rb.size → rb.size - i ≤ fuel →
      count = ((j + (rb.size - i) : Nat) : Int) →
      ringBuffer_get_msgs.loop rb count fuel i j acc =
        some (0, acc ++ (List.range' i (rb.size - i)).map fun k => (rb.msgs k).data) := by
  intro fuel
  induction fuel with
  | zero => intro i j acc hi hf; omega
  | succ fuel ih =>
    intro i j acc hi hf hc
    unfold ringBuffer_get_msgs.loop
    rw [if_pos hi, umod_pos _ hcap]
    simp only [Nat.mod_eq_of_lt (lt_of_lt_of_le hi hsz)]
    by_cases hlast : ((j + 1 : Nat) : Int) = count
    · rw [if_pos hlast]
      have h1 : rb.size - i = 1 := by
        rw [hc] at hlast
        have := Int.ofNat_inj.mp hlast
        omega
      rw [h1]
      rfl
    · rw [if_neg hlast]
      have h2 : 2 ≤ rb.size - i := by
        by_contra hlt
        apply hlast
        rw [hc]
        congr 1
        omega
      rw [ih (i + 1) (j + 1) _ (by omega) (by omega) (by rw [hc]; congr 1; omega)]
      rw [show rb.size - i = (rb.size - (i + 1)) + 1 by omega, List.range'_succ]
      simp

theorem toInt32_of_lt (n : Nat) (h : n < 2 ^ 31) : toInt32 n = (n : Int) := by
  unfold toInt32
  rw [Nat.mod_eq_of_lt (by omega), if_pos h]

/-- With `head = 0` (and `cap < 2 ^ 31`, allocations succeeding) the `RB_FULL_RETURN`
overflow does what is intended: the completion receives the `cap` buffered messages,
oldest first, and the buffer holds only the new message. -/
theorem return_overflow_head_zero (rb : ringBuffer_t) (hhead : rb.head = 0)
    (hcap : 0 < rb.cap) (hcap31 : rb.cap < 2 ^ 31) (hfull : rb.size = rb.cap)
    (hop : rb.fullOp = fullOption.RB_FULL_RETURN)
    (key : Nat) (data : Ptr) (expiredAt : Nat) (aio : nng_aio) (al : Alloc)
    (hal : al.newList = true ∧ al.list_len = true ∧ al.tmsg = true)
    (hrule : ringBuffer_rule_check rb data ENQUEUE_IN_HOOK = 0) :
    ∃ o, ringBuffer_enqueue rb key data expiredAt aio al = some o ∧ o.ret = 0 ∧
      o.aio.prov_data = some ((live rb.toringBuffer_s).map fun s => s.data) ∧
      o.aio.msg = some (rb.cap : Int) ∧ o.rb.size = 1 ∧ o.rb.head = 0 ∧
      live o.rb.toringBuffer_s = [⟨key, data, expiredAt⟩] := by
  obtain ⟨h1, h2, h3⟩ := hal
  have hget : ringBuffer_get_msgs rb.toringBuffer_s (toInt32 rb.cap) al =
      some (0, (live rb.toringBuffer_s).map fun s => s.data) := by
    unfold ringBuffer_get_msgs
    rw [toInt32_of_lt _ hcap31]
    have hsize : ((rb.cap : Int) % 2 ^ 64).toNat * 8 % 2 ^ 64 ≠ 0 := by omega
    have halloc : nng_alloc al al.newList (((rb.cap : Int) % 2 ^ 64).toNat * 8 % 2 ^ 64) = true := by
      unfold nng_alloc
      rw [if_neg hsize, h1]
    rw [if_neg (by rw [halloc]; decide), hhead]
    rw [get_msgs_loop_collect rb.toringBuffer_s hcap (by omega) _ _ 0 0 [] (by omega) (by omega)
      (by rw [hfull]; simp)]
    unfold live
    rw [hhead, window_eq_map_range _ _ _ _ (by omega), List.nil_append, List.map_map,
      Nat.sub_zero]
    rfl
  obtain ⟨m, fr, hclean⟩ := clean_msgs_spec rb hcap false
  refine ⟨⟨0, { rb with
      msgs := setSlot m 0 ⟨key, data, expiredAt⟩, head := 0, tail := (0 + 1) % rb.cap,
      size := 0 + 1 },
    { msg := some (toInt32 rb.cap),
      prov_data := some ((live rb.toringBuffer_s).map fun s => s.data) }, [], none⟩,
    ?_, rfl, rfl, ?_, rfl, rfl, ?_⟩
  · unfold ringBuffer_enqueue
    rw [if_neg (by rw [hrule]; exact fun h => h rfl), if_pos hfull]
    unfold ringBuffer_enqueue.full
    rw [hop]
    simp only [put_msgs_to_aio, ringBuffer_get_and_clean_msgs]
    rw [if_neg (by omega), if_neg (by omega)]
    simp only [hget, hclean, ne_eq, not_true_eq_false, if_false, h2, h3,
      Bool.true_eq_false]
    rw [insert_spec _ hcap]
    simp only [hop]
  · show some (toInt32 rb.cap) = some (rb.cap : Int)
    rw [toInt32_of_lt _ hcap31]
  · show window (setSlot m 0 ⟨key, data, expiredAt⟩) rb.cap 1 0 = _
    simp [window, setSlot, Nat.zero_mod]

theorem search_msg_by_key_loop_found (rb : ringBuffer_t) (hcap : 0 < rb.cap)
    (hsz : rb.size ≤ rb.cap) (key j : Nat) (hj : j < rb.size) (hkey : (rb.msgs j).key = key) :
    ∀ (fuel i : Nat), 0 < fuel → rb.size < fuel + i → i ≤ j →
      (∀ t, i ≤ t → t < j → (rb.msgs t).key ≠ key) →
      ringBuffer_search_msg_by_key.loop rb key fuel i = some ⟨0, none, [(rb.msgs j).data]⟩ := by
  intro fuel
  induction fuel with
  | zero => intro i h0; omega
  | succ fuel ih =>
    intro i _ hf hij hk
    unfold ringBuffer_search_msg_by_key.loop
    have hi : i < rb.size := by omega
    rw [if_pos hi, umod_pos _ hcap]
    simp only [Nat.mod_eq_of_lt (lt_of_lt_of_le hi hsz)]
    by_cases he : i = j
    · subst he
      rw [if_pos hkey]
    · rw [if_neg (hk i (le_refl _) (by omega))]
      exact ih (i + 1) (by omega) (by omega) (by omega)
        (fun t ht1 ht2 => hk t (by omega) ht2)

/-- What `ringBuffer_search_msg_by_key` scans: the indices `head .. size - 1`; it returns
the message of the first of them that holds the key. -/
theorem search_msg_by_key_scan (rb : ringBuffer_t) (hcap : 0 < rb.cap)
    (hsz : rb.size ≤ rb.cap) (key j : Nat) (h1 : rb.head ≤ j) (h2 : j < rb.size)
    (hkey : (rb.msgs j).key = key)
    (hfirst : ∀ t, rb.head ≤ t → t < j → (rb.msgs t).key ≠ key) :
    ringBuffer_search_msg_by_key rb key = some ⟨0, none, [(rb.msgs j).data]⟩ := by
  unfold ringBuffer_search_msg_by_key
  exact search_msg_by_key_loop_found rb hcap hsz key j h2 hkey _ _ (by omega) (by omega) h1
    hfirst

theorem search_msgs_by_key_take (rb : ringBuffer_t) (hcap : 0 < rb.cap) :
    ∀ (n i : Nat) (acc : List Ptr), i < rb.cap →
      ringBuffer_search_msgs_by_key.take rb n i acc =
        some (acc ++ (window rb.msgs rb.cap n i).map fun s => s.data) := by
  intro n
  induction n with
  | zero => intro i acc _; simp [ringBuffer_search_msgs_by_key.take, window]
  | succ n ih =>
    intro i acc hi
    unfold ringBuffer_search_msgs_by_key.take
    rw [umod_pos _ hcap]
    simp only
    rw [ih _ _ (Nat.mod_lt _ hcap), window, Nat.mod_eq_of_lt hi,
      window_congr _ _ _ _ (i + 1) (Nat.mod_mod _ _)]
    simp

theorem search_msgs_by_key_loop_found (rb : ringBuffer_t) (hcap : 0 < rb.cap)
    (hsz : rb.size ≤ rb.cap) (key count j : Nat) (hj : j < rb.size)
    (hkey : (rb.msgs j).key = key) :
    ∀ (fuel i : Nat), 0 < fuel → rb.size < fuel + i → i ≤ j →
      (∀ t, i ≤ t → t < j → (rb.msgs t).key ≠ key) →
      ringBuffer_search_msgs_by_key.loop rb key count fuel i =
        some ⟨0, none, (window rb.msgs rb.cap count j).map fun s => s.data⟩ := by
  intro fuel
  induction fuel with
  | zero => intro i h0; omega
  | succ fuel ih =>
    intro i _ hf hij hk
    unfold ringBuffer_search_msgs_by_key.loop
    have hi : i < rb.size := by omega
    rw [if_pos hi, umod_pos _ hcap]
    simp only [Nat.mod_eq_of_lt (lt_of_lt_of_le hi hsz)]
    by_cases he : i = j
    · subst he
      rw [if_pos hkey, search_msgs_by_key_take rb hcap _ _ _ (lt_of_lt_of_le hi hsz)]
      rfl
    · rw [if_neg (hk i (le_refl _) (by omega))]
      exact ih (i + 1) (by omega) (by omega) (by omega)
        (fun t ht1 ht2 => hk t (by omega) ht2)

/-- What `ringBuffer_search_msgs_by_key` returns when one of the indices
`head .. size - 1` holds the key: the `count` slots from the first such index on,
wrapping at `cap`. -/
theorem search_msgs_by_key_scan (rb : ringBuffer_t) (hcap : 0 < rb.cap)
    (hsz : rb.size ≤ rb.cap) (key count j : Nat) (al : Alloc) (hc1 : 1 ≤ count)
    (hc2 : count ≤ rb.size) (hal : al.newList = true) (h1 : rb.head ≤ j) (h2 : j < rb.size)
    (hkey : (rb.msgs j).key = key)
    (hfirst : ∀ t, rb.head ≤ t → t < j → (rb.msgs t).key ≠ key) :
    ringBuffer_search_msgs_by_key rb key count al =
      some ⟨0, none, (window rb.msgs rb.cap count j).map fun s => s.data⟩ := by
  unfold ringBuffer_search_msgs_by_key
  have halloc : nng_alloc al al.newList (count * 8) = true := by
    unfold nng_alloc
    rw [if_neg (by omega), hal]
  rw [if_neg (by omega), if_neg (by omega), if_neg (by rw [halloc]; decide)]
  exact search_msgs_by_key_loop_found rb hcap hsz key count j h2 hkey _ _ (by omega) (by omega)
    h1 hfirst

/-- Claim C11: on a buffer with `head = 0` and `1 ≤ size` (`size` an `unsigned int`),
`ringBuffer_search_msgs_fuzz` returns `-1` with no list when `start > end`, when `end` is
smaller than the key of the first buffered slot, and when `start` is larger than the key
of the last buffered slot. -/
theorem search_msgs_fuzz_range_test (rb : ringBuffer_t) (start end_ : Nat) (al : Alloc)
    (hhead : rb.head = 0) (hsize : 1 ≤ rb.size) (hu32 : rb.size < 2 ^ 32)
    (h : start > end_ ∨ end_ < (rb.msgs 0).key ∨ start > (rb.msgs (rb.size - 1)).key) :
    ringBuffer_search_msgs_fuzz rb start end_ al = some ⟨-1, none, []⟩ := by
  unfold ringBuffer_search_msgs_fuzz
  rw [if_neg (by omega)]
  have e : (rb.head + rb.size - 1) % 2 ^ 32 = rb.size - 1 := by
    rw [hhead, Nat.zero_add]; exact Nat.mod_eq_of_lt (by omega)
  rw [e, hhead]
  rw [if_pos (by tauto)]

theorem search_msgs_fuzz_range_test_witness :
    ringBuffer_search_msgs_fuzz exKeys5 5 9 Alloc.ok = some ⟨-1, none, []⟩ ∧
    ringBuffer_search_msgs_fuzz exKeys5 60 70 Alloc.ok = some ⟨-1, none, []⟩ ∧
    ringBuffer_search_msgs_fuzz exKeys5 40 20 Alloc.ok = some ⟨-1, none, []⟩ :=
  ⟨search_msgs_fuzz_range_test exKeys5 5 9 Alloc.ok rfl (by decide) (by decide)
      (Or.inr (Or.inl (by decide))),
   search_msgs_fuzz_range_test exKeys5 60 70 Alloc.ok rfl (by decide) (by decide)
      (Or.inr (Or.inr (by decide))),
   search_msgs_fuzz_range_test exKeys5 40 20 Alloc.ok rfl (by decide) (by decide)
      (Or.inl (by decide))⟩

/-- Claim C12: `ringBuffer_dequeue` on a buffer with `size = 0` returns `-1` and the
buffer as it was; on a buffer with `1 ≤ size ≤ cap` whose pre-dequeue rules pass it
returns `0` and the message of slot `head`, sets `head` to `(head + 1) % cap` and `size`
to `size - 1`, and leaves `tail` and every slot as they were. -/
theorem dequeue_effect (rb : ringBuffer_t) :
    (rb.size = 0 → ringBuffer_dequeue rb = some ⟨-1, rb, none⟩) ∧
    (1 ≤ rb.size → rb.size ≤ rb.cap → ringBuffer_rule_check rb NULL DEQUEUE_IN_HOOK = 0 →
      ∃ o, ringBuffer_dequeue rb = some o ∧ o.ret = 0 ∧
        o.data = some (rb.msgs rb.head).data ∧
        o.rb.head = (rb.head + 1) % rb.cap ∧ o.rb.size = rb.size - 1 ∧
        o.rb.tail = rb.tail ∧ o.rb.msgs = rb.msgs) := by
  constructor
  · intro h0
    unfold ringBuffer_dequeue
    by_cases hr : ringBuffer_rule_check rb NULL DEQUEUE_IN_HOOK ≠ 0
    · rw [if_pos hr]
    · rw [if_neg hr, if_pos h0]
  · intro h1 h2 hr
    exact ⟨_, dequeue_nonempty rb (by omega) (by omega) hr, rfl, rfl, rfl, rfl, rfl, rfl⟩

theorem rule_check_values (rb : ringBuffer_s) (list : List ringBufferRule_t) (data : Ptr)
    (flag : Nat) :
    ringBufferRule_check rb list data flag = 0 ∨ ringBufferRule_check rb list data flag = -1 := by
  induction list with
  | nil => left; rfl
  | cons r rest ih =>
    unfold ringBufferRule_check
    split
    · exact ih
    · split
      · right; rfl
      · exact ih

theorem rule_check_fails_iff (rb : ringBuffer_s) (list : List ringBufferRule_t) (data : Ptr)
    (flag : Nat) :
    ringBufferRule_check rb list data flag ≠ 0 ↔
      ∃ r ∈ list, r.match_ rb data flag = 0 ∧ r.target rb data flag ≠ 0 := by
  induction list with
  | nil => simp [ringBufferRule_check]
  | cons r rest ih =>
    unfold ringBufferRule_check
    by_cases hm : r.match_ rb data flag ≠ 0
    · rw [if_pos hm, ih]
      constructor
      · rintro ⟨q, hq, h⟩; exact ⟨q, List.mem_cons_of_mem _ hq, h⟩
      · rintro ⟨q, hq, h⟩
        rcases List.mem_cons.1 hq with e | hq
        · subst e; exact absurd h.1 hm
        · exact ⟨q, hq, h⟩
    · rw [if_neg hm]
      by_cases ht : r.target rb data flag ≠ 0
      · rw [if_pos ht]
        exact ⟨fun _ => ⟨r, List.mem_cons_self _ _, not_not.1 hm, ht⟩, fun _ => by decide⟩
      · rw [if_neg ht, ih]
        constructor
        · rintro ⟨q, hq, h⟩; exact ⟨q, List.mem_cons_of_mem _ hq, h⟩
        · rintro ⟨q, hq, h⟩
          rcases List.mem_cons.1 hq with e | hq
          · subst e; exact absurd h.2 ht
          · exact ⟨q, hq, h⟩

theorem dequeue_effect_witness :
    ringBuffer_dequeue exEmptyAt2 = some ⟨-1, exEmptyAt2, none⟩ ∧
    ∃ o, ringBuffer_dequeue exKeys5 = some o ∧ o.ret = 0 ∧ o.data = some 201 ∧
      o.rb.head = 1 ∧ o.rb.size = 4 ∧ o.rb.tail = 0 ∧ o.rb.msgs = exKeys5.msgs :=
  ⟨(dequeue_effect exEmptyAt2).1 rfl,
   (dequeue_effect exKeys5).2 (by decide) (by decide) rfl⟩

/-- Claim C13: when a rule of the pre-enqueue list matches (its match returns `0`) and its
action fails, `ringBuffer_enqueue` returns `-1` and the buffer, the completion and the
outside world are as before the call, whatever the overflow policy and the fill level. -/
theorem enqueue_fails_on_pre_rule (rb : ringBuffer_t) (key : Nat) (data : Ptr)
    (expiredAt : Nat) (aio : nng_aio) (al : Alloc) (r : ringBufferRule_t)
    (hr : r ∈ rb.enqinRuleList)
    (hm : r.match_ rb.toringBuffer_s data ENQUEUE_IN_HOOK = 0)
    (ht : r.target rb.toringBuffer_s data ENQUEUE_IN_HOOK ≠ 0) :
    ringBuffer_enqueue rb key data expiredAt aio al = some ⟨-1, rb, aio, [], none⟩ := by
  unfold ringBuffer_enqueue
  have h : ringBufferRule_check rb.toringBuffer_s rb.enqinRuleList data ENQUEUE_IN_HOOK ≠ 0 :=
    (rule_check_fails_iff _ _ _ _).2 ⟨r, hr, hm, ht⟩
  rw [if_pos (by rw [rule_check_enqin, if_pos h]; decide)]

theorem enqueue_fails_on_pre_rule_witness :
    ringBuffer_enqueue (exRejectEnqFull fullOption.RB_FULL_DROP) 4 104 0 exAio Alloc.ok =
      some ⟨-1, exRejectEnqFull fullOption.RB_FULL_DROP, exAio, [], none⟩ :=
  enqueue_fails_on_pre_rule (exRejectEnqFull fullOption.RB_FULL_DROP) 4 104 0 exAio Alloc.ok
    exRejectRule (List.mem_singleton.2 rfl) rfl (by decide)

theorem clean_msgs_enqout (rb : ringBuffer_t) (l : List ringBufferRule_t) (needFree : Bool) :
    ringBuffer_clean_msgs { rb with enqoutRuleList := l } needFree =
      (ringBuffer_clean_msgs rb needFree).map
        fun r => ({ r.1 with enqoutRuleList := l }, r.2) := by
  unfold ringBuffer_clean_msgs
  cases ringBuffer_clean_msgs.loop rb.cap needFree rb.size rb.head rb.msgs [] <;> rfl

theorem cleanAndReturn_enqout (rb : ringBuffer_t) (l : List ringBufferRule_t)
    (needFree : Bool) (ret : Int) (aio : nng_aio) (p : Option parquet_object) :
    cleanAndReturn { rb with enqoutRuleList := l } needFree ret aio p =
      (cleanAndReturn rb needFree ret aio p).map
        fun o => { o with rb := { o.rb with enqoutRuleList := l } } := by
  unfold cleanAndReturn
  rw [clean_msgs_enqout]
  cases ringBuffer_clean_msgs rb needFree <;> rfl

theorem get_and_clean_enqout (rb : ringBuffer_t) (l : List ringBufferRule_t) (count : Nat)
    (al : Alloc) :
    ringBuffer_get_and_clean_msgs { rb with enqoutRuleList := l } count al =
      (ringBuffer_get_and_clean_msgs rb count al).map
        fun r => (r.1, { r.2.1 with enqoutRuleList := l }, r.2.2) := by
  unfold ringBuffer_get_and_clean_msgs
  by_cases h0 : count = 0
  · rw [if_pos h0, if_pos h0]; rfl
  rw [if_neg h0, if_neg h0]
  by_cases h1 : count > rb.size
  · rw [if_pos h1, if_pos h1]; rfl
  rw [if_neg h1, if_neg h1]
  show (match ringBuffer_get_msgs rb.toringBuffer_s (toInt32 count) al with
    | none => none
    | some (ret, list) =>
      if ret ≠ 0 then some (-1, { rb with enqoutRuleList := l }, [])
      else
        match ringBuffer_clean_msgs { rb with enqoutRuleList := l } false with
        | none => none
        | some (rb1, _) => some (0, rb1, list)) = _
  rcases ringBuffer_get_msgs rb.toringBuffer_s (toInt32 count) al with _ | ⟨ret, list⟩
  · rfl
  · by_cases hr : ret ≠ 0
    · simp only [if_pos hr]; rfl
    · simp only [if_neg hr, clean_msgs_enqout]
      rcases ringBuffer_clean_msgs rb false with _ | ⟨rb1, f⟩ <;> rfl

theorem put_msgs_enqout (rb : ringBuffer_t) (l : List ringBufferRule_t) (aio : nng_aio)
    (al : Alloc) :
    put_msgs_to_aio { rb with enqoutRuleList := l } aio al =
      (put_msgs_to_aio rb aio al).map
        fun o => { o with rb := { o.rb with enqoutRuleList := l } } := by
  unfold put_msgs_to_aio
  show (match ringBuffer_get_and_clean_msgs { rb with enqoutRuleList := l } rb.cap al with
    | none => (none : Option EnqueueOut)
    | some (ret, rb1, list) =>
      if ret ≠ 0 then some ⟨-1, rb1, aio, [], none⟩
      else if al.list_len = false then some ⟨-1, rb1, aio, [], none⟩
      else if al.tmsg = false then some ⟨-1, rb1, aio, [], none⟩
      else some ⟨0, rb1, { msg := some (toInt32 rb1.cap), prov_data := some list }, [], none⟩)
    = _
  rw [get_and_clean_enqout]
  rcases ringBuffer_get_and_clean_msgs rb rb.cap al with _ | ⟨ret, rb1, list⟩
  · rfl
  · simp only [Option.map]
    by_cases hr : ret ≠ 0
    · simp only [if_pos hr]
    · simp only [if_neg hr]
      by_cases h1 : al.list_len = false
      · simp only [if_pos h1]
      · simp only [if_neg h1]
        by_cases h2 : al.tmsg = false
        · simp only [if_pos h2]
        · simp only [if_neg h2]

theorem write_msgs_enqout (rb : ringBuffer_t) (l : List ringBufferRule_t) (aio : nng_aio)
    (al : Alloc) :
    write_msgs_to_file { rb with enqoutRuleList := l } aio al =
      (write_msgs_to_file rb aio al).map
        fun o => { o with rb := { o.rb with enqoutRuleList := l } } := by
  unfold write_msgs_to_file
  by_cases h0 : al.file = false
  · rw [if_pos h0, if_pos h0]; exact cleanAndReturn_enqout rb l true (-1) aio none
  rw [if_neg h0, if_neg h0]
  have e : init_parquet_object { rb with enqoutRuleList := l } al = init_parquet_object rb al :=
    rfl
  rw [e]
  rcases init_parquet_object rb al with _ | obj
  · exact cleanAndReturn_enqout rb l true (-1) aio none
  · show (if nng_alloc al al.file_keys (8 * rb.cap) = false then _ else _) = _
    by_cases h1 : nng_alloc al al.file_keys (8 * rb.cap) = false
    · simp only [if_pos h1]; exact cleanAndReturn_enqout rb l true (-1) aio (some obj)
    · simp only [if_neg h1]
      exact cleanAndReturn_enqout
        { rb with files := rb.files ++ [⟨(List.range rb.cap).map fun i => (rb.msgs i).key⟩] }
        l false 0 aio (some obj)

theorem full_enqout (rb : ringBuffer_t) (l : List ringBufferRule_t) (aio : nng_aio)
    (al : Alloc) :
    ringBuffer_enqueue.full { rb with enqoutRuleList := l } aio al =
      (ringBuffer_enqueue.full rb aio al).map
        fun o => { o with rb := { o.rb with enqoutRuleList := l } } := by
  unfold ringBuffer_enqueue.full
  cases hop : rb.fullOp
  · simp only [hop]; rfl
  · simp only [hop]; exact cleanAndReturn_enqout rb l true 0 aio none
  · simp only [hop]; exact put_msgs_enqout rb l aio al
  · simp only [hop]; exact write_msgs_enqout rb l aio al
  · simp only [hop]; rfl

theorem insert_enqout (o : EnqueueOut) (l : List ringBufferRule_t) (key : Nat) (data : Ptr)
    (expiredAt : Nat) :
    ringBuffer_enqueue.insert { o with rb := { o.rb with enqoutRuleList := l } } key data
        expiredAt =
      (ringBuffer_enqueue.insert o key data expiredAt).map
        fun o => { o with rb := { o.rb with enqoutRuleList := l } } := by
  unfold ringBuffer_enqueue.insert
  show (match umod (o.rb.tail + 1) o.rb.cap with
    | none => none
    | some t => _) = _
  rcases umod (o.rb.tail + 1) o.rb.cap with _ | t <;> rfl

theorem rule_check_enqin_enqout (rb : ringBuffer_t) (l : List ringBufferRule_t) (data : Ptr) :
    ringBuffer_rule_check { rb with enqoutRuleList := l } data ENQUEUE_IN_HOOK =
      ringBuffer_rule_check rb data ENQUEUE_IN_HOOK := by
  rw [rule_check_enqin, rule_check_enqin]

theorem rule_check_deqin_deqout (rb : ringBuffer_t) (l : List ringBufferRule_t) (data : Ptr) :
    ringBuffer_rule_check { rb with deqoutRuleList := l } data DEQUEUE_IN_HOOK =
      ringBuffer_rule_check rb data DEQUEUE_IN_HOOK := by
  rw [rule_check_deqin, rule_check_deqin]

/-- Claim C15: the result of `ringBuffer_enqueue` does not depend on the post-enqueue
rule list and the result of `ringBuffer_dequeue` does not depend on the post-dequeue rule
list: with any list `l` in that place the call returns the same code, the same buffer
content and the same outputs, so a failing post-phase action reverses nothing. -/
theorem post_rules_do_not_undo (rb : ringBuffer_t) (l : List ringBufferRule_t) (key : Nat)
    (data : Ptr) (expiredAt : Nat) (aio : nng_aio) (al : Alloc) :
    ringBuffer_enqueue { rb with enqoutRuleList := l } key data expiredAt aio al =
      (ringBuffer_enqueue rb key data expiredAt aio al).map
        (fun o => { o with rb := { o.rb with enqoutRuleList := l } }) ∧
    ringBuffer_dequeue { rb with deqoutRuleList := l } =
      (ringBuffer_dequeue rb).map
        (fun o => { o with rb := { o.rb with deqoutRuleList := l } }) := by
  constructor
  · unfold ringBuffer_enqueue
    rw [rule_check_enqin_enqout]
    by_cases hr : ringBuffer_rule_check rb data ENQUEUE_IN_HOOK ≠ 0
    · rw [if_pos hr, if_pos hr]; rfl
    rw [if_neg hr, if_neg hr]
    show (if rb.size = rb.cap then
        match ringBuffer_enqueue.full { rb with enqoutRuleList := l } aio al with
        | none => none
        | some o => if o.ret ≠ 0 then some o else ringBuffer_enqueue.insert o key data expiredAt
      else ringBuffer_enqueue.insert ⟨0, { rb with enqoutRuleList := l }, aio, [], none⟩ key data
        expiredAt) = _
    by_cases hf : rb.size = rb.cap
    · rw [if_pos hf, if_pos hf, full_enqout]
      rcases ringBuffer_enqueue.full rb aio al with _ | o
      · rfl
      · simp only [Option.map]
        by_cases h0 : o.ret ≠ 0
        · simp only [if_pos h0]
        · simp only [if_neg h0]
          exact insert_enqout o l key data expiredAt
    · rw [if_neg hf, if_neg hf]
      exact insert_enqout ⟨0, rb, aio, [], none⟩ l key data expiredAt
  · unfold ringBuffer_dequeue
    rw [rule_check_deqin_deqout]
    by_cases hr : ringBuffer_rule_check rb NULL DEQUEUE_IN_HOOK ≠ 0
    · rw [if_pos hr, if_pos hr]; rfl
    rw [if_neg hr, if_neg hr]
    show (if rb.size = 0 then (some ⟨-1, { rb with deqoutRuleList := l }, none⟩ :
        Option DequeueOut)
      else match umod (rb.head + 1) rb.cap with
        | none => none
        | some h => _) = _
    by_cases h0 : rb.size = 0
    · rw [if_pos h0, if_pos h0]; rfl
    rw [if_neg h0, if_neg h0]
    rcases umod (rb.head + 1) rb.cap with _ | h <;> rfl

theorem rule_calls_ret (rb : ringBuffer_s) (list : List ringBufferRule_t) (data : Ptr)
    (flag : Nat) (i : Nat) :
    (ringBufferRule_check.calls rb list data flag i).2 =
      ringBufferRule_check rb list data flag := by
  induction list generalizing i with
  | nil => rfl
  | cons r rest ih =>
    unfold ringBufferRule_check.calls ringBufferRule_check
    split
    · exact ih _
    · split
      · rfl
      · exact ih _

theorem rule_calls_spec (rb : ringBuffer_s) (list : List ringBufferRule_t) (data : Ptr)
    (flag : Nat) (i : Nat) :
    ringBufferRule_check.calls rb list data flag i =
      (((list.take ((list.takeWhile fun r => !ruleFails rb data flag r).length + 1)).enumFrom
          i).flatMap (ruleVisit rb data flag),
        if list.any (ruleFails rb data flag) then -1 else 0) := by
  induction list generalizing i with
  | nil => rfl
  | cons r rest ih =>
    unfold ringBufferRule_check.calls
    by_cases hm : r.match_ rb data flag ≠ 0
    · have hf : ruleFails rb data flag r = false := by simp [ruleFails, hm]
      rw [if_pos hm, ih (i + 1)]
      simp [List.takeWhile, hf, List.enumFrom, ruleVisit, hm]
    · rw [if_neg hm]
      by_cases ht : r.target rb data flag ≠ 0
      · have hf : ruleFails rb data flag r = true := by
          simp [ruleFails, not_not.1 hm, ht]
        rw [if_pos ht]
        simp [List.takeWhile, hf, List.enumFrom, ruleVisit, not_not.1 hm]
      · have hf : ruleFails rb data flag r = false := by simp [ruleFails, not_not.1 ht]
        rw [if_neg ht, ih (i + 1)]
        simp [List.takeWhile, hf, List.enumFrom, ruleVisit, not_not.1 hm]

/-- Claim C14: the calls `ringBufferRule_check` makes on a rule list are those of the
spec (rules in list order, the action only after a match that reports a match, nothing
after the first matching rule whose action fails) and it returns `-1` exactly when there
is such a rule; `ringBufferRuleList_add` appends at the end, so list order is
registration order; the result on the pre-enqueue and on the pre-dequeue list is the
result of `ringBuffer_rule_check` for that phase. -/
theorem rule_evaluation_order (rb : ringBuffer_t) (list : List ringBufferRule_t) (data : Ptr)
    (flag : Nat) :
    ringBufferRule_check.calls rb.toringBuffer_s list data flag 0 =
      ruleEvaluationSpec rb.toringBuffer_s list data flag ∧
    ringBufferRule_check rb.toringBuffer_s list data flag =
      (ringBufferRule_check.calls rb.toringBuffer_s list data flag 0).2 ∧
    ringBuffer_rule_check rb data ENQUEUE_IN_HOOK =
      (ringBufferRule_check.calls rb.toringBuffer_s rb.enqinRuleList data ENQUEUE_IN_HOOK 0).2 ∧
    ringBuffer_rule_check rb data DEQUEUE_IN_HOOK =
      (ringBufferRule_check.calls rb.toringBuffer_s rb.deqinRuleList data DEQUEUE_IN_HOOK 0).2 ∧
    (∀ (n : Nat) (m t : ringBuffer_s → Ptr → Nat → Int),
      (ringBufferRuleList_add n list m t true).2 =
        if list.length = n then list else list ++ [⟨m, t⟩]) := by
  refine ⟨rule_calls_spec _ _ _ _ 0, (rule_calls_ret _ _ _ _ 0).symm, ?_, ?_, ?_⟩
  · rw [rule_check_enqin, rule_calls_ret]
    rcases rule_check_values rb.toringBuffer_s rb.enqinRuleList data ENQUEUE_IN_HOOK with h | h
      <;> rw [h] <;> rfl
  · rw [rule_check_deqin, rule_calls_ret]
    rcases rule_check_values rb.toringBuffer_s rb.deqinRuleList data DEQUEUE_IN_HOOK with h | h
      <;> rw [h] <;> rfl
  · intro n m t
    unfold ringBufferRuleList_add
    by_cases hn : list.length = n
    · rw [if_pos hn, if_pos hn]
    · rw [if_neg hn, if_neg hn]; rfl

theorem nni_id_get_set_self (m : nni_id_map) (id : Nat) (val : Ptr) :
    nni_id_set m id val id = some val := by
  unfold nni_id_set
  rw [if_pos rfl]

/-- Claim C17: when `rbmsgmap` has an entry (a message `first`) for the low 32 bits of the
timestamp of `msg`, `exchange_client_handle_msg` returns `-1`, frees `msg`, does not call
`exchange_handle_msg`, leaves `rbmsgmap` and the exchange as they were, and
`exchange_client_get_msg_by_key` for that timestamp still returns `first`. -/
theorem handle_msg_rejects_duplicate (E : ExEnv) (s : exchange_sock_t) (ex : exchange_t)
    (msg first : Ptr) (aio : nng_aio)
    (hentry : s.rbmsgmap (E.nni_msg_get_timestamp msg % 2 ^ 32) = some first)
    (hfirst : first ≠ NULL) :
    ∃ o, exchange_client_handle_msg E s.rbmsgmap ex msg aio = some o ∧
      o.ret = -1 ∧ o.delegated = false ∧ o.rbmsgmap = s.rbmsgmap ∧ o.ex = ex ∧
      o.freed = [msg] ∧
      exchange_client_get_msg_by_key { s with rbmsgmap := o.rbmsgmap }
        (E.nni_msg_get_timestamp msg) = (0, some first) := by
  have hget : nni_id_get s.rbmsgmap (E.nni_msg_get_timestamp msg % 2 ^ 32) = first := by
    unfold nni_id_get; rw [hentry]; rfl
  refine ⟨⟨-1, s.rbmsgmap, ex, { aio with prov_data := none }, [msg], false⟩, ?_, rfl, rfl,
    rfl, rfl, rfl, ?_⟩
  · unfold exchange_client_handle_msg
    simp only [hget]
    rw [if_pos hfirst]
  · unfold exchange_client_get_msg_by_key
    simp only [hget]
    rw [if_neg hfirst]

theorem handle_msg_rejects_duplicate_witness :
    ∃ o, exchange_client_handle_msg exEnv
        { exchange_sock_init with rbmsgmap := nni_id_set (fun _ => none) 7 107 }.rbmsgmap
        ⟨[]⟩ (2 ^ 32 + 7) ⟨none, none⟩ = some o ∧
      o.ret = -1 ∧ o.delegated = false ∧
      o.rbmsgmap =
        { exchange_sock_init with rbmsgmap := nni_id_set (fun _ => none) 7 107 }.rbmsgmap ∧
      o.ex = ⟨[]⟩ ∧ o.freed = [2 ^ 32 + 7] ∧
      exchange_client_get_msg_by_key
        { { exchange_sock_init with rbmsgmap := nni_id_set (fun _ => none) 7 107 } with
          rbmsgmap := o.rbmsgmap }
        (exEnv.nni_msg_get_timestamp (2 ^ 32 + 7)) = (0, some 107) :=
  handle_msg_rejects_duplicate exEnv
    { exchange_sock_init with rbmsgmap := nni_id_set (fun _ => none) 7 107 } ⟨[]⟩
    (2 ^ 32 + 7) 107 ⟨none, none⟩ (by decide) (by decide)

/-- Claim C18 (refuted): when `exchange_handle_msg` fails inside
`exchange_client_handle_msg`, the call returns `-1` and frees the message, and `rbmsgmap`
keeps the entry just inserted for the low 32 bits of the timestamp: it holds the freed
message and `rbmsgmap` is not what it was before the call. -/
theorem handle_msg_keeps_entry_when_enqueue_fails (E : ExEnv) (rbmsgmap : nni_id_map)
    (ex : exchange_t) (msg : Ptr) (aio : nng_aio) (ret : Int)
    (hmsg : msg ≠ NULL)
    (hnew : nni_id_get rbmsgmap (E.nni_msg_get_timestamp msg % 2 ^ 32) = NULL)
    (hset : E.nni_id_set_ok (E.nni_msg_get_timestamp msg % 2 ^ 32) = true)
    (hh : (E.exchange_handle_msg ex (E.nni_msg_get_timestamp msg) msg
      { aio with prov_data := none }).map (fun o => o.ret) = some ret)
    (hret : ret ≠ 0) :
    ∃ o, exchange_client_handle_msg E rbmsgmap ex msg aio = some o ∧
      o.ret = -1 ∧ o.freed = [msg] ∧
      o.rbmsgmap (E.nni_msg_get_timestamp msg % 2 ^ 32) = some msg ∧
      o.rbmsgmap ≠ rbmsgmap := by
  rcases hr : E.exchange_handle_msg ex (E.nni_msg_get_timestamp msg) msg
    { aio with prov_data := none } with _ | r
  · rw [hr] at hh; simp at hh
  rw [hr] at hh
  have hr0 : r.ret ≠ 0 := by
    simp only [Option.map, Option.some.injEq] at hh
    rw [hh]; exact hret
  refine ⟨⟨-1, nni_id_set rbmsgmap (E.nni_msg_get_timestamp msg % 2 ^ 32) msg, r.ex, r.aio,
    [msg], true⟩, ?_, rfl, rfl, nni_id_get_set_self _ _ _, ?_⟩
  · unfold exchange_client_handle_msg
    simp only [hnew, hset, hr]
    rw [if_neg (fun h => h rfl), if_neg (by simp), if_pos hr0]
  · intro h
    have h1 := congrFun h (E.nni_msg_get_timestamp msg % 2 ^ 32)
    simp only [nni_id_get_set_self] at h1
    unfold nni_id_get at hnew
    rw [← h1] at hnew
    exact hmsg hnew

theorem handle_msg_keeps_entry_when_enqueue_fails_witness :
    ∃ o, exchange_client_handle_msg exEnv (fun _ => none)
        ⟨[exFullAt1 fullOption.RB_FULL_NONE]⟩ 104 ⟨none, none⟩ = some o ∧
      o.ret = -1 ∧ o.freed = [104] ∧
      o.rbmsgmap (exEnv.nni_msg_get_timestamp 104 % 2 ^ 32) = some 104 ∧
      o.rbmsgmap ≠ fun _ => none :=
  handle_msg_keeps_entry_when_enqueue_fails exEnv (fun _ => none)
    ⟨[exFullAt1 fullOption.RB_FULL_NONE]⟩ 104 ⟨none, none⟩ (-1) (by decide) rfl rfl rfl
    (by decide)

theorem handle_clean_spec (E : ExEnv) (n : Nat) (list : List Ptr) (m : nni_id_map)
    (hn : n ≤ list.length) :
    ∃ m1, exchange_client_handle_msg.clean E n list m = some m1 ∧
      (∀ p ∈ list.take n, p ≠ NULL → m1 (E.nni_msg_get_timestamp p % 2 ^ 32) = none) ∧
      (∀ k, (∀ p ∈ list.take n, p ≠ NULL → E.nni_msg_get_timestamp p % 2 ^ 32 ≠ k) →
        m1 k = m k) ∧
      (∀ k, m k = none → m1 k = none) := by
  induction n generalizing list m with
  | zero =>
    refine ⟨m, ?_, ?_, fun _ _ => rfl, fun _ h => h⟩
    · cases list <;> rfl
    · intro p hp; simp at hp
  | succ n ih =>
    cases list with
    | nil => simp at hn
    | cons q rest =>
      obtain ⟨m1, h1, h2, h3, h4⟩ := ih rest
        (if q ≠ NULL then nni_id_remove m (E.nni_msg_get_timestamp q % 2 ^ 32) else m)
        (by simpa using hn)
      refine ⟨m1, h1, ?_, ?_, ?_⟩
      · intro p hp hne
        rw [List.take_succ_cons] at hp
        rcases List.mem_cons.1 hp with e | hp
        · subst e
          apply h4
          rw [if_pos hne]
          unfold nni_id_remove
          rw [if_pos rfl]
        · exact h2 p hp hne
      · intro k hk
        rw [List.take_succ_cons] at hk
        rw [h3 k (fun p hp hne => hk p (List.mem_cons_of_mem _ hp) hne)]
        by_cases hq : q ≠ NULL
        · rw [if_pos hq]
          unfold nni_id_remove
          rw [if_neg (fun e => hk q (List.mem_cons_self _ _) hq e.symm)]
        · rw [if_neg hq]
      · intro k hk
        apply h4
        by_cases hq : q ≠ NULL
        · rw [if_pos hq]
          unfold nni_id_remove
          split
          · rfl
          · exact hk
        · rw [if_neg hq]; exact hk

/-- Claim C19: when `exchange_handle_msg` succeeds inside `exchange_client_handle_msg` and
leaves on the completion a message list with recorded length `n` (not beyond the end of
the list), the call returns `0` and `rbmsgmap` afterwards has no entry for the low 32
bits of the timestamp of any of the first `n` messages of the list; for every other key
it is `rbmsgmap` before the call with the entry of the new message added. -/
theorem handle_msg_cleans_returned_keys (E : ExEnv) (rbmsgmap : nni_id_map)
    (ex : exchange_t) (msg : Ptr) (aio : nng_aio) (list : List Ptr) (n : Int)
    (hnew : nni_id_get rbmsgmap (E.nni_msg_get_timestamp msg % 2 ^ 32) = NULL)
    (hset : E.nni_id_set_ok (E.nni_msg_get_timestamp msg % 2 ^ 32) = true)
    (hh : (E.exchange_handle_msg ex (E.nni_msg_get_timestamp msg) msg
      { aio with prov_data := none }).map (fun o => (o.ret, o.aio.msg, o.aio.prov_data)) =
        some (0, some n, some list))
    (hn : n.toNat ≤ list.length) :
    ∃ o, exchange_client_handle_msg E rbmsgmap ex msg aio = some o ∧ o.ret = 0 ∧
      o.aio.prov_data = some list ∧ o.aio.msg = some n ∧
      (∀ p ∈ list.take n.toNat, p ≠ NULL →
        o.rbmsgmap (E.nni_msg_get_timestamp p % 2 ^ 32) = none) ∧
      (∀ k, (∀ p ∈ list.take n.toNat, p ≠ NULL → E.nni_msg_get_timestamp p % 2 ^ 32 ≠ k) →
        o.rbmsgmap k =
          if k = E.nni_msg_get_timestamp msg % 2 ^ 32 then some msg else rbmsgmap k) := by
  rcases hr : E.exchange_handle_msg ex (E.nni_msg_get_timestamp msg) msg
    { aio with prov_data := none } with _ | r
  · rw [hr] at hh; simp at hh
  rw [hr] at hh
  simp only [Option.map, Option.some.injEq, Prod.mk.injEq] at hh
  obtain ⟨hret, hlen, hlist⟩ := hh
  obtain ⟨m1, h1, h2, h3, _⟩ := handle_clean_spec E n.toNat list
    (nni_id_set rbmsgmap (E.nni_msg_get_timestamp msg % 2 ^ 32) msg) hn
  refine ⟨⟨0, m1, r.ex, r.aio, [], true⟩, ?_, rfl, hlist, hlen, h2, ?_⟩
  · unfold exchange_client_handle_msg
    simp only [hnew, hset, hr]
    rw [if_neg (fun h => h rfl), if_neg (by simp), if_neg (by rw [hret]; simp)]
    simp only [hlist, hlen, h1]
  · intro k hk
    show m1 k = _
    rw [h3 k hk]
    rfl

theorem handle_msg_cleans_returned_keys_witness :
    ∃ o, exchange_client_handle_msg exEnv
        (fun k => if 201 ≤ k ∧ k ≤ 205 then some k else none)
        ⟨[{ exKeys5 with fullOp := fullOption.RB_FULL_RETURN }]⟩ 206 ⟨none, none⟩ = some o ∧
      o.ret = 0 ∧ o.aio.prov_data = some [201, 202, 203, 204, 205] ∧ o.aio.msg = some 5 ∧
      (∀ p ∈ [201, 202, 203, 204, 205].take (5 : Int).toNat, p ≠ NULL →
        o.rbmsgmap (exEnv.nni_msg_get_timestamp p % 2 ^ 32) = none) ∧
      (∀ k, (∀ p ∈ [201, 202, 203, 204, 205].take (5 : Int).toNat, p ≠ NULL →
          exEnv.nni_msg_get_timestamp p % 2 ^ 32 ≠ k) →
        o.rbmsgmap k =
          if k = exEnv.nni_msg_get_timestamp 206 % 2 ^ 32 then some 206
          else (fun k => if 201 ≤ k ∧ k ≤ 205 then some k else none) k) :=
  handle_msg_cleans_returned_keys exEnv (fun k => if 201 ≤ k ∧ k ≤ 205 then some k else none)
    ⟨[{ exKeys5 with fullOp := fullOption.RB_FULL_RETURN }]⟩ 206 ⟨none, none⟩
    [201, 202, 203, 204, 205] 5 rfl rfl rfl (by decide)

/-- Claim C20 (as worded, refuted): a send of a publish message on a fresh socket with a
bound idle node, with a completion that `nni_aio_begin` does not accept, leaves the node
idle and the dispatch slot empty. -/
theorem sock_send_needs_aio_begin :
    (exchange_sock_send exEnv (exSock (exEmptyRb 3 fullOption.RB_FULL_NONE)) 11 101
        false).ex_node.map (fun n => (n.isBusy, n.saio_msg, n.send_messages.msgs)) =
      some (false, NULL, []) := rfl

/-- Claim C20 (amended): `exchange_sock_send` of a publish message, with a completion that
`nni_aio_begin` accepts, on a socket whose bound node has a pending queue of capacity
`NANO_MAX_MQ_BUFFER_LEN`: an idle node becomes busy with the message in the dispatch slot
and the queue unchanged; a busy node with fewer than 1024 queued messages gets the message
at the end of its queue; with 1024 queued messages the message is freed and the node
(queue, dispatch slot, busy flag) is unchanged. -/
theorem sock_send_dispatch (E : ExEnv) (s : exchange_sock_t) (node : exchange_node_t)
    (aio msg : Ptr) (hnode : s.ex_node = some node)
    (hcap : node.send_messages.cap = NANO_MAX_MQ_BUFFER_LEN) (hmsg : msg ≠ NULL)
    (hpub : E.nni_msg_get_type msg = CMD_PUBLISH) :
    (node.isBusy = false →
      (exchange_sock_send E s aio msg true).ex_node =
        some { node with isBusy := true, saio_msg := msg, saio_result := 0 }) ∧
    (node.isBusy = true → node.send_messages.msgs.length < 1024 →
      (exchange_sock_send E s aio msg true).ex_node =
        some { node with
          send_messages := { node.send_messages with msgs := node.send_messages.msgs ++ [msg] } })
    ∧
    (node.isBusy = true → 1024 ≤ node.send_messages.msgs.length →
      (exchange_sock_send E s aio msg true).ex_node = some node ∧
      (exchange_sock_send E s aio msg true).freed = s.freed ++ [msg]) := by
  have hcap1 : node.send_messages.cap = 1024 := hcap
  refine ⟨fun hb => ?_, fun hb hlen => ?_, fun hb hlen => ?_⟩
  · unfold exchange_sock_send
    simp only [hnode, hb]
    rw [if_neg (by decide), if_neg hmsg, if_neg (fun h => h hpub)]
    simp
  · unfold exchange_sock_send nni_lmq_put
    simp only [hnode, hb, hcap1]
    rw [if_neg (by decide), if_neg hmsg, if_neg (fun h => h hpub)]
    simp [hlen]
  · unfold exchange_sock_send nni_lmq_put
    simp only [hnode, hb, hcap1]
    rw [if_neg (by decide), if_neg hmsg, if_neg (fun h => h hpub)]
    have hl : ¬ node.send_messages.msgs.length < 1024 := by omega
    simp [hl]

theorem sock_send_dispatch_witness :
    (exchange_sock_send exEnv (exSockNode (exNode false NULL [])) 11 101 true).ex_node =
      some { exNode false NULL [] with isBusy := true, saio_msg := 101, saio_result := 0 } ∧
    (exchange_sock_send exEnv (exSockNode (exNode true 101 [102])) 13 103 true).ex_node =
      some { exNode true 101 [102] with
        send_messages :=
          { (exNode true 101 [102]).send_messages with
            msgs := (exNode true 101 [102]).send_messages.msgs ++ [103] } } ∧
    ((exchange_sock_send exEnv (exSockNode (exNode true 101 (List.replicate 1024 102))) 13 103
        true).ex_node = some (exNode true 101 (List.replicate 1024 102)) ∧
      (exchange_sock_send exEnv (exSockNode (exNode true 101 (List.replicate 1024 102))) 13 103
        true).freed =
          (exSockNode (exNode true 101 (List.replicate 1024 102))).freed ++ [103]) :=
  ⟨(sock_send_dispatch exEnv (exSockNode (exNode false NULL [])) (exNode false NULL []) 11 101
      rfl rfl (by decide) rfl).1 rfl,
   (sock_send_dispatch exEnv (exSockNode (exNode true 101 [102])) (exNode true 101 [102]) 13
      103 rfl rfl (by decide) rfl).2.1 rfl (by decide),
   (sock_send_dispatch exEnv (exSockNode (exNode true 101 (List.replicate 1024 102)))
      (exNode true 101 (List.replicate 1024 102)) 13 103 rfl rfl (by decide) rfl).2.2 rfl
      (le_of_eq (List.length_replicate 1024 102).symm)⟩

/-- Claim C16 (refuted): on a fresh socket bound to an exchange, `exchange_sock_send`
accepts message 101 (into the dispatch slot) and then message 102 (into the pending
queue); the run of `exchange_send_cb` that follows passes 102 to
`exchange_client_handle_msg` before 101, and the ring buffer holds them in that order. -/
theorem send_cb_handles_queue_before_dispatch_slot :
    (runEvents exEnv (exSock (exEmptyRb 3 fullOption.RB_FULL_NONE))
        [ExEvent.send 11 101 true, ExEvent.send 12 102 true]).map
      (fun s => (s.handled, s.ex_node.map fun n => (n.isBusy, n.saio_msg, n.send_messages.msgs)))
      = some ([], some (true, 101, [102])) ∧
    (runEvents exEnv (exSock (exEmptyRb 3 fullOption.RB_FULL_NONE))
        [ExEvent.send 11 101 true, ExEvent.send 12 102 true, ExEvent.send_cb]).map
      (fun s => (s.handled, s.finished,
        s.ex_node.map fun n => n.ex.rbs.map fun rb => (live rb.toringBuffer_s).map fun m => m.data))
      = some ([102, 101], [(12, 0), (11, 0)], some [[102, 101]]) :=
  ⟨rfl, rfl⟩

/-- Claim C28 (as worded, refuted): a registration on an empty rule list, far below the
maximum, for which the allocation of the rule fails returns `-1` and appends nothing; and
a registration for the pre-enqueue and the post-enqueue phase, with the pre-enqueue list
full (one rule, maximum one) and the post-enqueue list empty, returns `-1` and appends
nothing to the post-enqueue list. -/
theorem rule_registration_not_appended :
    ringBufferRuleList_add 8 [] exRejectRule.match_ exRejectRule.target false = (-1, []) ∧
    (ringBuffer_add_rule 8 exEmptyAt2 exRejectRule.match_ exRejectRule.target ENQUEUE_IN_HOOK
        ⟨false, true, true, true⟩).1 = -1 ∧
    (ringBuffer_add_rule 8 exEmptyAt2 exRejectRule.match_ exRejectRule.target ENQUEUE_IN_HOOK
        ⟨false, true, true, true⟩).2.enqinRuleList.length = 0 ∧
    (ringBuffer_add_rule 1 { exEmptyAt2 with enqinRuleList := [exRejectRule] }
        exRejectRule.match_ exRejectRule.target (ENQUEUE_IN_HOOK ||| ENQUEUE_OUT_HOOK)
        ⟨true, true, true, true⟩).1 = -1 ∧
    (ringBuffer_add_rule 1 { exEmptyAt2 with enqinRuleList := [exRejectRule] }
        exRejectRule.match_ exRejectRule.target (ENQUEUE_IN_HOOK ||| ENQUEUE_OUT_HOOK)
        ⟨true, true, true, true⟩).2.enqoutRuleList.length = 0 :=
  ⟨rfl, rfl, rfl, rfl, rfl⟩

theorem hook_mask_of_phase (flag hook : Nat) (hh : HOOK_MASK &&& hook = hook)
    (h : flag &&& hook ≠ 0) : ¬ (flag &&& HOOK_MASK = 0) := by
  intro h0
  apply h
  rw [← hh, ← Nat.land_assoc, h0, Nat.zero_and]

theorem ruleList_add_step (n : Nat) (flag hook : Nat) (list : List ringBufferRule_t)
    (m t : ringBuffer_s → Ptr → Nat → Int) (newRule : Bool)
    (h : phasePasses n flag hook list newRule) :
    (if flag &&& hook ≠ 0 then ringBufferRuleList_add n list m t newRule else (0, list)) =
      (0, if flag &&& hook ≠ 0 then list ++ [⟨m, t⟩] else list) := by
  rcases h with h | ⟨h1, h2⟩
  · rw [if_neg (fun c => c h), if_neg (fun c => c h)]
  · by_cases hf : flag &&& hook ≠ 0
    · rw [if_pos hf, if_pos hf]
      unfold ringBufferRuleList_add
      rw [if_neg h1, if_neg (by rw [h2]; decide)]
    · rw [if_neg hf, if_neg hf]

theorem ruleList_add_full (n : Nat) (list : List ringBufferRule_t)
    (m t : ringBuffer_s → Ptr → Nat → Int) (newRule : Bool) (h : list.length = n) :
    ringBufferRuleList_add n list m t newRule = (-1, list) := by
  unfold ringBufferRuleList_add
  rw [if_pos h]

theorem ruleList_add_cases (n : Nat) (list : List ringBufferRule_t)
    (m t : ringBuffer_s → Ptr → Nat → Int) (newRule : Bool) :
    ringBufferRuleList_add n list m t newRule = (-1, list) ∨
      ringBufferRuleList_add n list m t newRule = (0, list ++ [⟨m, t⟩]) := by
  unfold ringBufferRuleList_add
  by_cases h1 : list.length = n
  · rw [if_pos h1]; exact Or.inl rfl
  · rw [if_neg h1]
    by_cases h2 : newRule = false
    · rw [if_pos h2]; exact Or.inl rfl
    · rw [if_neg h2]; exact Or.inr rfl

theorem add_rule_eq (n : Nat) (rb : ringBuffer_t)
    (m t : ringBuffer_s → Ptr → Nat → Int) (flag : Nat) (al : RuleAlloc)
    (hmask : ¬ (flag &&& HOOK_MASK = 0)) (A B C D : Int × List ringBufferRule_t)
    (hA : A = if flag &&& ENQUEUE_IN_HOOK ≠ 0 then
      ringBufferRuleList_add n rb.enqinRuleList m t al.enqin else (0, rb.enqinRuleList))
    (hB : B = if flag &&& ENQUEUE_OUT_HOOK ≠ 0 then
      ringBufferRuleList_add n rb.enqoutRuleList m t al.enqout else (0, rb.enqoutRuleList))
    (hC : C = if flag &&& DEQUEUE_IN_HOOK ≠ 0 then
      ringBufferRuleList_add n rb.deqinRuleList m t al.deqin else (0, rb.deqinRuleList))
    (hD : D = if flag &&& DEQUEUE_OUT_HOOK ≠ 0 then
      ringBufferRuleList_add n rb.deqoutRuleList m t al.deqout else (0, rb.deqoutRuleList)) :
    ringBuffer_add_rule n rb m t flag al =
      if A.1 ≠ 0 then (-1, { rb with enqinRuleList := A.2 })
      else if B.1 ≠ 0 then (-1, { rb with enqinRuleList := A.2, enqoutRuleList := B.2 })
      else if C.1 ≠ 0 then
        (-1, { rb with enqinRuleList := A.2, enqoutRuleList := B.2, deqinRuleList := C.2 })
      else if D.1 ≠ 0 then
        (-1, { rb with enqinRuleList := A.2, enqoutRuleList := B.2, deqinRuleList := C.2,
                       deqoutRuleList := D.2 })
      else
        (0, { rb with enqinRuleList := A.2, enqoutRuleList := B.2, deqinRuleList := C.2,
                      deqoutRuleList := D.2 }) := by
  subst hA hB hC hD
  unfold ringBuffer_add_rule
  rw [if_neg hmask]

theorem add_rule_proj (n : Nat) (rb : ringBuffer_t)
    (m t : ringBuffer_s → Ptr → Nat → Int) (flag : Nat) (al : RuleAlloc)
    (hmask : ¬ (flag &&& HOOK_MASK = 0)) (A B C D : Int × List ringBufferRule_t)
    (hA : A = if flag &&& ENQUEUE_IN_HOOK ≠ 0 then
      ringBufferRuleList_add n rb.enqinRuleList m t al.enqin else (0, rb.enqinRuleList))
    (hB : B = if flag &&& ENQUEUE_OUT_HOOK ≠ 0 then
      ringBufferRuleList_add n rb.enqoutRuleList m t al.enqout else (0, rb.enqoutRuleList))
    (hC : C = if flag &&& DEQUEUE_IN_HOOK ≠ 0 then
      ringBufferRuleList_add n rb.deqinRuleList m t al.deqin else (0, rb.deqinRuleList))
    (hD : D = if flag &&& DEQUEUE_OUT_HOOK ≠ 0 then
      ringBufferRuleList_add n rb.deqoutRuleList m t al.deqout else (0, rb.deqoutRuleList)) :
    (ringBuffer_add_rule n rb m t flag al).1 =
      (if A.1 = 0 ∧ B.1 = 0 ∧ C.1 = 0 ∧ D.1 = 0 then 0 else -1) ∧
    (ringBuffer_add_rule n rb m t flag al).2.enqinRuleList = A.2 ∧
    (ringBuffer_add_rule n rb m t flag al).2.enqoutRuleList =
      (if A.1 = 0 then B.2 else rb.enqoutRuleList) ∧
    (ringBuffer_add_rule n rb m t flag al).2.deqinRuleList =
      (if A.1 = 0 ∧ B.1 = 0 then C.2 else rb.deqinRuleList) ∧
    (ringBuffer_add_rule n rb m t flag al).2.deqoutRuleList =
      (if A.1 = 0 ∧ B.1 = 0 ∧ C.1 = 0 then D.2 else rb.deqoutRuleList) := by
  rw [add_rule_eq n rb m t flag al hmask A B C D hA hB hC hD]
  by_cases a : A.1 = 0 <;> by_cases b : B.1 = 0 <;> by_cases c : C.1 = 0 <;>
    by_cases d : D.1 = 0 <;> simp [a, b, c, d]

/-- Claim C28 (amended).  `ringBufferRuleList_add` on a list that holds
`RBRULELIST_MAX_SIZE` rules returns `-1` and leaves the list as it is; on a shorter list,
when the rule can be allocated, it returns `0` and appends the pair at the end: the length
grows by one and the earlier rules stay in place.  `ringBuffer_add_rule` with any phase
mask: when a phase named by the mask has a full list, the call returns `-1` and that
list is unchanged; when a phase named by the mask has a list below the maximum, its rule
can be allocated and no phase that the call checks earlier fails (each is not named, or
has room and memory), the pair is appended at the end of that list, whatever the later
phases do; and when no phase fails the call returns `0`. -/
theorem rule_registration (n : Nat) (rb : ringBuffer_t)
    (m t : ringBuffer_s → Ptr → Nat → Int) (flag : Nat) (al : RuleAlloc) :
    (∀ (list : List ringBufferRule_t) (newRule : Bool), list.length = n →
      ringBufferRuleList_add n list m t newRule = (-1, list)) ∧
    (∀ list : List ringBufferRule_t, list.length ≠ n →
      ringBufferRuleList_add n list m t true = (0, list ++ [⟨m, t⟩]) ∧
      (list ++ [(⟨m, t⟩ : ringBufferRule_t)]).length = list.length + 1 ∧
      (list ++ [(⟨m, t⟩ : ringBufferRule_t)]).take list.length = list) ∧
    (flag &&& ENQUEUE_IN_HOOK ≠ 0 → rb.enqinRuleList.length = n →
      (ringBuffer_add_rule n rb m t flag al).1 = -1 ∧
      (ringBuffer_add_rule n rb m t flag al).2.enqinRuleList = rb.enqinRuleList) ∧
    (flag &&& ENQUEUE_OUT_HOOK ≠ 0 → rb.enqoutRuleList.length = n →
      (ringBuffer_add_rule n rb m t flag al).1 = -1 ∧
      (ringBuffer_add_rule n rb m t flag al).2.enqoutRuleList = rb.enqoutRuleList) ∧
    (flag &&& DEQUEUE_IN_HOOK ≠ 0 → rb.deqinRuleList.length = n →
      (ringBuffer_add_rule n rb m t flag al).1 = -1 ∧
      (ringBuffer_add_rule n rb m t flag al).2.deqinRuleList = rb.deqinRuleList) ∧
    (flag &&& DEQUEUE_OUT_HOOK ≠ 0 → rb.deqoutRuleList.length = n →
      (ringBuffer_add_rule n rb m t flag al).1 = -1 ∧
      (ringBuffer_add_rule n rb m t flag al).2.deqoutRuleList = rb.deqoutRuleList) ∧
    (flag &&& ENQUEUE_IN_HOOK ≠ 0 → rb.enqinRuleList.length ≠ n → al.enqin = true →
      (ringBuffer_add_rule n rb m t flag al).2.enqinRuleList =
        rb.enqinRuleList ++ [⟨m, t⟩]) ∧
    (flag &&& ENQUEUE_OUT_HOOK ≠ 0 → rb.enqoutRuleList.length ≠ n → al.enqout = true →
      phasePasses n flag ENQUEUE_IN_HOOK rb.enqinRuleList al.enqin →
      (ringBuffer_add_rule n rb m t flag al).2.enqoutRuleList =
        rb.enqoutRuleList ++ [⟨m, t⟩]) ∧
    (flag &&& DEQUEUE_IN_HOOK ≠ 0 → rb.deqinRuleList.length ≠ n → al.deqin = true →
      phasePasses n flag ENQUEUE_IN_HOOK rb.enqinRuleList al.enqin →
      phasePasses n flag ENQUEUE_OUT_HOOK rb.enqoutRuleList al.enqout →
      (ringBuffer_add_rule n rb m t flag al).2.deqinRuleList =
        rb.deqinRuleList ++ [⟨m, t⟩]) ∧
    (flag &&& DEQUEUE_OUT_HOOK ≠ 0 → rb.deqoutRuleList.length ≠ n → al.deqout = true →
      phasePasses n flag ENQUEUE_IN_HOOK rb.enqinRuleList al.enqin →
      phasePasses n flag ENQUEUE_OUT_HOOK rb.enqoutRuleList al.enqout →
      phasePasses n flag DEQUEUE_IN_HOOK rb.deqinRuleList al.deqin →
      (ringBuffer_add_rule n rb m t flag al).2.deqoutRuleList =
        rb.deqoutRuleList ++ [⟨m, t⟩]) ∧
    (flag &&& HOOK_MASK ≠ 0 →
      phasePasses n flag ENQUEUE_IN_HOOK rb.enqinRuleList al.enqin →
      phasePasses n flag ENQUEUE_OUT_HOOK rb.enqoutRuleList al.enqout →
      phasePasses n flag DEQUEUE_IN_HOOK rb.deqinRuleList al.deqin →
      phasePasses n flag DEQUEUE_OUT_HOOK rb.deqoutRuleList al.deqout →
      (ringBuffer_add_rule n rb m t flag al).1 = 0) := by
  obtain ⟨A, hA⟩ : ∃ A, A = if flag &&& ENQUEUE_IN_HOOK ≠ 0 then
    ringBufferRuleList_add n rb.enqinRuleList m t al.enqin else (0, rb.enqinRuleList) :=
    ⟨_, rfl⟩
  obtain ⟨B, hB⟩ : ∃ B, B = if flag &&& ENQUEUE_OUT_HOOK ≠ 0 then
    ringBufferRuleList_add n rb.enqoutRuleList m t al.enqout else (0, rb.enqoutRuleList) :=
    ⟨_, rfl⟩
  obtain ⟨C, hC⟩ : ∃ C, C = if flag &&& DEQUEUE_IN_HOOK ≠ 0 then
    ringBufferRuleList_add n rb.deqinRuleList m t al.deqin else (0, rb.deqinRuleList) :=
    ⟨_, rfl⟩
  obtain ⟨D, hD⟩ : ∃ D, D = if flag &&& DEQUEUE_OUT_HOOK ≠ 0 then
    ringBufferRuleList_add n rb.deqoutRuleList m t al.deqout else (0, rb.deqoutRuleList) :=
    ⟨_, rfl⟩
  have proj := fun hmask => add_rule_proj n rb m t flag al hmask A B C D hA hB hC hD
  have fullA : flag &&& ENQUEUE_IN_HOOK ≠ 0 → rb.enqinRuleList.length = n →
      A = (-1, rb.enqinRuleList) := fun h hl => by
    rw [hA, if_pos h, ruleList_add_full n _ m t _ hl]
  have fullB : flag &&& ENQUEUE_OUT_HOOK ≠ 0 → rb.enqoutRuleList.length = n →
      B = (-1, rb.enqoutRuleList) := fun h hl => by
    rw [hB, if_pos h, ruleList_add_full n _ m t _ hl]
  have fullC : flag &&& DEQUEUE_IN_HOOK ≠ 0 → rb.deqinRuleList.length = n →
      C = (-1, rb.deqinRuleList) := fun h hl => by
    rw [hC, if_pos h, ruleList_add_full n _ m t _ hl]
  have fullD : flag &&& DEQUEUE_OUT_HOOK ≠ 0 → rb.deqoutRuleList.length = n →
      D = (-1, rb.deqoutRuleList) := fun h hl => by
    rw [hD, if_pos h, ruleList_add_full n _ m t _ hl]
  have okA : phasePasses n flag ENQUEUE_IN_HOOK rb.enqinRuleList al.enqin →
      A = (0, if flag &&& ENQUEUE_IN_HOOK ≠ 0 then rb.enqinRuleList ++ [⟨m, t⟩]
        else rb.enqinRuleList) := fun h => by
    rw [hA, ruleList_add_step n flag _ _ m t _ h]
  have okB : phasePasses n flag ENQUEUE_OUT_HOOK rb.enqoutRuleList al.enqout →
      B = (0, if flag &&& ENQUEUE_OUT_HOOK ≠ 0 then rb.enqoutRuleList ++ [⟨m, t⟩]
        else rb.enqoutRuleList) := fun h => by
    rw [hB, ruleList_add_step n flag _ _ m t _ h]
  have okC : phasePasses n flag DEQUEUE_IN_HOOK rb.deqinRuleList al.deqin →
      C = (0, if flag &&& DEQUEUE_IN_HOOK ≠ 0 then rb.deqinRuleList ++ [⟨m, t⟩]
        else rb.deqinRuleList) := fun h => by
    rw [hC, ruleList_add_step n flag _ _ m t _ h]
  have okD : phasePasses n flag DEQUEUE_OUT_HOOK rb.deqoutRuleList al.deqout →
      D = (0, if flag &&& DEQUEUE_OUT_HOOK ≠ 0 then rb.deqoutRuleList ++ [⟨m, t⟩]
        else rb.deqoutRuleList) := fun h => by
    rw [hD, ruleList_add_step n flag _ _ m t _ h]
  refine ⟨fun list newRule hl => ruleList_add_full n list m t newRule hl,
    fun list hl => ⟨?_, ?_, ?_⟩, fun h hl => ?_, fun h hl => ?_, fun h hl => ?_,
    fun h hl => ?_, fun h hl ha => ?_, fun h hl ha p1 => ?_, fun h hl ha p1 p2 => ?_,
    fun h hl ha p1 p2 p3 => ?_, fun hmask p1 p2 p3 p4 => ?_⟩
  · unfold ringBufferRuleList_add
    rw [if_neg hl, if_neg (by decide)]
  · rw [List.length_append, List.length_singleton]
  · rw [List.take_left']
    rfl
  · obtain ⟨r1, r2, _⟩ := proj (hook_mask_of_phase flag _ (by decide) h)
    rw [r1, r2, fullA h hl]
    simp
  · obtain ⟨r1, _, r2, _⟩ := proj (hook_mask_of_phase flag _ (by decide) h)
    rw [r1, r2, fullB h hl]
    simp
  · obtain ⟨r1, _, _, r2, _⟩ := proj (hook_mask_of_phase flag _ (by decide) h)
    rw [r1, r2, fullC h hl]
    simp
  · obtain ⟨r1, _, _, _, r2⟩ := proj (hook_mask_of_phase flag _ (by decide) h)
    rw [r1, r2, fullD h hl]
    simp
  · obtain ⟨_, r2, _⟩ := proj (hook_mask_of_phase flag _ (by decide) h)
    rw [r2, okA (Or.inr ⟨hl, ha⟩), if_pos h]
  · obtain ⟨_, _, r2, _⟩ := proj (hook_mask_of_phase flag _ (by decide) h)
    rw [r2, okA p1, okB (Or.inr ⟨hl, ha⟩), if_pos rfl, if_pos h]
  · obtain ⟨_, _, _, r2, _⟩ := proj (hook_mask_of_phase flag _ (by decide) h)
    rw [r2, okA p1, okB p2, okC (Or.inr ⟨hl, ha⟩), if_pos ⟨rfl, rfl⟩, if_pos h]
  · obtain ⟨_, _, _, _, r2⟩ := proj (hook_mask_of_phase flag _ (by decide) h)
    rw [r2, okA p1, okB p2, okC p3, okD (Or.inr ⟨hl, ha⟩), if_pos ⟨rfl, rfl, rfl⟩, if_pos h]
  · obtain ⟨r1, _⟩ := proj hmask
    rw [r1, okA p1, okB p2, okC p3, okD p4, if_pos ⟨rfl, rfl, rfl, rfl⟩]

theorem rule_registration_witness :
    ringBufferRuleList_add 1 [exRejectRule] exRejectRule.match_ exRejectRule.target true =
      (-1, [exRejectRule]) ∧
    ((ringBuffer_add_rule 1
          { exEmptyAt2 with enqinRuleList := [exRejectRule], enqoutRuleList := [exRejectRule] }
          exRejectRule.match_ exRejectRule.target (ENQUEUE_IN_HOOK ||| ENQUEUE_OUT_HOOK)
          ⟨true, true, true, true⟩).1 = -1 ∧
      (ringBuffer_add_rule 1
          { exEmptyAt2 with enqinRuleList := [exRejectRule], enqoutRuleList := [exRejectRule] }
          exRejectRule.match_ exRejectRule.target (ENQUEUE_IN_HOOK ||| ENQUEUE_OUT_HOOK)
          ⟨true, true, true, true⟩).2.enqoutRuleList = [exRejectRule]) ∧
    (ringBuffer_add_rule 2 { exEmptyAt2 with enqinRuleList := [exRejectRule] }
        exRejectRule.match_ exRejectRule.target (ENQUEUE_IN_HOOK ||| ENQUEUE_OUT_HOOK)
        ⟨true, true, true, true⟩).2.enqinRuleList =
      [exRejectRule] ++ [⟨exRejectRule.match_, exRejectRule.target⟩] ∧
    (ringBuffer_add_rule 2 { exEmptyAt2 with enqinRuleList := [exRejectRule] }
        exRejectRule.match_ exRejectRule.target (ENQUEUE_IN_HOOK ||| ENQUEUE_OUT_HOOK)
        ⟨true, true, true, true⟩).2.enqoutRuleList =
      [] ++ [⟨exRejectRule.match_, exRejectRule.target⟩] ∧
    (ringBuffer_add_rule 2 { exEmptyAt2 with enqinRuleList := [exRejectRule] }
        exRejectRule.match_ exRejectRule.target (ENQUEUE_IN_HOOK ||| ENQUEUE_OUT_HOOK)
        ⟨true, true, true, true⟩).1 = 0 :=
  ⟨(rule_registration 1 exEmptyAt2 exRejectRule.match_ exRejectRule.target ENQUEUE_IN_HOOK
      ⟨true, true, true, true⟩).1 [exRejectRule] true rfl,
   (rule_registration 1
      { exEmptyAt2 with enqinRuleList := [exRejectRule], enqoutRuleList := [exRejectRule] }
      exRejectRule.match_ exRejectRule.target (ENQUEUE_IN_HOOK ||| ENQUEUE_OUT_HOOK)
      ⟨true, true, true, true⟩).2.2.2.1 (by decide) rfl,
   (rule_registration 2 { exEmptyAt2 with enqinRuleList := [exRejectRule] }
      exRejectRule.match_ exRejectRule.target (ENQUEUE_IN_HOOK ||| ENQUEUE_OUT_HOOK)
      ⟨true, true, true, true⟩).2.2.2.2.2.2.1 (by decide) (by decide) rfl,
   (rule_registration 2 { exEmptyAt2 with enqinRuleList := [exRejectRule] }
      exRejectRule.match_ exRejectRule.target (ENQUEUE_IN_HOOK ||| ENQUEUE_OUT_HOOK)
      ⟨true, true, true, true⟩).2.2.2.2.2.2.2.1 (by decide) (by decide) rfl (by decide),
   (rule_registration 2 { exEmptyAt2 with enqinRuleList := [exRejectRule] }
      exRejectRule.match_ exRejectRule.target (ENQUEUE_IN_HOOK ||| ENQUEUE_OUT_HOOK)
      ⟨true, true, true, true⟩).2.2.2.2.2.2.2.2.2.2 (by decide) (by decide) (by decide)
      (by decide) (by decide)⟩

/-- Claim C30 (refuted): a buffer of three slots after enqueue, enqueue, enqueue, dequeue,
dequeue, enqueue has `head = 2` and `size = 2`; the range test of
`ringBuffer_search_msgs_fuzz` for `start = 0`, `end = 100` reads the slot index
`head + size - 1 = 3`, which is not below `cap = 3`. -/
theorem search_msgs_fuzz_reads_past_cap :
    ∃ rb, (ringBuffer_init 0xffffffff 3 fullOption.RB_FULL_NONE 0 exMem Alloc.ok).bind
        (fun rb0 => runOps rb0 [exEnq 1 101, exEnq 2 102, exEnq 3 103, Op.dequeue, Op.dequeue,
          exEnq 4 104]) = some rb ∧
      rb.cap = 3 ∧ rb.head = 2 ∧ rb.size = 2 ∧ rb.head + rb.size - 1 = 3 ∧
      ringBuffer_search_msgs_fuzz.rangeReads rb 0 100 = [3, 2] ∧
      ¬ 3 < rb.cap ∧
      ringBuffer_search_msgs_fuzz rb 0 100 Alloc.ok = some ⟨-1, none, []⟩ :=
  ⟨_, rfl, rfl, rfl, rfl, rfl, rfl, by decide, rfl⟩

theorem rangesWindow_length (r : blf_file_ranges) : (rangesWindow r).length = r.size := by
  unfold rangesWindow
  rw [List.length_map, List.length_range]

theorem update_ranges_grow (file_count : Nat) (r : blf_file_ranges) (x : Ptr)
    (hs : r.size < file_count) (h0 : r.start = 0) :
    ∃ r1, update_blf_file_ranges file_count r x = some (r1, []) ∧
      r1.size = r.size + 1 ∧ r1.start = 0 ∧
      rangesWindow r1 = rangesWindow r ++ [x] := by
  refine ⟨{ r with
      size := r.size + 1,
      range := fun i => if i = r.size then x else r.range i }, ?_, rfl, h0, ?_⟩
  · unfold update_blf_file_ranges
    rw [if_pos (by omega)]
  · unfold rangesWindow
    simp only [h0, Nat.zero_add]
    rw [List.range_succ, List.map_append]
    congr 1
    · apply List.map_congr_left
      intro i hi
      have hi1 : i < r.size := List.mem_range.1 hi
      rw [Nat.mod_eq_of_lt (by omega), Nat.mod_eq_of_lt hi1, if_neg (by omega)]
    · simp [Nat.mod_eq_of_lt]

theorem update_ranges_full (file_count : Nat) (r : blf_file_ranges) (x : Ptr)
    (hs : r.size = file_count) (h0 : r.start < r.size) :
    ∃ r1, update_blf_file_ranges file_count r x = some (r1, [r.range r.start]) ∧
      r1.size = r.size ∧ r1.start < r1.size ∧ r1.range r.start = x ∧
      (rangesWindow r).head? = some (r.range r.start) ∧
      rangesWindow r1 = (rangesWindow r).tail ++ [x] := by
  have hpos : 0 < r.size := by omega
  refine ⟨{ r with
      range := fun i => if i = r.start then x else r.range i,
      start := (r.start + 1) % r.size }, ?_, rfl, Nat.mod_lt _ hpos, ?_, ?_, ?_⟩
  · unfold update_blf_file_ranges
    rw [if_neg (by omega), umod_pos _ hpos]
  · show (if r.start = r.start then x else r.range r.start) = x
    rw [if_pos rfl]
  · unfold rangesWindow
    obtain ⟨k, hk⟩ : ∃ k, r.size = k + 1 := ⟨r.size - 1, by omega⟩
    rw [hk, List.range_succ_eq_map]
    simp only [List.map_cons, List.head?_cons, Nat.add_zero]
    rw [← hk, Nat.mod_eq_of_lt h0]
  · apply List.ext_getElem
    · simp only [List.length_append, List.length_tail, rangesWindow_length,
        List.length_singleton]
      show r.size = r.size - 1 + 1
      omega
    · intro i h1 h2
      have hi : i < r.size := by
        rw [rangesWindow_length] at h1; exact h1
      unfold rangesWindow
      simp only [List.getElem_map, List.getElem_range]
      show (if ((r.start + 1) % r.size + i) % r.size = r.start then x
        else r.range (((r.start + 1) % r.size + i) % r.size)) = _
      rw [Nat.mod_add_mod]
      by_cases hl : i = r.size - 1
      · have e : (r.start + 1 + i) % r.size = r.start := by
          have : r.start + 1 + i = r.start + r.size := by omega
          rw [this, Nat.add_mod_right, Nat.mod_eq_of_lt h0]
        rw [if_pos e, List.getElem_append_right (by
          simp only [List.length_tail, List.length_map, List.length_range]; omega)]
        simp
      · have hne : (r.start + 1 + i) % r.size ≠ r.start := by
          intro e
          have h3 := mod_add_ne r.size r.start 0 (i + 1) (by omega) (by omega)
          rw [Nat.add_zero, Nat.mod_eq_of_lt h0] at h3
          apply h3
          rw [← e]
          congr 1
          omega
        rw [if_neg hne, List.getElem_append_left (by
          simp only [List.length_tail, List.length_map, List.length_range]; omega)]
        simp only [List.getElem_tail, List.getElem_map, List.getElem_range]
        congr 2
        omega

theorem update_ranges_all (file_count : Nat) (xs : List Ptr) (r : blf_file_ranges)
    (hinv : (r.size < file_count ∧ r.start = 0) ∨ (r.size = file_count ∧ r.start < r.size)) :
    ∃ r1, updateRanges file_count r xs = some r1 ∧
      ((r1.size < file_count ∧ r1.start = 0) ∨ (r1.size = file_count ∧ r1.start < r1.size)) ∧
      rangesWindow r1 =
        (rangesWindow r ++ xs).drop ((rangesWindow r ++ xs).length - file_count) := by
  induction xs generalizing r with
  | nil =>
    refine ⟨r, rfl, hinv, ?_⟩
    rw [List.append_nil, rangesWindow_length]
    have : r.size - file_count = 0 := by omega
    rw [this, List.drop_zero]
  | cons x xs ih =>
    rcases hinv with ⟨hs, h0⟩ | ⟨hs, h0⟩
    · obtain ⟨r1, h1, h2, h3, h4⟩ := update_ranges_grow file_count r x hs h0
      obtain ⟨r2, g1, g2, g3⟩ := ih r1 (by
        by_cases hf : r1.size = file_count
        · right; exact ⟨hf, by omega⟩
        · left; exact ⟨by omega, h3⟩)
      refine ⟨r2, ?_, g2, ?_⟩
      · unfold updateRanges
        rw [h1]
        exact g1
      · rw [g3, h4, List.append_assoc, List.singleton_append]
    · obtain ⟨r1, h1, h2, h3, _, _, h4⟩ := update_ranges_full file_count r x hs h0
      obtain ⟨r2, g1, g2, g3⟩ := ih r1 (Or.inr ⟨by omega, h3⟩)
      refine ⟨r2, ?_, g2, ?_⟩
      · unfold updateRanges
        rw [h1]
        exact g1
      · rw [g3, h4, List.append_assoc, List.singleton_append]
        have hlen : (rangesWindow r).length = file_count := by
          rw [rangesWindow_length]; exact hs
        rcases hw : rangesWindow r with _ | ⟨a, w⟩
        · rw [hw] at hlen; simp at hlen; omega
        · rw [hw] at hlen
          simp only [List.length_cons] at hlen
          simp only [List.tail_cons, List.cons_append, List.length_cons, List.length_append]
          have e : w.length + (xs.length + 1) + 1 - file_count =
              (w.length + (xs.length + 1) - file_count) + 1 := by omega
          rw [e, List.drop_succ_cons]

/-- Claim C29: for `1 ≤ file_count`, the calls of `update_blf_file_ranges` for the
descriptors `xs`, one after the other from the empty window, all return, and the window
then holds `min (length xs) file_count` descriptors, at most `file_count`, namely the last
ones of `xs` in the order in which they were added; a further call on a full window frees
the oldest descriptor of the window, stores the new one in its place and keeps the
size. -/
theorem file_range_window (file_count : Nat) (hfc : 1 ≤ file_count) (xs : List Ptr) :
    ∃ r, updateRanges file_count blf_ranges_init xs = some r ∧
      r.size = min xs.length file_count ∧ r.size ≤ file_count ∧
      rangesWindow r = xs.drop (xs.length - file_count) ∧
      (r.size = file_count → ∀ x, ∃ r1,
        update_blf_file_ranges file_count r x = some (r1, [r.range r.start]) ∧
        (rangesWindow r).head? = some (r.range r.start) ∧
        r1.range r.start = x ∧ r1.size = r.size ∧
        rangesWindow r1 = (rangesWindow r).tail ++ [x]) := by
  obtain ⟨r, h1, h2, h3⟩ := update_ranges_all file_count xs blf_ranges_init
    (Or.inl ⟨hfc, rfl⟩)
  have hw : rangesWindow blf_ranges_init = [] := rfl
  rw [hw, List.nil_append] at h3
  have hsize : r.size = min xs.length file_count := by
    rw [← rangesWindow_length r, h3, List.length_drop]
    omega
  refine ⟨r, h1, hsize, by omega, h3, ?_⟩
  intro hfull x
  have hstart : r.start < r.size := by
    rcases h2 with ⟨h, _⟩ | ⟨_, h⟩
    · omega
    · exact h
  obtain ⟨r1, g1, g2, _, g4, g5, g6⟩ := update_ranges_full file_count r x hfull hstart
  exact ⟨r1, g1, g5, g4, g2, g6⟩

theorem file_range_window_witness :
    ∃ r, updateRanges 2 blf_ranges_init [301, 302, 303] = some r ∧
      r.size = min [301, 302, 303].length 2 ∧ r.size ≤ 2 ∧
      rangesWindow r = [301, 302, 303].drop ([301, 302, 303].length - 2) ∧
      (r.size = 2 → ∀ x, ∃ r1,
        update_blf_file_ranges 2 r x = some (r1, [r.range r.start]) ∧
        (rangesWindow r).head? = some (r.range r.start) ∧
        r1.range r.start = x ∧ r1.size = r.size ∧
        rangesWindow r1 = (rangesWindow r).tail ++ [x]) :=
  file_range_window 2 (by decide) [301, 302, 303]

theorem fini_drain_spec (q : List Ptr) (s : exchange_sock_t) :
    (exchange_sock_fini.drain q s).finished =
      s.finished ++ (q.filter fun m => decide (s.proto_data m ≠ NULL)).map
        (fun m => (s.proto_data m, NNG_ECLOSED)) ∧
    (exchange_sock_fini.drain q s).freed = s.freed ++ q ∧
    (exchange_sock_fini.drain q s).handled = s.handled ∧
    (exchange_sock_fini.drain q s).rbmsgmap = s.rbmsgmap ∧
    (exchange_sock_fini.drain q s).closed = s.closed ∧
    (exchange_sock_fini.drain q s).proto_data = s.proto_data := by
  induction q generalizing s with
  | nil => simp [exchange_sock_fini.drain]
  | cons m rest ih =>
    unfold exchange_sock_fini.drain
    obtain ⟨h1, h2, h3, h4, h5, h6⟩ := ih
      { s with
        finished :=
          if s.proto_data m ≠ NULL then s.finished ++ [(s.proto_data m, NNG_ECLOSED)]
          else s.finished,
        freed := s.freed ++ [m] }
    refine ⟨?_, ?_, h3, h4, h5, h6⟩
    · rw [h1]
      by_cases hm : s.proto_data m ≠ NULL
      · simp [hm]
      · simp [hm]
    · rw [h2]; simp

/-- Claim C23: `exchange_sock_fini` on a socket with a bound node takes every message out
of the pending queue, oldest first, finishes the completion stored in each message (when
there is one) with `NNG_ECLOSED` in that order and frees the message; the queue is empty
afterwards, no message is passed to `exchange_client_handle_msg`, and `rbmsgmap` and the
exchange are untouched by the loop. -/
theorem sock_fini_drains_queue (s : exchange_sock_t) (node : exchange_node_t)
    (hnode : s.ex_node = some node) :
    ∃ s1, exchange_sock_fini s = some s1 ∧
      s1.ex_node = some { node with send_messages := ⟨node.send_messages.cap, []⟩ } ∧
      s1.finished =
        s.finished ++ (node.send_messages.msgs.filter fun m =>
          decide (s.proto_data m ≠ NULL)).map (fun m => (s.proto_data m, NNG_ECLOSED)) ∧
      s1.freed = s.freed ++ node.send_messages.msgs ∧
      s1.handled = s.handled ∧ s1.rbmsgmap = s.rbmsgmap := by
  obtain ⟨h1, h2, h3, h4, _, _⟩ := fini_drain_spec node.send_messages.msgs s
  refine ⟨{ exchange_sock_fini.drain node.send_messages.msgs s with
    ex_node := some { node with send_messages := ⟨node.send_messages.cap, []⟩ } }, ?_, rfl,
    h1, h2, h3, h4⟩
  unfold exchange_sock_fini
  rw [hnode]

theorem sock_fini_drains_queue_witness :
    ∃ s1, exchange_sock_fini
        { exSockNode (exNode true 101 [102, 103]) with
          proto_data := fun m => if m = 102 then 12 else if m = 103 then 13 else NULL } =
          some s1 ∧
      s1.ex_node = some { exNode true 101 [102, 103] with
        send_messages := ⟨(exNode true 101 [102, 103]).send_messages.cap, []⟩ } ∧
      s1.finished =
        [] ++ ((exNode true 101 [102, 103]).send_messages.msgs.filter fun m =>
          decide ((fun m => if m = 102 then 12 else if m = 103 then 13 else NULL) m ≠ NULL)).map
          (fun m => ((fun m => if m = 102 then 12 else if m = 103 then 13 else NULL) m,
            NNG_ECLOSED)) ∧
      s1.freed = [] ++ (exNode true 101 [102, 103]).send_messages.msgs ∧
      s1.handled = [] ∧ s1.rbmsgmap = exchange_sock_init.rbmsgmap :=
  sock_fini_drains_queue
    { exSockNode (exNode true 101 [102, 103]) with
      proto_data := fun m => if m = 102 then 12 else if m = 103 then 13 else NULL }
    (exNode true 101 [102, 103]) rfl

/-- Claim C24: when the flag `closed` of the socket is set, `exchange_send_cb` returns with
the socket as it was: no call of `exchange_client_handle_msg`, and the pending queue, the
dispatch slot, the busy flag and `rbmsgmap` unchanged.  `exchange_sock_close` on a socket
with a bound node sets the flag and changes nothing else. -/
theorem send_cb_after_close (E : ExEnv) (s : exchange_sock_t) :
    (s.closed = true → exchange_send_cb E s = some s) ∧
    (∀ node, s.ex_node = some node →
      exchange_sock_close s = some { s with closed := true } ∧
      exchange_send_cb E { s with closed := true } = some { s with closed := true }) := by
  have key : ∀ t : exchange_sock_t, t.closed = true → exchange_send_cb E t = some t := by
    intro t ht
    unfold exchange_send_cb
    cases hn : t.ex_node with
    | none => rfl
    | some n => simp only [ht, if_true]
  refine ⟨key s, fun node hnode => ⟨?_, key _ rfl⟩⟩
  unfold exchange_sock_close
  rw [hnode]

theorem send_cb_after_close_witness :
    exchange_send_cb exEnv { exSockNode (exNode true 101 [102]) with closed := true } =
      some { exSockNode (exNode true 101 [102]) with closed := true } ∧
    (exchange_sock_close (exSockNode (exNode true 101 [102])) =
        some { exSockNode (exNode true 101 [102]) with closed := true } ∧
      exchange_send_cb exEnv { exSockNode (exNode true 101 [102]) with closed := true } =
        some { exSockNode (exNode true 101 [102]) with closed := true }) :=
  ⟨(send_cb_after_close exEnv
      { exSockNode (exNode true 101 [102]) with closed := true }).1 rfl,
   (send_cb_after_close exEnv (exSockNode (exNode true 101 [102]))).2
      (exNode true 101 [102]) rfl⟩

/-- Claim C25 (as worded, refuted): `exchange_add_ex` on a socket without a bound node
returns `-1` and binds nothing when the node cannot be allocated. -/
theorem add_ex_needs_memory :
    exchange_sock_init.ex_node = none ∧
    (exchange_add_ex exchange_sock_init ⟨[]⟩ false).1 = -1 ∧
    (exchange_add_ex exchange_sock_init ⟨[]⟩ false).2.ex_node = none :=
  ⟨rfl, rfl, rfl⟩

/-- Claim C25 (amended): `exchange_add_ex` returns `0` exactly when the socket has no bound
node and the node can be allocated; the socket then has a node that is not busy, has an
empty pending queue of capacity `NANO_MAX_MQ_BUFFER_LEN`, an empty dispatch slot, and
refers to the given exchange; when a node is bound it returns `-1` and leaves the
socket, with the node and its exchange, as it was. -/
theorem add_ex_binds_once (s : exchange_sock_t) (ex : exchange_t) (alloc : Bool) :
    ((exchange_add_ex s ex alloc).1 = 0 ↔ (s.ex_node = none ∧ alloc = true)) ∧
    (s.ex_node = none → alloc = true →
      (exchange_add_ex s ex alloc).2 =
        { s with
          ex_node := some
            { ex := ex, isBusy := false, saio_msg := NULL, saio_result := 0,
              send_messages := ⟨NANO_MAX_MQ_BUFFER_LEN, []⟩ } }) ∧
    (∀ node, s.ex_node = some node → exchange_add_ex s ex alloc = (-1, s)) := by
  refine ⟨?_, ?_, ?_⟩
  · unfold exchange_add_ex
    cases hn : s.ex_node with
    | some n => simp
    | none =>
      cases alloc <;> simp
  · intro hn ha
    unfold exchange_add_ex
    rw [hn, ha]
    rfl
  · intro node hn
    unfold exchange_add_ex
    rw [hn]

theorem add_ex_binds_once_witness :
    (exchange_add_ex exchange_sock_init ⟨[]⟩ true).2 =
        { exchange_sock_init with
          ex_node := some
            { ex := ⟨[]⟩, isBusy := false, saio_msg := NULL, saio_result := 0,
              send_messages := ⟨NANO_MAX_MQ_BUFFER_LEN, []⟩ } } ∧
    exchange_add_ex (exSockNode (exNode true 101 [102])) ⟨[]⟩ true =
      (-1, exSockNode (exNode true 101 [102])) :=
  ⟨(add_ex_binds_once exchange_sock_init ⟨[]⟩ true).2.1 rfl rfl,
   (add_ex_binds_once (exSockNode (exNode true 101 [102])) ⟨[]⟩ true).2.2
      (exNode true 101 [102]) rfl⟩

theorem handle_msg_total (E : ExEnv) (hE : HandlerTotal E) (rbmsgmap : nni_id_map)
    (ex : exchange_t) (msg : Ptr) (aio : nng_aio) :
    ∃ o, exchange_client_handle_msg E rbmsgmap ex msg aio = some o := by
  unfold exchange_client_handle_msg
  by_cases h1 : nni_id_get rbmsgmap (E.nni_msg_get_timestamp msg % 2 ^ 32) ≠ NULL
  · exact ⟨_, by rw [if_pos h1]⟩
  by_cases h2 : E.nni_id_set_ok (E.nni_msg_get_timestamp msg % 2 ^ 32) = false
  · exact ⟨_, by rw [if_neg h1, if_pos h2]⟩
  obtain ⟨r, hr, hw⟩ := hE ex (E.nni_msg_get_timestamp msg) msg { aio with prov_data := none }
    rfl
  simp only [if_neg h1, if_neg h2, hr]
  by_cases h3 : r.ret ≠ 0
  · exact ⟨_, by rw [if_pos h3]⟩
  simp only [if_neg h3]
  rcases hp : r.aio.prov_data with _ | l
  · exact ⟨_, rfl⟩
  · obtain ⟨n, hn, hle⟩ := hw (not_not.1 h3) l hp
    obtain ⟨m1, hm, _⟩ := handle_clean_spec E n.toNat l
      (nni_id_set rbmsgmap (E.nni_msg_get_timestamp msg % 2 ^ 32) msg) hle
    simp only [hn, hm]
    exact ⟨_, rfl⟩

theorem send_cb_handle_total (E : ExEnv) (hE : HandlerTotal E) (s : exchange_sock_t)
    (n : exchange_node_t) (msg a : Ptr) :
    ∃ o, exchange_client_handle_msg E s.rbmsgmap n.ex msg (s.aios a) = some o ∧
      exchange_send_cb.handle E s n msg a =
        some
          ({ s with
              rbmsgmap := o.rbmsgmap,
              aios := fun x => if x = a then o.aio else s.aios x,
              finished := s.finished ++ [(a, if o.ret ≠ 0 then NNG_EINVAL else 0)],
              freed := s.freed ++ o.freed,
              handled := s.handled ++ [msg] },
            { n with ex := o.ex }) := by
  obtain ⟨o, ho⟩ := handle_msg_total E hE s.rbmsgmap n.ex msg (s.aios a)
  refine ⟨o, ho, ?_⟩
  unfold exchange_send_cb.handle
  rw [ho]

theorem send_cb_drain_queue_irrelevant (E : ExEnv) (q : List Ptr) (s : exchange_sock_t)
    (n : exchange_node_t) (x : List Ptr) :
    exchange_send_cb.drain E q s { n with send_messages := ⟨n.send_messages.cap, x⟩ } =
      exchange_send_cb.drain E q s n := by
  induction q generalizing s n with
  | nil => rfl
  | cons m rest ih =>
    unfold exchange_send_cb.drain
    by_cases hp : s.proto_data m = NULL
    · rw [if_pos hp, if_pos hp]
    · rw [if_neg hp, if_neg hp]
      unfold exchange_send_cb.handle
      rcases exchange_client_handle_msg E s.rbmsgmap n.ex m (s.aios (s.proto_data m))
        with _ | o
      · rfl
      · exact ih _ { n with ex := o.ex }

theorem send_cb_drain_spec (E : ExEnv) (hE : HandlerTotal E) (q rest : List Ptr)
    (s : exchange_sock_t) (n : exchange_node_t)
    (hq : ∀ m ∈ q, s.proto_data m ≠ NULL) :
    ∃ t n1 fs, exchange_send_cb.drain E q s n = some (t, n1) ∧
      exchange_send_cb.drain E (q ++ rest) s n = exchange_send_cb.drain E rest t n1 ∧
      t.handled = s.handled ++ q ∧ t.finished = s.finished ++ fs ∧
      fs.map Prod.fst = q.map s.proto_data ∧
      t.proto_data = s.proto_data ∧ t.closed = s.closed ∧ t.ex_node = s.ex_node ∧
      n1.isBusy = n.isBusy ∧ n1.saio_msg = n.saio_msg ∧ n1.saio_result = n.saio_result ∧
      n1.send_messages = ⟨n.send_messages.cap, []⟩ := by
  induction q generalizing s n with
  | nil =>
    refine ⟨s, { n with send_messages := ⟨n.send_messages.cap, []⟩ }, [], rfl, ?_, ?_, ?_,
      rfl, rfl, rfl, rfl, rfl, rfl, rfl, rfl⟩
    · rw [List.nil_append]
      exact (send_cb_drain_queue_irrelevant E rest s n []).symm
    · rw [List.append_nil]
    · rw [List.append_nil]
  | cons m q ih =>
    have hm : s.proto_data m ≠ NULL := hq m (List.mem_cons_self _ _)
    obtain ⟨o, _, ho⟩ := send_cb_handle_total E hE s n m (s.proto_data m)
    obtain ⟨t, n1, fs, h1, h2, h3, h4, h5, h6, h7, h8, h9, h10, h11, h12⟩ :=
      ih
        { s with
          rbmsgmap := o.rbmsgmap,
          aios := fun x => if x = s.proto_data m then o.aio else s.aios x,
          finished := s.finished ++ [(s.proto_data m, if o.ret ≠ 0 then NNG_EINVAL else 0)],
          freed := s.freed ++ o.freed,
          handled := s.handled ++ [m] }
        { n with ex := o.ex }
        (fun x hx => hq x (List.mem_cons_of_mem _ hx))
    refine ⟨t, n1, (s.proto_data m, if o.ret ≠ 0 then NNG_EINVAL else 0) :: fs, ?_, ?_, ?_,
      ?_, ?_, h6, h7, h8, h9, h10, h11, h12⟩
    · unfold exchange_send_cb.drain
      rw [if_neg hm, ho]
      exact h1
    · rw [List.cons_append]
      conv => lhs; unfold exchange_send_cb.drain
      rw [if_neg hm, ho]
      exact h2
    · rw [h3]; simp
    · rw [h4]; simp
    · simp only [List.map_cons]
      rw [h5]

theorem sock_send_busy_room (E : ExEnv) (s : exchange_sock_t) (node : exchange_node_t)
    (a msg : Ptr) (hnode : s.ex_node = some node) (hbusy : node.isBusy = true)
    (hmsg : msg ≠ NULL) (hpub : E.nni_msg_get_type msg = CMD_PUBLISH)
    (hroom : node.send_messages.msgs.length < node.send_messages.cap) :
    exchange_sock_send E s a msg true =
      { s with
        aios := fun x => if x = a then { s.aios x with msg := none } else s.aios x,
        proto_data := fun m => if m = msg then a else s.proto_data m,
        ex_node := some
          { node with
            send_messages :=
              { node.send_messages with msgs := node.send_messages.msgs ++ [msg] } } } := by
  unfold exchange_sock_send nni_lmq_put
  simp only [hnode, hbusy]
  rw [if_neg (by decide), if_neg hmsg, if_neg (fun h => h hpub)]
  simp [hroom]

theorem send_cb_open (E : ExEnv) (s : exchange_sock_t) (n : exchange_node_t)
    (hn : s.ex_node = some n) (hopen : s.closed = false) (hres : n.saio_result = 0) :
    exchange_send_cb E s =
      match exchange_send_cb.drain E n.send_messages.msgs s n with
      | none => none
      | some (s1, n1) =>
        if n1.saio_msg ≠ NULL then
          match exchange_send_cb.handle E s1 { n1 with saio_msg := NULL } n1.saio_msg
              (s1.proto_data n1.saio_msg) with
          | none => none
          | some (s2, n2) => some { s2 with ex_node := some { n2 with isBusy := false } }
        else some { s1 with ex_node := some { n1 with isBusy := false } } := by
  unfold exchange_send_cb
  rw [hn]
  simp only [hopen, hres]
  rw [if_neg (by decide), if_neg (fun h => h rfl)]

/-- Claim C21 (as worded, refuted): on a fresh bound socket one message is accepted into
the dispatch slot and the messages 101, 102, 103 into the pending queue; after
`exchange_sock_close` the next run of `exchange_send_cb` passes no message to
`exchange_client_handle_msg`, finishes no completion and leaves the three messages in the
queue. -/
theorem send_cb_skips_queue_when_closed :
    (runEvents exEnv (exSock (exEmptyRb 3 fullOption.RB_FULL_NONE))
        [ExEvent.send 10 100 true, ExEvent.send 11 101 true, ExEvent.send 12 102 true,
          ExEvent.send 13 103 true, ExEvent.close, ExEvent.send_cb]).map
      (fun s => (s.handled, s.finished, s.ex_node.map fun n => n.send_messages.msgs)) =
      some ([], [], some [101, 102, 103]) := rfl

/-- Claim C21 (amended): on an open socket whose bound node is busy, `exchange_sock_send`
accepts the publish messages `A`, `B`, `C` (with the completions `a`, `b`, `c`) into the
pending queue behind the messages already there; the run of `exchange_send_cb` that
follows returns, passes the messages queued before and then `A`, `B`, `C` to
`exchange_client_handle_msg` in this order, and finishes `a`, `b`, `c` in this order,
each with `0` when the handling of its message returned `0` and with `NNG_EINVAL`
otherwise. -/
theorem queued_sends_handled_in_order (E : ExEnv) (hE : HandlerTotal E)
    (s : exchange_sock_t) (node : exchange_node_t) (A B C a b c : Ptr)
    (hopen : s.closed = false) (hnode : s.ex_node = some node)
    (hbusy : node.isBusy = true) (hres : node.saio_result = 0)
    (hroom : node.send_messages.msgs.length + 3 ≤ node.send_messages.cap)
    (hq : ∀ m ∈ node.send_messages.msgs, s.proto_data m ≠ NULL)
    (hA : A ≠ NULL ∧ E.nni_msg_get_type A = CMD_PUBLISH)
    (hB : B ≠ NULL ∧ E.nni_msg_get_type B = CMD_PUBLISH)
    (hC : C ≠ NULL ∧ E.nni_msg_get_type C = CMD_PUBLISH)
    (habc : a ≠ NULL ∧ b ≠ NULL ∧ c ≠ NULL)
    (hmsgs : A ≠ B ∧ A ≠ C ∧ B ≠ C) (haios : a ≠ b ∧ a ≠ c ∧ b ≠ c) :
    ∃ s3 t0 n0 oA oB oC s4 hs fs,
      exchange_sock_send E
        (exchange_sock_send E (exchange_sock_send E s a A true) b B true) c C true = s3 ∧
      s3.ex_node = some
        { node with
          send_messages :=
            { node.send_messages with msgs := node.send_messages.msgs ++ [A, B, C] } } ∧
      exchange_send_cb.drain E node.send_messages.msgs s3 node = some (t0, n0) ∧
      t0.handled = s.handled ++ node.send_messages.msgs ∧
      exchange_client_handle_msg E t0.rbmsgmap n0.ex A (t0.aios a) = some oA ∧
      exchange_client_handle_msg E oA.rbmsgmap oA.ex B (t0.aios b) = some oB ∧
      exchange_client_handle_msg E oB.rbmsgmap oB.ex C (t0.aios c) = some oC ∧
      exchange_send_cb E s3 = some s4 ∧
      s4.handled = t0.handled ++ [A, B, C] ++ hs ∧
      s4.finished = t0.finished ++
        [(a, if oA.ret ≠ 0 then NNG_EINVAL else 0), (b, if oB.ret ≠ 0 then NNG_EINVAL else 0),
          (c, if oC.ret ≠ 0 then NNG_EINVAL else 0)] ++ fs := by
  obtain ⟨hab, hac, hbc⟩ := haios
  obtain ⟨hAB, hAC, hBC⟩ := hmsgs
  obtain ⟨ha, hb, hc⟩ := habc
  -- the three sends
  have e1 := sock_send_busy_room E s node a A hnode hbusy hA.1 hA.2 (by omega)
  have e2 := sock_send_busy_room E (exchange_sock_send E s a A true)
    { node with
      send_messages := { node.send_messages with msgs := node.send_messages.msgs ++ [A] } }
    b B (by rw [e1]) hbusy hB.1 hB.2 (by
      show (node.send_messages.msgs ++ [A]).length < node.send_messages.cap
      rw [List.length_append, List.length_singleton]; omega)
  have e3 := sock_send_busy_room E
    (exchange_sock_send E (exchange_sock_send E s a A true) b B true)
    { node with
      send_messages :=
        { node.send_messages with msgs := node.send_messages.msgs ++ [A] ++ [B] } }
    c C (by rw [e2]) hbusy hC.1 hC.2 (by
      show (node.send_messages.msgs ++ [A] ++ [B]).length < node.send_messages.cap
      simp only [List.length_append, List.length_singleton]; omega)
  have hnode3 : (exchange_sock_send E
      (exchange_sock_send E (exchange_sock_send E s a A true) b B true) c C true).ex_node =
      some { node with
        send_messages :=
          { node.send_messages with msgs := node.send_messages.msgs ++ [A, B, C] } } := by
    rw [e3]
    show some _ = some _
    simp
  have hproto : ∀ m, (exchange_sock_send E
      (exchange_sock_send E (exchange_sock_send E s a A true) b B true) c C true).proto_data m =
      if m = C then c else if m = B then b else if m = A then a else s.proto_data m := by
    intro m
    rw [e3]
    show (if m = C then c else
      (exchange_sock_send E (exchange_sock_send E s a A true) b B true).proto_data m) = _
    rw [e2]
    show (if m = C then c else if m = B then b else
      (exchange_sock_send E s a A true).proto_data m) = _
    rw [e1]
  have hclosed : (exchange_sock_send E
      (exchange_sock_send E (exchange_sock_send E s a A true) b B true) c C true).closed =
      false := by
    rw [e3]
    show (exchange_sock_send E (exchange_sock_send E s a A true) b B true).closed = false
    rw [e2]
    show (exchange_sock_send E s a A true).closed = false
    rw [e1]
    exact hopen
  have hhandled : (exchange_sock_send E
      (exchange_sock_send E (exchange_sock_send E s a A true) b B true) c C true).handled =
      s.handled := by
    rw [e3]
    show (exchange_sock_send E (exchange_sock_send E s a A true) b B true).handled = _
    rw [e2]
    show (exchange_sock_send E s a A true).handled = _
    rw [e1]
  generalize exchange_sock_send E
      (exchange_sock_send E (exchange_sock_send E s a A true) b B true) c C true = s3
    at hnode3 hproto hclosed hhandled ⊢
  -- the messages queued before
  have hq3 : ∀ m ∈ node.send_messages.msgs, s3.proto_data m ≠ NULL := by
    intro m hm
    rw [hproto]
    split
    · exact hc
    · split
      · exact hb
      · split
        · exact ha
        · exact hq m hm
  obtain ⟨t0, n0, fs0, d1, d2, d3, d4, d5, d6, d7, d8, d9, d10, d11, d12⟩ :=
    send_cb_drain_spec E hE node.send_messages.msgs [A, B, C] s3 node hq3
  have pA : t0.proto_data A = a := by
    rw [d6, hproto, if_neg hAC, if_neg hAB, if_pos rfl]
  have pB : t0.proto_data B = b := by
    rw [d6, hproto, if_neg hBC, if_pos rfl]
  have pC : t0.proto_data C = c := by
    rw [d6, hproto, if_pos rfl]
  -- the three messages
  obtain ⟨oA, gA, kA⟩ := send_cb_handle_total E hE t0 n0 A a
  obtain ⟨oB, gB, kB⟩ := send_cb_handle_total E hE
    { t0 with
      rbmsgmap := oA.rbmsgmap,
      aios := fun x => if x = a then oA.aio else t0.aios x,
      finished := t0.finished ++ [(a, if oA.ret ≠ 0 then NNG_EINVAL else 0)],
      freed := t0.freed ++ oA.freed,
      handled := t0.handled ++ [A] }
    { n0 with ex := oA.ex } B b
  obtain ⟨oC, gC, kC⟩ := send_cb_handle_total E hE
    { t0 with
      rbmsgmap := oB.rbmsgmap,
      aios := fun x => if x = b then oB.aio else if x = a then oA.aio else t0.aios x,
      finished := t0.finished ++ [(a, if oA.ret ≠ 0 then NNG_EINVAL else 0)] ++
        [(b, if oB.ret ≠ 0 then NNG_EINVAL else 0)],
      freed := t0.freed ++ oA.freed ++ oB.freed,
      handled := t0.handled ++ [A] ++ [B] }
    { n0 with ex := oB.ex } C c
  simp only [if_neg (Ne.symm hab)] at gB
  simp only [if_neg (Ne.symm hbc), if_neg (Ne.symm hac)] at gC
  -- the state after the loop
  have hdrain : exchange_send_cb.drain E (node.send_messages.msgs ++ [A, B, C]) s3 node =
      some
        ({ t0 with
            rbmsgmap := oC.rbmsgmap,
            aios := fun x => if x = c then oC.aio else if x = b then oB.aio
              else if x = a then oA.aio else t0.aios x,
            finished := t0.finished ++ [(a, if oA.ret ≠ 0 then NNG_EINVAL else 0)] ++
              [(b, if oB.ret ≠ 0 then NNG_EINVAL else 0)] ++
              [(c, if oC.ret ≠ 0 then NNG_EINVAL else 0)],
            freed := t0.freed ++ oA.freed ++ oB.freed ++ oC.freed,
            handled := t0.handled ++ [A] ++ [B] ++ [C] },
          { n0 with ex := oC.ex, send_messages := ⟨n0.send_messages.cap, []⟩ }) := by
    rw [d2]
    unfold exchange_send_cb.drain
    rw [if_neg (by rw [pA]; exact ha), pA, kA]
    simp only []
    unfold exchange_send_cb.drain
    rw [if_neg (by show t0.proto_data B ≠ NULL; rw [pB]; exact hb)]
    have : ({ t0 with
      rbmsgmap := oA.rbmsgmap,
      aios := fun x => if x = a then oA.aio else t0.aios x,
      finished := t0.finished ++ [(a, if oA.ret ≠ 0 then NNG_EINVAL else 0)],
      freed := t0.freed ++ oA.freed,
      handled := t0.handled ++ [A] } : exchange_sock_t).proto_data B = b := pB
    rw [this, kB]
    simp only []
    unfold exchange_send_cb.drain
    rw [if_neg (by show t0.proto_data C ≠ NULL; rw [pC]; exact hc)]
    have : ({ t0 with
      rbmsgmap := oB.rbmsgmap,
      aios := fun x => if x = b then oB.aio else if x = a then oA.aio else t0.aios x,
      finished := t0.finished ++ [(a, if oA.ret ≠ 0 then NNG_EINVAL else 0)] ++
        [(b, if oB.ret ≠ 0 then NNG_EINVAL else 0)],
      freed := t0.freed ++ oA.freed ++ oB.freed,
      handled := t0.handled ++ [A] ++ [B] } : exchange_sock_t).proto_data C = c := pC
    rw [this, kC]
    simp only []
    unfold exchange_send_cb.drain
    rfl
  obtain ⟨node3, hn3⟩ : ∃ n3 : exchange_node_t, n3 = { node with
      send_messages :=
        { node.send_messages with msgs := node.send_messages.msgs ++ [A, B, C] } } :=
    ⟨_, rfl⟩
  have hd : exchange_send_cb.drain E node3.send_messages.msgs s3 node3 = some
      ({ t0 with
          rbmsgmap := oC.rbmsgmap,
          aios := fun x => if x = c then oC.aio else if x = b then oB.aio
            else if x = a then oA.aio else t0.aios x,
          finished := t0.finished ++ [(a, if oA.ret ≠ 0 then NNG_EINVAL else 0)] ++
            [(b, if oB.ret ≠ 0 then NNG_EINVAL else 0)] ++
            [(c, if oC.ret ≠ 0 then NNG_EINVAL else 0)],
          freed := t0.freed ++ oA.freed ++ oB.freed ++ oC.freed,
          handled := t0.handled ++ [A] ++ [B] ++ [C] },
        { n0 with ex := oC.ex, send_messages := ⟨n0.send_messages.cap, []⟩ }) := by
    rw [hn3]
    exact (send_cb_drain_queue_irrelevant E _ s3 node _).trans hdrain
  have hres3 : node3.saio_result = 0 := by rw [hn3]; exact hres
  have hcb := send_cb_open E s3 node3 (by rw [hnode3, hn3]) hclosed hres3
  rw [hd] at hcb
  simp only [d10] at hcb
  by_cases hslot : node.saio_msg ≠ NULL
  · obtain ⟨oS, _, kS⟩ := send_cb_handle_total E hE
      { t0 with
        rbmsgmap := oC.rbmsgmap,
        aios := fun x => if x = c then oC.aio else if x = b then oB.aio
          else if x = a then oA.aio else t0.aios x,
        finished := t0.finished ++ [(a, if oA.ret ≠ 0 then NNG_EINVAL else 0)] ++
          [(b, if oB.ret ≠ 0 then NNG_EINVAL else 0)] ++
          [(c, if oC.ret ≠ 0 then NNG_EINVAL else 0)],
        freed := t0.freed ++ oA.freed ++ oB.freed ++ oC.freed,
        handled := t0.handled ++ [A] ++ [B] ++ [C] }
      { n0 with ex := oC.ex, send_messages := ⟨n0.send_messages.cap, []⟩, saio_msg := NULL }
      node.saio_msg (t0.proto_data node.saio_msg)
    rw [if_pos hslot, kS] at hcb
    refine ⟨s3, t0, n0, oA, oB, oC, _, [node.saio_msg],
      [(t0.proto_data node.saio_msg, if oS.ret ≠ 0 then NNG_EINVAL else 0)], rfl, hnode3, d1,
      by rw [d3, hhandled], gA, gB, gC, hcb, ?_, ?_⟩
    · simp
    · simp
  · rw [if_neg hslot] at hcb
    refine ⟨s3, t0, n0, oA, oB, oC, _, [], [], rfl, hnode3, d1, by rw [d3, hhandled], gA, gB,
      gC, hcb, ?_, ?_⟩
    · simp
    · simp

theorem exEnvReject_total (bad : Ptr) : HandlerTotal (exEnvReject bad) := by
  intro ex key msg aio h
  refine ⟨⟨if msg = bad then -1 else 0, ex, aio⟩, rfl, ?_⟩
  intro _ l hl
  rw [h] at hl
  exact absurd hl (by simp)

theorem queued_sends_handled_in_order_witness :
    ∃ s3 t0 n0 oA oB oC s4 hs fs,
      exchange_sock_send (exEnvReject 102)
        (exchange_sock_send (exEnvReject 102)
          (exchange_sock_send (exEnvReject 102)
            (exchange_sock_send (exEnvReject 102) (exSockNode (exNode false NULL [])) 10 100
              true) 11 101 true) 12 102 true) 13 103 true = s3 ∧
      s3.ex_node = some
        { exNode true 100 [] with
          send_messages :=
            { (exNode true 100 []).send_messages with
              msgs := (exNode true 100 []).send_messages.msgs ++ [101, 102, 103] } } ∧
      exchange_send_cb.drain (exEnvReject 102) (exNode true 100 []).send_messages.msgs s3
        (exNode true 100 []) = some (t0, n0) ∧
      t0.handled =
        (exchange_sock_send (exEnvReject 102) (exSockNode (exNode false NULL [])) 10 100
          true).handled ++ (exNode true 100 []).send_messages.msgs ∧
      exchange_client_handle_msg (exEnvReject 102) t0.rbmsgmap n0.ex 101 (t0.aios 11) =
        some oA ∧
      exchange_client_handle_msg (exEnvReject 102) oA.rbmsgmap oA.ex 102 (t0.aios 12) =
        some oB ∧
      exchange_client_handle_msg (exEnvReject 102) oB.rbmsgmap oB.ex 103 (t0.aios 13) =
        some oC ∧
      exchange_send_cb (exEnvReject 102) s3 = some s4 ∧
      s4.handled = t0.handled ++ [101, 102, 103] ++ hs ∧
      s4.finished = t0.finished ++
        [(11, if oA.ret ≠ 0 then NNG_EINVAL else 0), (12, if oB.ret ≠ 0 then NNG_EINVAL else 0),
          (13, if oC.ret ≠ 0 then NNG_EINVAL else 0)] ++ fs :=
  queued_sends_handled_in_order (exEnvReject 102) (exEnvReject_total 102)
    (exchange_sock_send (exEnvReject 102) (exSockNode (exNode false NULL [])) 10 100 true)
    (exNode true 100 []) 101 102 103 11 12 13 rfl rfl rfl rfl (by decide)
    (fun m hm => absurd hm (List.not_mem_nil m)) ⟨by decide, rfl⟩ ⟨by decide, rfl⟩
    ⟨by decide, rfl⟩ ⟨by decide, by decide, by decide⟩ ⟨by decide, by decide, by decide⟩
    ⟨by decide, by decide, by decide⟩

theorem get_msgs_loop_mem (rb : ringBuffer_s) (hcap : 0 < rb.cap) (hsz : rb.size ≤ rb.cap)
    (count : Int) :
    ∀ (fuel i j : Nat) (acc l : List Ptr),
      ringBuffer_get_msgs.loop rb count fuel i j acc = some (0, l) → acc.length = j →
      ((l.length : Nat) : Int) = count ∧
        ∀ p ∈ l, p ∈ acc ∨ ∃ k, i ≤ k ∧ k < rb.size ∧ p = (rb.msgs k).data := by
  intro fuel
  induction fuel with
  | zero =>
    intro i j acc l h
    simp [ringBuffer_get_msgs.loop] at h
  | succ fuel ih =>
    intro i j acc l h hj
    unfold ringBuffer_get_msgs.loop at h
    by_cases hi : i < rb.size
    · rw [if_pos hi, umod_pos _ hcap] at h
      have him : i % rb.cap = i := Nat.mod_eq_of_lt (by omega)
      simp only [him] at h
      by_cases hc : ((j + 1 : Nat) : Int) = count
      · rw [if_pos hc] at h
        simp only [Option.some.injEq, Prod.mk.injEq, true_and] at h
        subst h
        refine ⟨?_, ?_⟩
        · rw [List.length_append, List.length_singleton, hj]
          exact hc
        · intro p hp
          rw [List.mem_append, List.mem_singleton] at hp
          rcases hp with hp | hp
          · exact Or.inl hp
          · exact Or.inr ⟨i, le_refl _, hi, hp⟩
      · rw [if_neg hc] at h
        obtain ⟨h1, h2⟩ := ih (i + 1) (j + 1) _ l h
          (by rw [List.length_append, List.length_singleton, hj])
        refine ⟨h1, ?_⟩
        intro p hp
        rcases h2 p hp with hp | ⟨k, hk1, hk2, hk3⟩
        · rw [List.mem_append, List.mem_singleton] at hp
          rcases hp with hp | hp
          · exact Or.inl hp
          · exact Or.inr ⟨i, le_refl _, hi, hp⟩
        · exact Or.inr ⟨k, by omega, hk2, hk3⟩
    · rw [if_neg hi] at h
      simp at h

theorem get_and_clean_live (rb : ringBuffer_t) (hcap : 0 < rb.cap) (hsz : rb.size ≤ rb.cap)
    (count : Nat) (al : Alloc) :
    (∃ l, ringBuffer_get_and_clean_msgs rb count al = some (-1, rb, l)) ∨
    (∃ m l, ringBuffer_get_and_clean_msgs rb count al =
        some (0, { rb with msgs := m, head := 0, tail := 0, size := 0 }, l) ∧
      ((l.length : Nat) : Int) = toInt32 count ∧
      ∀ p ∈ l, ∃ s ∈ live rb.toringBuffer_s, s.data = p) := by
  unfold ringBuffer_get_and_clean_msgs
  split
  · exact Or.inl ⟨_, rfl⟩
  · split
    · exact Or.inl ⟨_, rfl⟩
    · obtain ⟨r, hr⟩ := get_msgs_some rb.toringBuffer_s hcap hsz (toInt32 count) al
      obtain ⟨m, fr, hc⟩ := clean_msgs_spec rb hcap false
      rw [hr, hc]
      obtain ⟨ret, l⟩ := r
      by_cases h : ret ≠ 0
      · simp only [if_pos h]
        exact Or.inl ⟨_, rfl⟩
      · simp only [if_neg h]
        have h0 : ret = 0 := by
          by_contra hne
          exact h hne
        subst h0
        refine Or.inr ⟨_, _, rfl, ?_⟩
        unfold ringBuffer_get_msgs at hr
        split at hr
        · simp at hr
        · obtain ⟨h1, h2⟩ := get_msgs_loop_mem rb.toringBuffer_s hcap hsz _ _ _ _ _ _ hr rfl
          refine ⟨h1, ?_⟩
          intro p hp
          rcases h2 p hp with hp | ⟨k, hk1, hk2, hk3⟩
          · exact absurd hp (List.not_mem_nil p)
          · exact ⟨_, mem_live_of_index rb.toringBuffer_s hsz k hk1 hk2, hk3.symm⟩

theorem put_msgs_live (rb : ringBuffer_t) (hcap : 0 < rb.cap) (hsz : rb.size ≤ rb.cap)
    (aio : nng_aio) (al : Alloc) :
    put_msgs_to_aio rb aio al = some ⟨-1, rb, aio, [], none⟩ ∨
    (∃ m, put_msgs_to_aio rb aio al =
      some ⟨-1, { rb with msgs := m, head := 0, tail := 0, size := 0 }, aio, [], none⟩) ∨
    (∃ m l, put_msgs_to_aio rb aio al =
        some ⟨0, { rb with msgs := m, head := 0, tail := 0, size := 0 },
          ⟨some (toInt32 rb.cap), some l⟩, [], none⟩ ∧
      ((l.length : Nat) : Int) = toInt32 rb.cap ∧
      ∀ p ∈ l, ∃ s ∈ live rb.toringBuffer_s, s.data = p) := by
  unfold put_msgs_to_aio
  rcases get_and_clean_live rb hcap hsz rb.cap al with ⟨l, h⟩ | ⟨m, l, h, h1, h2⟩
  · rw [h]
    exact Or.inl rfl
  · rw [h]
    right
    simp only [ne_eq, not_true_eq_false, if_false]
    split
    · exact Or.inl ⟨_, rfl⟩
    · split
      · exact Or.inl ⟨_, rfl⟩
      · exact Or.inr ⟨_, _, rfl, h1, h2⟩

theorem write_msgs_live (rb : ringBuffer_t) (hcap : 0 < rb.cap) (aio : nng_aio) (al : Alloc) :
    ∃ ret m fl fr pq, write_msgs_to_file rb aio al =
      some ⟨ret, { rb with msgs := m, files := fl, head := 0, tail := 0, size := 0 },
        aio, fr, pq⟩ := by
  unfold write_msgs_to_file
  split
  · obtain ⟨m, fr, h⟩ := cleanAndReturn_spec rb hcap true (-1) aio none
    exact ⟨_, _, _, _, _, h⟩
  · split
    · obtain ⟨m, fr, h⟩ := cleanAndReturn_spec rb hcap true (-1) aio none
      exact ⟨_, _, _, _, _, h⟩
    · rename_i obj _
      split
      · obtain ⟨m, fr, h⟩ := cleanAndReturn_spec rb hcap true (-1) aio (some obj)
        exact ⟨_, _, _, _, _, h⟩
      · obtain ⟨m, fr, h⟩ := cleanAndReturn_spec
          { rb with files := rb.files ++ [⟨(List.range rb.cap).map fun i => (rb.msgs i).key⟩] }
          hcap false 0 aio (some obj)
        exact ⟨_, _, _, _, _, h⟩

theorem enqueue_full_live (rb : ringBuffer_t) (h : wf rb.toringBuffer_s) (aio : nng_aio)
    (al : Alloc) :
    (∃ fr pq, ringBuffer_enqueue.full rb aio al = some ⟨-1, rb, aio, fr, pq⟩) ∨
    (∃ ret m fl fr pq, ringBuffer_enqueue.full rb aio al =
      some ⟨ret, { rb with msgs := m, files := fl, head := 0, tail := 0, size := 0 },
        aio, fr, pq⟩) ∨
    (∃ m l, ringBuffer_enqueue.full rb aio al =
        some ⟨0, { rb with msgs := m, head := 0, tail := 0, size := 0 },
          ⟨some (toInt32 rb.cap), some l⟩, [], none⟩ ∧
      ((l.length : Nat) : Int) = toInt32 rb.cap ∧
      ∀ p ∈ l, ∃ s ∈ live rb.toringBuffer_s, s.data = p) := by
  have hcap := h.1.1
  have hsz := h.1.2.2.1
  have hop := h.2
  unfold ringBuffer_enqueue.full
  split
  · exact Or.inl ⟨_, _, rfl⟩
  · obtain ⟨m, fr, hc⟩ := cleanAndReturn_spec rb hcap true 0 aio none
    exact Or.inr (Or.inl ⟨_, m, rb.files, _, _, hc⟩)
  · rcases put_msgs_live rb hcap hsz aio al with hp | ⟨m, hp⟩ | ⟨m, l, hp, h1, h2⟩
    · exact Or.inl ⟨_, _, hp⟩
    · exact Or.inr (Or.inl ⟨_, m, rb.files, _, _, hp⟩)
    · exact Or.inr (Or.inr ⟨m, l, hp, h1, h2⟩)
  · obtain ⟨ret, m, fl, fr, pq, hw⟩ := write_msgs_live rb hcap aio al
    exact Or.inr (Or.inl ⟨_, _, _, _, _, hw⟩)
  · rename_i hmax
    exact absurd hmax hop

theorem live_insert_cleared (rb : ringBuffer_t)
    (m : Nat → ringBufferMsg_t) (fl : List ringBufferFile_t) (s : ringBufferMsg_t) :
    live ({ rb with
      files := fl, head := 0, msgs := setSlot m 0 s, tail := (0 + 1) % rb.cap,
      size := 0 + 1 } : ringBuffer_t).toringBuffer_s = [s] := by
  show window (setSlot m 0 s) rb.cap 1 0 = _
  simp [window, setSlot, Nat.zero_mod]

theorem enqueue_live (rb : ringBuffer_t) (h : wf rb.toringBuffer_s) (key : Nat) (data : Ptr)
    (expiredAt : Nat) (aio : nng_aio) (al : Alloc) :
    ∃ o, ringBuffer_enqueue rb key data expiredAt aio al = some o ∧
      wf o.rb.toringBuffer_s ∧
      (∀ s ∈ live o.rb.toringBuffer_s,
        s = ⟨key, data, expiredAt⟩ ∨ s ∈ live rb.toringBuffer_s) ∧
      (o.aio = aio ∨
        ∃ l, o.aio = ⟨some (toInt32 rb.cap), some l⟩ ∧
          ((l.length : Nat) : Int) = toInt32 rb.cap ∧
          (∀ p ∈ l, ∃ s ∈ live rb.toringBuffer_s, s.data = p) ∧
          live o.rb.toringBuffer_s = [⟨key, data, expiredAt⟩]) := by
  have hcap := h.1.1
  unfold ringBuffer_enqueue
  split
  · exact ⟨_, rfl, h, fun s hs => Or.inr hs, Or.inl rfl⟩
  · split
    · rcases enqueue_full_live rb h aio al with ⟨fr, pq, hf⟩ | ⟨ret, m, fl, fr, pq, hf⟩ |
        ⟨m, l, hf, h1, h2⟩
      · rw [hf]
        exact ⟨_, rfl, h, fun s hs => Or.inr hs, Or.inl rfl⟩
      · rw [hf]
        by_cases hr : ret ≠ 0
        · simp only [if_pos hr]
          refine ⟨_, rfl, ⟨ringInv_cleared _ hcap m fl, h.2⟩, ?_, Or.inl rfl⟩
          intro s hs
          exact absurd hs (List.not_mem_nil s)
        · simp only [if_neg hr]
          rw [insert_spec _ hcap]
          refine ⟨_, rfl, ⟨?_, h.2⟩, ?_, Or.inl rfl⟩
          · exact ringInv_insert _ (ringInv_cleared _ hcap m fl) hcap _ _
          · intro s hs
            rw [live_insert_cleared rb m fl ⟨key, data, expiredAt⟩] at hs
            exact Or.inl (List.mem_singleton.mp hs)
      · rw [hf]
        simp only [ne_eq, not_true_eq_false, if_false]
        rw [insert_spec _ hcap]
        have hl := live_insert_cleared rb m rb.files ⟨key, data, expiredAt⟩
        refine ⟨_, rfl, ⟨?_, h.2⟩, ?_, Or.inr ⟨l, rfl, h1, h2, hl⟩⟩
        · exact ringInv_insert _ (ringInv_cleared _ hcap m rb.files) hcap _ _
        · intro s hs
          rw [hl] at hs
          exact Or.inl (List.mem_singleton.mp hs)
    · rename_i hne
      rw [insert_spec _ hcap]
      refine ⟨_, rfl, ⟨?_, h.2⟩, ?_, Or.inl rfl⟩
      · exact ringInv_insert _ h.1 (lt_of_le_of_ne h.1.2.2.1 hne) _ _
      · intro s hs
        have hl := live_insert rb.toringBuffer_s h.1 (lt_of_le_of_ne h.1.2.2.1 hne)
          ⟨key, data, expiredAt⟩
        have hs1 : s ∈ live rb.toringBuffer_s ++ [⟨key, data, expiredAt⟩] := by
          rw [← hl]
          exact hs
        rw [List.mem_append, List.mem_singleton] at hs1
        rcases hs1 with hs1 | hs1
        · exact Or.inr hs1
        · exact Or.inl hs1

theorem handle_msg_covers (E : ExEnv) (hE : RingHandler E) (m : nni_id_map)
    (ex : exchange_t) (hinv : mapCovers E m ex) (msg : Ptr) (aio : nng_aio) :
    ∃ o, exchange_client_handle_msg E m ex msg aio = some o ∧
      mapCovers E o.rbmsgmap o.ex ∧
      (o.ret = 0 → o.rbmsgmap (E.nni_msg_get_timestamp msg % 2 ^ 32) = some msg) := by
  obtain ⟨rb, rest, hrbs, hwf, hcov⟩ := hinv
  unfold exchange_client_handle_msg
  by_cases h1 : nni_id_get m (E.nni_msg_get_timestamp msg % 2 ^ 32) ≠ NULL
  · rw [if_pos h1]
    exact ⟨_, rfl, ⟨rb, rest, hrbs, hwf, hcov⟩, fun h => absurd h (by simp)⟩
  rw [if_neg h1]
  have h1' : nni_id_get m (E.nni_msg_get_timestamp msg % 2 ^ 32) = NULL := by
    by_contra hc
    exact h1 hc
  by_cases h2 : E.nni_id_set_ok (E.nni_msg_get_timestamp msg % 2 ^ 32) = false
  · rw [if_pos h2]
    exact ⟨_, rfl, ⟨rb, rest, hrbs, hwf, hcov⟩, fun h => absurd h (by simp)⟩
  rw [if_neg h2]
  obtain ⟨al, hal⟩ := hE ex (E.nni_msg_get_timestamp msg) msg { aio with prov_data := none }
  obtain ⟨oe, he, hwf1, hlive, haio⟩ := enqueue_live rb hwf (E.nni_msg_get_timestamp msg) msg
    rb.expiredAt { aio with prov_data := none } al
  have hh : exchange_handle_msg al ex (E.nni_msg_get_timestamp msg) msg
      { aio with prov_data := none } = some ⟨oe.ret, ⟨oe.rb :: rest⟩, oe.aio⟩ := by
    unfold exchange_handle_msg
    rw [hrbs]
    simp only [he, Option.map_some']
  -- the entries of the messages in the buffer are not under the key of `msg`
  have hkey : ∀ s ∈ live rb.toringBuffer_s, s.data ≠ NULL →
      E.nni_msg_get_timestamp s.data % 2 ^ 32 ≠ E.nni_msg_get_timestamp msg % 2 ^ 32 := by
    intro s hs hd e
    apply hcov s hs hd
    rw [e]
    exact h1'
  -- the map with the new entry covers the buffer after the enqueue
  have hset : ∀ s ∈ live oe.rb.toringBuffer_s, s.data ≠ NULL →
      nni_id_get (nni_id_set m (E.nni_msg_get_timestamp msg % 2 ^ 32) msg)
        (E.nni_msg_get_timestamp s.data % 2 ^ 32) ≠ NULL := by
    intro s hs hd
    rcases hlive s hs with e | hold
    · subst e
      show nni_id_get (nni_id_set m (E.nni_msg_get_timestamp msg % 2 ^ 32) msg)
        (E.nni_msg_get_timestamp msg % 2 ^ 32) ≠ NULL
      unfold nni_id_get nni_id_set
      rw [if_pos rfl]
      exact hd
    · have := hkey s hold hd
      unfold nni_id_get nni_id_set
      rw [if_neg this]
      exact hcov s hold hd
  rw [hal, hh]
  simp only
  by_cases h3 : oe.ret ≠ 0
  · rw [if_pos h3]
    exact ⟨_, rfl, ⟨oe.rb, rest, rfl, hwf1, hset⟩, fun h => absurd h (by simp)⟩
  rw [if_neg h3]
  rcases haio with haio | ⟨l, haio, hlen, hmem, hl1⟩
  · rw [haio]
    simp only
    exact ⟨_, rfl, ⟨oe.rb, rest, rfl, hwf1, hset⟩, fun _ => by
      show nni_id_set m _ msg _ = some msg
      unfold nni_id_set
      rw [if_pos rfl]⟩
  · rw [haio]
    simp only
    have hn : (toInt32 rb.cap).toNat ≤ l.length := by
      rw [← hlen]
      exact le_of_eq (Int.toNat_natCast _)
    obtain ⟨m1, g1, _, g3, _⟩ := handle_clean_spec E (toInt32 rb.cap).toNat l
      (nni_id_set m (E.nni_msg_get_timestamp msg % 2 ^ 32) msg) hn
    rw [g1]
    have hentry : m1 (E.nni_msg_get_timestamp msg % 2 ^ 32) = some msg := by
      rw [g3 _ (fun p hp hpn => by
        obtain ⟨s, hs, hsd⟩ := hmem p (List.mem_of_mem_take hp)
        rw [← hsd]
        exact hkey s hs (by rw [hsd]; exact hpn))]
      unfold nni_id_set
      rw [if_pos rfl]
    refine ⟨_, rfl, ⟨oe.rb, rest, rfl, hwf1, ?_⟩, fun _ => hentry⟩
    intro s hs hd
    rw [hl1, List.mem_singleton] at hs
    subst hs
    show nni_id_get m1 _ ≠ NULL
    unfold nni_id_get
    rw [hentry]
    exact hd

theorem mapCovers_empty (E : ExEnv) (m : nni_id_map) (rb : ringBuffer_t)
    (rest : List ringBuffer_t) (hwf : wf rb.toringBuffer_s) (hempty : rb.size = 0) :
    mapCovers E m ⟨rb :: rest⟩ := by
  refine ⟨rb, rest, rfl, hwf, ?_⟩
  intro s hs
  have h0 : live rb.toringBuffer_s = [] := by
    unfold live
    rw [hempty]
    rfl
  rw [h0] at hs
  exact absurd hs (List.not_mem_nil s)

theorem handleAll_covers (E : ExEnv) (hE : RingHandler E) (history : List (Ptr × nng_aio)) :
    ∀ (m : nni_id_map) (ex : exchange_t), mapCovers E m ex →
      ∃ m1 ex1, handleAll E m ex history = some (m1, ex1) ∧ mapCovers E m1 ex1 := by
  induction history with
  | nil => intro m ex h; exact ⟨m, ex, rfl, h⟩
  | cons p rest ih =>
    intro m ex h
    obtain ⟨o, ho, hc, _⟩ := handle_msg_covers E hE m ex h p.1 p.2
    obtain ⟨m1, ex1, h1, hc1⟩ := ih o.rbmsgmap o.ex hc
    refine ⟨m1, ex1, ?_, hc1⟩
    simp only [handleAll, ho, h1]

/-- Claim C27: a socket whose exchange enqueues on its first ring buffer, empty at the
start (as `ringBuffer_init` leaves it), after any sequence of
`exchange_client_handle_msg` calls: the sequence has a defined result, and for every
message `msg1` and every message `msg2` whose timestamp has the same low 32 bits (the two
64-bit keys may differ), the call for `msg1` has a result, and when it returns `0` the call
for `msg2` returns `-1` without calling `exchange_handle_msg` and leaves `rbmsgmap` and
the exchange as they were, and `exchange_client_get_msg_by_key` for the timestamp of
`msg2` returns `msg1`. -/
theorem low32_duplicate_rejected (E : ExEnv) (hE : RingHandler E) (s : exchange_sock_t)
    (rb : ringBuffer_t) (rest : List ringBuffer_t) (hwf : wf rb.toringBuffer_s)
    (hempty : rb.size = 0) (history : List (Ptr × nng_aio)) :
    ∃ m ex, handleAll E s.rbmsgmap ⟨rb :: rest⟩ history = some (m, ex) ∧
      ∀ (msg1 msg2 : Ptr) (aio1 aio2 : nng_aio), msg1 ≠ NULL →
        E.nni_msg_get_timestamp msg2 % 2 ^ 32 = E.nni_msg_get_timestamp msg1 % 2 ^ 32 →
        ∃ o1, exchange_client_handle_msg E m ex msg1 aio1 = some o1 ∧
          (o1.ret = 0 →
            ∃ o2, exchange_client_handle_msg E o1.rbmsgmap o1.ex msg2 aio2 = some o2 ∧
              o2.ret = -1 ∧ o2.delegated = false ∧ o2.rbmsgmap = o1.rbmsgmap ∧
              o2.ex = o1.ex ∧
              exchange_client_get_msg_by_key { s with rbmsgmap := o2.rbmsgmap }
                (E.nni_msg_get_timestamp msg2) = (0, some msg1)) := by
  obtain ⟨m, ex, hrun, hc⟩ := handleAll_covers E hE history s.rbmsgmap ⟨rb :: rest⟩
    (mapCovers_empty E s.rbmsgmap rb rest hwf hempty)
  refine ⟨m, ex, hrun, ?_⟩
  intro msg1 msg2 aio1 aio2 hmsg1 hlow
  obtain ⟨o1, h1, _, hentry⟩ := handle_msg_covers E hE m ex hc msg1 aio1
  refine ⟨o1, h1, fun hret => ?_⟩
  have hget : nni_id_get o1.rbmsgmap (E.nni_msg_get_timestamp msg2 % 2 ^ 32) = msg1 := by
    unfold nni_id_get
    rw [hlow, hentry hret]
    rfl
  refine ⟨⟨-1, o1.rbmsgmap, o1.ex, { aio2 with prov_data := none }, [msg2], false⟩, ?_, rfl,
    rfl, rfl, rfl, ?_⟩
  · unfold exchange_client_handle_msg
    simp only [hget]
    rw [if_pos hmsg1]
  · unfold exchange_client_get_msg_by_key
    simp only [hget]
    rw [if_neg hmsg1]

theorem low32_duplicate_rejected_witness :
    ((handleAll exEnv exchange_sock_init.rbmsgmap
        ⟨[exEmptyRb 1 fullOption.RB_FULL_RETURN]⟩ [(2 * 2 ^ 32 + 5, ⟨none, none⟩)]).bind
      fun p => (exchange_client_handle_msg exEnv p.1 p.2 (2 ^ 32 + 7) ⟨none, none⟩).map
        fun o => (o.ret, o.aio.prov_data)) = some (0, some [2 * 2 ^ 32 + 5]) ∧
    ∃ m ex, handleAll exEnv exchange_sock_init.rbmsgmap
        ⟨[exEmptyRb 1 fullOption.RB_FULL_RETURN]⟩ [(2 * 2 ^ 32 + 5, ⟨none, none⟩)] =
          some (m, ex) ∧
      ∃ o1, exchange_client_handle_msg exEnv m ex (2 ^ 32 + 7) ⟨none, none⟩ = some o1 ∧
        (o1.ret = 0 →
          ∃ o2, exchange_client_handle_msg exEnv o1.rbmsgmap o1.ex (3 * 2 ^ 32 + 7)
              ⟨none, none⟩ = some o2 ∧
            o2.ret = -1 ∧ o2.delegated = false ∧ o2.rbmsgmap = o1.rbmsgmap ∧
            o2.ex = o1.ex ∧
            exchange_client_get_msg_by_key { exchange_sock_init with rbmsgmap := o2.rbmsgmap }
              (exEnv.nni_msg_get_timestamp (3 * 2 ^ 32 + 7)) = (0, some (2 ^ 32 + 7))) :=
  ⟨rfl,
    (low32_duplicate_rejected exEnv (fun _ _ _ _ => ⟨Alloc.ok, rfl⟩) exchange_sock_init
      (exEmptyRb 1 fullOption.RB_FULL_RETURN) [] (by decide) rfl
      [(2 * 2 ^ 32 + 5, ⟨none, none⟩)]).imp fun _ h => h.imp fun _ h1 =>
        ⟨h1.1, h1.2 (2 ^ 32 + 7) (3 * 2 ^ 32 + 7) ⟨none, none⟩ ⟨none, none⟩ (by decide)
          (by decide)⟩⟩

theorem runEvents_append (E : ExEnv) (l1 l2 : List ExEvent) (s : exchange_sock_t) :
    runEvents E s (l1 ++ l2) = (runEvents E s l1).bind fun s1 => runEvents E s1 l2 := by
  induction l1 generalizing s with
  | nil => rfl
  | cons e rest ih =>
    show (match e.run E s with
      | none => none
      | some s1 => runEvents E s1 (rest ++ l2)) =
      (match e.run E s with
      | none => none
      | some s1 => runEvents E s1 rest).bind fun s1 => runEvents E s1 l2
    rcases e.run E s with _ | s1
    · rfl
    · exact ih s1

theorem sock_send_busy_full (E : ExEnv) (s : exchange_sock_t) (node : exchange_node_t)
    (a msg : Ptr) (hnode : s.ex_node = some node) (hbusy : node.isBusy = true)
    (hmsg : msg ≠ NULL) (hpub : E.nni_msg_get_type msg = CMD_PUBLISH)
    (hfull : node.send_messages.cap ≤ node.send_messages.msgs.length) :
    exchange_sock_send E s a msg true =
      { s with
        aios := fun x => if x = a then { s.aios x with msg := none } else s.aios x,
        proto_data := fun m => if m = msg then a else s.proto_data m,
        freed := s.freed ++ [msg] } := by
  unfold exchange_sock_send nni_lmq_put
  simp only [hnode, hbusy]
  rw [if_neg (by decide), if_neg hmsg, if_neg (fun h => h hpub)]
  have hl : ¬ node.send_messages.msgs.length < node.send_messages.cap := by omega
  simp [hl]

theorem busy_sends (E : ExEnv) (ps : List (Ptr × Ptr)) (s : exchange_sock_t)
    (node : exchange_node_t) (hnode : s.ex_node = some node) (hbusy : node.isBusy = true)
    (hroom : node.send_messages.msgs.length + ps.length ≤ node.send_messages.cap)
    (hps : ∀ p ∈ ps, p.2 ≠ NULL ∧ E.nni_msg_get_type p.2 = CMD_PUBLISH) :
    ∃ s1, runEvents E s (ps.map fun p => ExEvent.send p.1 p.2 true) = some s1 ∧
      s1.ex_node = some
        { node with
          send_messages :=
            { node.send_messages with
              msgs := node.send_messages.msgs ++ ps.map Prod.snd } } ∧
      s1.finished = s.finished ∧ s1.freed = s.freed ∧ s1.closed = s.closed ∧
      s1.handled = s.handled ∧
      ∀ m, s1.proto_data m = s.proto_data m ∨ s1.proto_data m ∈ ps.map Prod.fst := by
  induction ps generalizing s node with
  | nil =>
    refine ⟨s, rfl, ?_, rfl, rfl, rfl, rfl, fun m => Or.inl rfl⟩
    rw [hnode]
    simp
  | cons p ps ih =>
    have hp := hps p (List.mem_cons_self _ _)
    have hr : node.send_messages.msgs.length + (ps.length + 1) ≤ node.send_messages.cap := by
      rw [List.length_cons] at hroom; exact hroom
    have e1 := sock_send_busy_room E s node p.1 p.2 hnode hbusy hp.1 hp.2 (by omega)
    obtain ⟨s1, g1, g2, g3, g4, g5, g6, g7⟩ := ih (exchange_sock_send E s p.1 p.2 true)
      { node with
        send_messages :=
          { node.send_messages with msgs := node.send_messages.msgs ++ [p.2] } }
      (by rw [e1]) hbusy
      (by
        show (node.send_messages.msgs ++ [p.2]).length + ps.length ≤ node.send_messages.cap
        rw [List.length_append, List.length_singleton]
        omega)
      (fun q hq => hps q (List.mem_cons_of_mem _ hq))
    refine ⟨s1, ?_, ?_, ?_, ?_, ?_, ?_, ?_⟩
    · simp only [List.map_cons]
      unfold runEvents
      exact g1
    · rw [g2]
      simp
    · rw [g3, e1]
    · rw [g4, e1]
    · rw [g5, e1]
    · rw [g6, e1]
    · intro m
      rcases g7 m with h | h
      · rw [h, e1]
        show (if m = p.2 then p.1 else s.proto_data m) = s.proto_data m ∨
          (if m = p.2 then p.1 else s.proto_data m) ∈ (p :: ps).map Prod.fst
        by_cases hm : m = p.2
        · rw [if_pos hm]; right; simp
        · rw [if_neg hm]; left; rfl
      · right
        simp only [List.map_cons]
        exact List.mem_cons_of_mem _ h

theorem full_queue_send_never_finished (E : ExEnv) (s : exchange_sock_t)
    (node : exchange_node_t) (a msg : Ptr) (hnode : s.ex_node = some node)
    (hbusy : node.isBusy = true) (hmsg : msg ≠ NULL)
    (hpub : E.nni_msg_get_type msg = CMD_PUBLISH)
    (hfull : node.send_messages.cap ≤ node.send_messages.msgs.length)
    (hfresh : ∀ code, (a, code) ∉ s.finished)
    (hq : ∀ m ∈ node.send_messages.msgs, m ≠ msg ∧ s.proto_data m ≠ a) :
    ∃ s1, runEvents E s [ExEvent.send a msg true, ExEvent.close, ExEvent.send_cb,
        ExEvent.fini] = some s1 ∧
      msg ∈ s1.freed ∧ s1.handled = s.handled ∧ ∀ code, (a, code) ∉ s1.finished := by
  have e1 := sock_send_busy_full E s node a msg hnode hbusy hmsg hpub hfull
  obtain ⟨sc, hsc⟩ : ∃ sc : exchange_sock_t, sc =
      { exchange_sock_send E s a msg true with closed := true } := ⟨_, rfl⟩
  have hscn : sc.ex_node = some node := by rw [hsc, e1]; exact hnode
  have hclose : exchange_sock_close (exchange_sock_send E s a msg true) = some sc := by
    unfold exchange_sock_close
    rw [hsc, e1]
    simp only [hnode]
  have hcb : exchange_send_cb E sc = some sc := by
    unfold exchange_send_cb
    rw [hscn]
    have : sc.closed = true := by rw [hsc]
    simp only [this, if_true]
  obtain ⟨d1, d2, d3, _, _, _⟩ := fini_drain_spec node.send_messages.msgs sc
  have hfini : exchange_sock_fini sc = some
      { exchange_sock_fini.drain node.send_messages.msgs sc with
        ex_node := some { node with send_messages := ⟨node.send_messages.cap, []⟩ } } := by
    unfold exchange_sock_fini
    rw [hscn]
  refine ⟨{ exchange_sock_fini.drain node.send_messages.msgs sc with
    ex_node := some { node with send_messages := ⟨node.send_messages.cap, []⟩ } }, ?_, ?_, ?_,
    ?_⟩
  · simp only [runEvents, ExEvent.run, hclose, hcb, hfini]
  · show msg ∈ (exchange_sock_fini.drain node.send_messages.msgs sc).freed
    rw [d2, hsc, e1]
    simp
  · show (exchange_sock_fini.drain node.send_messages.msgs sc).handled = s.handled
    rw [d3, hsc, e1]
  · intro code hmem
    have hmem1 : (a, code) ∈ (exchange_sock_fini.drain node.send_messages.msgs sc).finished :=
      hmem
    rw [d1] at hmem1
    rcases List.mem_append.1 hmem1 with h | h
    · rw [hsc, e1] at h
      exact hfresh code h
    · obtain ⟨m, hm, hme⟩ := List.mem_map.1 h
      have hmq := (List.mem_filter.1 hm).1
      have hpa : sc.proto_data m = a := congrArg Prod.fst hme
      rw [hsc, e1] at hpa
      have hpa1 : (if m = msg then a else s.proto_data m) = a := hpa
      rw [if_neg (hq m hmq).1] at hpa1
      exact (hq m hmq).2 hpa1

/-- Claim C22 (refuted): two runs in which a send is never resolved.  A message accepted
into the dispatch slot of a fresh bound socket, followed by `exchange_sock_close`, a run
of the callback and `exchange_sock_fini`, has its completion never finished.  After one
send into the dispatch slot and 1024 sends into the pending queue, one more send is
dropped: its message is freed and its completion is never finished, neither by the send
nor by `exchange_sock_close`, the callback or `exchange_sock_fini`. -/
theorem sends_left_pending :
    (runEvents exEnv (exSock (exEmptyRb 3 fullOption.RB_FULL_NONE))
        [ExEvent.send 11 101 true, ExEvent.close, ExEvent.send_cb, ExEvent.fini]).map
      (fun s => (s.finished, s.freed, s.handled)) = some ([], [], []) ∧
    ∃ s1, runEvents exEnv (exSock (exEmptyRb 3 fullOption.RB_FULL_NONE))
        (ExEvent.send 10 100 true :: exSends 1024 ++
          [ExEvent.send 13 103 true, ExEvent.close, ExEvent.send_cb, ExEvent.fini]) =
          some s1 ∧
      103 ∈ s1.freed ∧ s1.handled = [] ∧ ∀ code, (13, code) ∉ s1.finished := by
  refine ⟨rfl, ?_⟩
  obtain ⟨ps, hps⟩ : ∃ ps : List (Ptr × Ptr),
      ps = (List.range 1024).map fun i => ((1000 + i, 2000 + i) : Ptr × Ptr) := ⟨_, rfl⟩
  have hlen : ps.length = 1024 := by rw [hps, List.length_map, List.length_range]
  have hmem : ∀ p ∈ ps, ∃ i : Nat, p.1 = 1000 + i ∧ p.2 = 2000 + i := by
    intro p hp
    rw [hps] at hp
    obtain ⟨i, _, hi⟩ := List.mem_map.1 hp
    exact ⟨i, by rw [← hi], by rw [← hi]⟩
  have hsends : exSends 1024 = ps.map fun p => ExEvent.send p.1 p.2 true := by
    unfold exSends
    rw [hps, List.map_map]
    rfl
  obtain ⟨node1, hn1⟩ : ∃ n : exchange_node_t, n =
      ⟨⟨[exEmptyRb 3 fullOption.RB_FULL_NONE]⟩, true, 100, 0,
        nni_lmq_init NANO_MAX_MQ_BUFFER_LEN⟩ := ⟨_, rfl⟩
  have hq1 : node1.send_messages.msgs = [] := by rw [hn1]; rfl
  have hc1 : node1.send_messages.cap = 1024 := by rw [hn1]; rfl
  obtain ⟨s2, g1, g2, g3, g4, g5, g6, g7⟩ := busy_sends exEnv ps
    (exchange_sock_send exEnv (exSock (exEmptyRb 3 fullOption.RB_FULL_NONE)) 10 100 true)
    node1 (by rw [hn1]; rfl) (by rw [hn1])
    (by rw [hq1, hc1, hlen]; decide)
    (by
      intro p hp
      obtain ⟨i, _, hi⟩ := hmem p hp
      refine ⟨?_, rfl⟩
      rw [hi]
      exact Nat.ne_of_gt (Nat.lt_of_lt_of_le (by decide : 0 < 2000) (Nat.le_add_right 2000 i)))
  obtain ⟨s3, k1, k2, k3, k4⟩ := full_queue_send_never_finished exEnv s2 _ 13 103 g2
    (by rw [hn1])
    (by decide) rfl
    (by
      show node1.send_messages.cap ≤ (node1.send_messages.msgs ++ ps.map Prod.snd).length
      rw [hc1, hq1, List.nil_append, List.length_map, hlen])
    (by
      intro code
      rw [g3]
      exact List.not_mem_nil _)
    (by
      intro m hm
      have hm1 : m ∈ node1.send_messages.msgs ++ ps.map Prod.snd := hm
      rw [hq1, List.nil_append] at hm1
      obtain ⟨p, hp, hpm⟩ := List.mem_map.1 hm1
      obtain ⟨i, _, hi⟩ := hmem p hp
      have hmi : m = 2000 + i := by rw [← hpm, hi]
      have hm103 : m ≠ 103 := by
        rw [hmi]
        intro e
        have e1 : (2000 + i : Nat) = 103 := e
        omega
      have hm100 : m ≠ 100 := by
        rw [hmi]
        intro e
        have e1 : (2000 + i : Nat) = 100 := e
        omega
      refine ⟨hm103, ?_⟩
      rcases g7 m with h | h
      · rw [h]
        show (if m = 100 then 10 else NULL) ≠ 13
        rw [if_neg hm100]
        decide
      · obtain ⟨q, hq, hqm⟩ := List.mem_map.1 h
        obtain ⟨j, hj, _⟩ := hmem q hq
        intro e
        rw [e] at hqm
        rw [hj] at hqm
        have e1 : (1000 + j : Nat) = 13 := hqm
        omega)
  refine ⟨s3, ?_, k2, ?_, k4⟩
  · rw [hsends]
    show runEvents exEnv (exSock (exEmptyRb 3 fullOption.RB_FULL_NONE))
      ([ExEvent.send 10 100 true] ++ (_ ++ _)) = _
    have h0 : runEvents exEnv (exSock (exEmptyRb 3 fullOption.RB_FULL_NONE))
        [ExEvent.send 10 100 true] = some
          (exchange_sock_send exEnv (exSock (exEmptyRb 3 fullOption.RB_FULL_NONE)) 10 100
            true) := rfl
    rw [runEvents_append, h0]
    show runEvents exEnv _ (_ ++ _) = _
    rw [runEvents_append, g1]
    exact k1
  · rw [k3, g6]
    rfl

/-- Claim C31 (refuted): a buffer of four slots after four enqueues and one dequeue holds the
messages 102, 103, 104 in slots 1, 2, 3, and slot 0 still has the dequeued message 101.
`ringBuffer_search_msgs_by_key` for key 3 and count 3 returns `0` and the list 103, 104,
101: the run of three slots from the slot of key 3 wraps into slot 0, which is not live.
On a buffer of five slots holding three messages, the search for key 3 and count 2
returns the message of slot 2 and the `NULL` of slot 3, which was never written. -/
theorem search_msgs_by_key_leaves_live_window :
    (∃ rb, (ringBuffer_init 0xffffffff 4 fullOption.RB_FULL_NONE 0 exMem Alloc.ok).bind
        (fun rb0 => runOps rb0 [exEnq 1 101, exEnq 2 102, exEnq 3 103, exEnq 4 104,
          Op.dequeue]) = some rb ∧
      rb.head = 1 ∧ rb.size = 3 ∧ rb.cap = 4 ∧
      (live rb.toringBuffer_s).map (fun s => s.data) = [102, 103, 104] ∧
      ringBuffer_search_msgs_by_key rb 3 3 Alloc.ok = some ⟨0, none, [103, 104, 101]⟩ ∧
      101 ∉ (live rb.toringBuffer_s).map (fun s => s.data)) ∧
    (∃ rb, (ringBuffer_init 0xffffffff 5 fullOption.RB_FULL_NONE 0 exMem Alloc.ok).bind
        (fun rb0 => runOps rb0 [exEnq 1 101, exEnq 2 102, exEnq 3 103]) = some rb ∧
      rb.head = 0 ∧ rb.size = 3 ∧ rb.cap = 5 ∧
      (live rb.toringBuffer_s).map (fun s => s.data) = [101, 102, 103] ∧
      ringBuffer_search_msgs_by_key rb 3 2 Alloc.ok = some ⟨0, none, [103, NULL]⟩) :=
  ⟨⟨_, rfl, rfl, rfl, rfl, rfl, rfl, by decide⟩, ⟨_, rfl, rfl, rfl, rfl, rfl, rfl⟩⟩

/-- Claim C32 (refuted): when the phase mask names the pre-enqueue and the post-enqueue
phase, the pre-enqueue list has room, its rule can be allocated and the post-enqueue list
is full, `ringBuffer_add_rule` returns `-1` and the pre-enqueue list has the new rule at
its end: its length has grown by one. -/
theorem add_rule_failure_keeps_earlier_registration (n : Nat) (rb : ringBuffer_t)
    (m t : ringBuffer_s → Ptr → Nat → Int) (al : RuleAlloc)
    (hin : rb.enqinRuleList.length ≠ n) (hout : rb.enqoutRuleList.length = n)
    (hal : al.enqin = true) :
    ringBuffer_add_rule n rb m t (ENQUEUE_IN_HOOK ||| ENQUEUE_OUT_HOOK) al =
      (-1, { rb with enqinRuleList := rb.enqinRuleList ++ [⟨m, t⟩] }) ∧
    (ringBuffer_add_rule n rb m t (ENQUEUE_IN_HOOK ||| ENQUEUE_OUT_HOOK) al).2.enqinRuleList.length
      = rb.enqinRuleList.length + 1 := by
  have key : ringBuffer_add_rule n rb m t (ENQUEUE_IN_HOOK ||| ENQUEUE_OUT_HOOK) al =
      (-1, { rb with enqinRuleList := rb.enqinRuleList ++ [⟨m, t⟩] }) := by
    unfold ringBuffer_add_rule
    have h0 : ¬ ((ENQUEUE_IN_HOOK ||| ENQUEUE_OUT_HOOK) &&& HOOK_MASK = 0) := by decide
    have h1 : ((ENQUEUE_IN_HOOK ||| ENQUEUE_OUT_HOOK) &&& ENQUEUE_IN_HOOK ≠ 0) = True :=
      eq_true (by decide)
    have h2 : ((ENQUEUE_IN_HOOK ||| ENQUEUE_OUT_HOOK) &&& ENQUEUE_OUT_HOOK ≠ 0) = True :=
      eq_true (by decide)
    simp only [if_neg h0, h1, h2, if_true]
    unfold ringBufferRuleList_add
    simp [hin, hout, hal]
  refine ⟨key, ?_⟩
  rw [key]
  show (rb.enqinRuleList ++ [(⟨m, t⟩ : ringBufferRule_t)]).length = _
  rw [List.length_append, List.length_singleton]

theorem add_rule_failure_keeps_earlier_registration_witness :
    ringBuffer_add_rule 1 { exEmptyAt2 with enqoutRuleList := [exRejectRule] }
        exRejectRule.match_ exRejectRule.target (ENQUEUE_IN_HOOK ||| ENQUEUE_OUT_HOOK)
        ⟨true, true, true, true⟩ =
      (-1, { ({ exEmptyAt2 with enqoutRuleList := [exRejectRule] } : ringBuffer_t) with
        enqinRuleList :=
          ({ exEmptyAt2 with enqoutRuleList := [exRejectRule] } : ringBuffer_t).enqinRuleList ++
            [⟨exRejectRule.match_, exRejectRule.target⟩] }) ∧
    (ringBuffer_add_rule 1 { exEmptyAt2 with enqoutRuleList := [exRejectRule] }
        exRejectRule.match_ exRejectRule.target (ENQUEUE_IN_HOOK ||| ENQUEUE_OUT_HOOK)
        ⟨true, true, true, true⟩).2.enqinRuleList.length =
      ({ exEmptyAt2 with enqoutRuleList := [exRejectRule] } : ringBuffer_t).enqinRuleList.length
        + 1 :=
  add_rule_failure_keeps_earlier_registration 1
    { exEmptyAt2 with enqoutRuleList := [exRejectRule] } exRejectRule.match_
    exRejectRule.target ⟨true, true, true, true⟩ (by decide) rfl rfl

/-- Claim C34 (refuted): a buffer of three slots under `RB_FULL_FILE` after enqueue,
enqueue, enqueue, dequeue, enqueue is full with `head = 1` and holds the keys 2, 3, 4 in
insertion order.  The next enqueue overflows, and the batch handed to the writer has the
keys 4, 2, 3 and the messages 104, 102, 103: `init_parquet_object` copies the slots
`0 .. size - 1` in index order, not from `head`. -/
theorem file_overflow_batch_not_in_insertion_order :
    ∃ rb, (ringBuffer_init 0xffffffff 3 fullOption.RB_FULL_FILE 0 exMem Alloc.ok).bind
        (fun rb0 => runOps rb0 [exEnq 1 101, exEnq 2 102, exEnq 3 103, Op.dequeue,
          exEnq 4 104]) = some rb ∧
      rb.head = 1 ∧ rb.size = 3 ∧ rb.cap = 3 ∧
      (live rb.toringBuffer_s).map (fun s => (s.key, s.data)) = [(2, 102), (3, 103), (4, 104)] ∧
      ∃ o, ringBuffer_enqueue rb 5 105 0 exAio Alloc.ok = some o ∧ o.ret = 0 ∧
        o.parquet.map (fun p => (p.keys, p.smsgs, p.size)) =
          some ([4, 2, 3], [104, 102, 103], 3) :=
  ⟨_, rfl, rfl, rfl, rfl, rfl, _, rfl, rfl, rfl⟩

theorem search_msgs_fuzz_success_count (rb : ringBuffer_t) (start end_ : Nat) (al : Alloc)
    (hzero : al.zero = false) (o : SearchOut)
    (h : ringBuffer_search_msgs_fuzz rb start end_ al = some o) (hret : o.ret = 0) :
    ∃ c, o.count = some c ∧ 1 ≤ c := by
  unfold ringBuffer_search_msgs_fuzz at h
  split at h
  · cases h; simp at hret
  split at h
  · cases h; simp at hret
  split at h
  · cases h; simp at hret
  split at h
  · simp at h
  split at h
  · cases h; simp at hret
  split at h
  · simp at h
  split at h
  · cases h; simp at hret
  simp only at h
  split at h
  · cases h; simp at hret
  rename_i halloc
  split at h
  · simp at h
  · cases h
    refine ⟨_, rfl, ?_⟩
    unfold nng_alloc at halloc
    by_contra hc
    rw [if_pos (by omega), hzero] at halloc
    exact halloc rfl

theorem search_msgs_fuzz_gap_fails (rb : ringBuffer_t) (start end_ : Nat) (al : Alloc)
    (hzero : al.zero = false) (hhead : rb.head = 0) (hbound : rb.size ≤ 2 ^ 31)
    (hsorted : ∀ i j, i ≤ j → j < rb.size → (rb.msgs i).key ≤ (rb.msgs j).key)
    (hse : start ≤ end_) (g : Nat) (hg : g + 1 < rb.size)
    (hlo : (rb.msgs g).key < start) (hhi : end_ < (rb.msgs (g + 1)).key) :
    ringBuffer_search_msgs_fuzz rb start end_ al = some ⟨-1, some 0, []⟩ := by
  have hlast : (rb.head + rb.size - 1) % 2 ^ 32 = rb.size - 1 := by
    rw [hhead, Nat.zero_add, Nat.mod_eq_of_lt (by omega)]
  obtain ⟨s, hs, _, hs2, hs3, hs4⟩ := fuzz_first_spec rb start (rb.size + 1) 0 (rb.size - 1)
    (Nat.zero_le _) (by omega) (by omega) (fun i hi => absurd hi (Nat.not_lt_zero _))
    ⟨g + 1, Nat.zero_le _, by omega, by omega⟩
    (fun i j hij hj => hsorted i j hij (by omega))
  obtain ⟨e, he, _, he2, he3, he4⟩ := fuzz_second_spec rb end_ rb.size (rb.size + 1) 0
    (rb.size - 1) (Nat.zero_le _) (by omega) (by omega) (by omega)
    (fun i hi hin => by omega) ⟨g, Nat.zero_le _, by omega, by omega⟩ hsorted
  have hs_eq : s = g + 1 := by
    have h1 : s ≤ g + 1 := by
      by_contra hc
      have := hs4 (g + 1) (by omega)
      omega
    have h2 : g < s := by
      by_contra hc
      have := hsorted s g (by omega) (by omega)
      omega
    omega
  have he_eq : e = g := by
    have h1 : g ≤ e := by
      by_contra hc
      have := he4 g (by omega) (by omega)
      omega
    have h2 : e < g + 1 := by
      by_contra hc
      have := hsorted (g + 1) e (by omega) (by omega)
      omega
    omega
  have hcount : (e + 2 ^ 32 - s + 1) % 2 ^ 32 = 0 := by
    rw [hs_eq, he_eq]
    have : g + 2 ^ 32 - (g + 1) + 1 = 2 ^ 32 := by omega
    rw [this, Nat.mod_self]
  have hk0 : (rb.msgs 0).key ≤ end_ := by
    have := hsorted 0 g (Nat.zero_le _) (by omega)
    omega
  have hkl : start ≤ (rb.msgs (rb.size - 1)).key := by
    have := hsorted (g + 1) (rb.size - 1) (by omega) (by omega)
    omega
  unfold ringBuffer_search_msgs_fuzz
  rw [if_neg (by omega), hlast, hhead]
  rw [if_neg (by omega), if_neg (fun h => h rfl)]
  simp only [hs, he]
  rw [if_neg (by omega), if_neg (by omega)]
  simp only [hcount]
  have halloc : nng_alloc al al.newList (0 * 8) = false := by
    unfold nng_alloc
    rw [if_pos (by decide), hzero]
  rw [if_pos halloc]

theorem fuzz_second_endless_gap :
    ∀ fuel : Nat,
      ringBuffer_search_msgs_fuzz.second exHugeGap (2 ^ 32 - 1) fuel 0 (2 ^ 31) = none := by
  intro fuel
  induction fuel using Nat.strong_induction_on with
  | _ fuel ih =>
    by_cases h : fuel < 32
    · interval_cases fuel <;> rfl
    · obtain ⟨f, rfl⟩ : ∃ f, fuel = f + 32 := ⟨fuel - 32, by omega⟩
      have hc : ringBuffer_search_msgs_fuzz.second exHugeGap (2 ^ 32 - 1) (f + 32) 0 (2 ^ 31) =
          ringBuffer_search_msgs_fuzz.second exHugeGap (2 ^ 32 - 1) f 0 (2 ^ 31) := rfl
      rw [hc]
      exact ih f (by omega)

theorem fuzz_huge_gap_undefined :
    ringBuffer_search_msgs_fuzz exHugeGap (2 ^ 32 - 1) (2 ^ 32 - 1) Alloc.ok = none := by
  have h1 : ringBuffer_search_msgs_fuzz.first exHugeGap (2 ^ 32 - 1) (exHugeGap.size + 1)
      exHugeGap.head ((exHugeGap.head + exHugeGap.size - 1) % 2 ^ 32) = some (2 ^ 31) := rfl
  have h2 : ringBuffer_search_msgs_fuzz.second exHugeGap (2 ^ 32 - 1) (exHugeGap.size + 1)
      exHugeGap.head ((exHugeGap.head + exHugeGap.size - 1) % 2 ^ 32) = none :=
    fuzz_second_endless_gap _
  unfold ringBuffer_search_msgs_fuzz
  rw [if_neg (by decide), if_neg (by decide), if_neg (by decide)]
  simp only [h1, h2]
  rfl

/-- Claim C33 (as worded, refuted): a buffer of `2 ^ 31 + 1` messages with `head = 0` and
the increasing keys `0, 2, 4, ..., 2 ^ 32`.  The range `[2 ^ 32 - 1, 2 ^ 32 - 1]` lies
strictly between the adjacent keys `2 ^ 32 - 2` (slot `2 ^ 31 - 1`) and `2 ^ 32` (slot
`2 ^ 31`), and the search for it has no result: the call does not fail, the 32-bit sum
`low + high + 1` of the second binary search wraps to `0` every 32 rounds and the loop
does not end. -/
theorem search_msgs_fuzz_gap_endless_on_huge_buffer :
    exHugeGap.head = 0 ∧ exHugeGap.size = 2 ^ 31 + 1 ∧
    (∀ i j, i ≤ j → j < exHugeGap.size → (exHugeGap.msgs i).key ≤ (exHugeGap.msgs j).key) ∧
    (exHugeGap.msgs (2 ^ 31 - 1)).key < 2 ^ 32 - 1 ∧
    2 ^ 32 - 1 < (exHugeGap.msgs (2 ^ 31 - 1 + 1)).key ∧
    (∀ fuel, ringBuffer_search_msgs_fuzz.second exHugeGap (2 ^ 32 - 1) fuel 0 (2 ^ 31) = none) ∧
    ringBuffer_search_msgs_fuzz exHugeGap (2 ^ 32 - 1) (2 ^ 32 - 1) Alloc.ok = none :=
  ⟨rfl, rfl, fun i j hij _ => Nat.mul_le_mul_left 2 hij, by decide, by decide,
    fuzz_second_endless_gap, fuzz_huge_gap_undefined⟩

/-- Claim C33 (amended).  The allocator answers a request of zero bytes with `NULL`, as
`nng_alloc` does.  Every call of `ringBuffer_search_msgs_fuzz` that returns `0` has
written a `count` of at least 1; and on a buffer with `head = 0`, at most `2 ^ 31`
messages and non-decreasing keys, a range with `start ≤ end` that lies strictly between
two adjacent buffered keys makes the call return `-1` (with `count = 0` written and no
list). -/
theorem search_msgs_fuzz_nonempty (rb : ringBuffer_t) (start end_ : Nat) (al : Alloc)
    (hzero : al.zero = false) :
    (∀ o, ringBuffer_search_msgs_fuzz rb start end_ al = some o → o.ret = 0 →
      ∃ c, o.count = some c ∧ 1 ≤ c) ∧
    (rb.head = 0 → rb.size ≤ 2 ^ 31 →
      (∀ i j, i ≤ j → j < rb.size → (rb.msgs i).key ≤ (rb.msgs j).key) → start ≤ end_ →
      (∃ g, g + 1 < rb.size ∧ (rb.msgs g).key < start ∧ end_ < (rb.msgs (g + 1)).key) →
      ringBuffer_search_msgs_fuzz rb start end_ al = some ⟨-1, some 0, []⟩) :=
  ⟨fun o h hret => search_msgs_fuzz_success_count rb start end_ al hzero o h hret,
   fun hhead hbound hsorted hse ⟨g, hg, hlo, hhi⟩ =>
    search_msgs_fuzz_gap_fails rb start end_ al hzero hhead hbound hsorted hse g hg hlo hhi⟩

theorem search_msgs_fuzz_nonempty_witness :
    (∃ c, (⟨0, some 3, [202, 203, 204]⟩ : SearchOut).count = some c ∧ 1 ≤ c) ∧
    ringBuffer_search_msgs_fuzz exKeys5 21 29 Alloc.ok = some ⟨-1, some 0, []⟩ :=
  ⟨(search_msgs_fuzz_nonempty exKeys5 15 45 Alloc.ok rfl).1 ⟨0, some 3, [202, 203, 204]⟩ rfl rfl,
   (search_msgs_fuzz_nonempty exKeys5 21 29 Alloc.ok rfl).2 rfl (by decide)
    (fun i j hij _ => Nat.mul_le_mul_left 10 (Nat.succ_le_succ hij)) (by decide)
    ⟨1, by decide, by decide, by decide⟩⟩

end NanoNNG
